import Mathlib

/-!
# transmutate-io/reflection: a shallow embedding

The Go package `reflection` (src/reflection.go, src/struct_builder.go) is a thin layer over
the standard `reflect` package.  The development below models

* Go types (`Ty`) and run-time values (`Value`) as far as the package can observe them:
  predeclared types, named types with their package and method sets, pointers, struct types
  with ordered fields (name, package path of unexported names, type, tag, embedded or not) and
  interface types;
* the `reflect` operations the package calls (`Kind`, `Elem`, `FieldByName`, `Field(i)`, `Set`,
  `Interface`, `Implements`, `TypeOf`, `StructOf`, `New`, `String`) together with the panics
  they raise;
* the functions of the package, one definition per Go function, with the Go names.

A Go call either returns or panics: `Res` records which.  A Go `error` result is an
`Option Err` (`none` is the nil error).  `any` is `Option Value` (`none` is the nil interface).

Scope of the model.

* Embedded fields: a field carries the flag `Anonymous`, and `StructOf` makes the checks of
  the library on embedded fields. The lookups `FieldByName` search the fields that a struct
  declares itself; the fields that an embedded struct promotes are not searched. The lookup
  of the library gives the same result whenever the struct declares the name, and whenever it
  has no embedded field (`noEmbedded`).
* Names: `isValidFieldName` is the ASCII part of the test of the library, so every name it
  accepts the library accepts too.
* Memory: `CopyFields` takes a source and a destination held in different variables.
  `CopyFieldsWithin` is the same function called with two pointers into one variable, each
  given by the path of field indexes that leads to the record it points to; it covers a
  destination that lies inside the source, and the other way round.
* The type `Value` is wider than the values of Go in two ways that the theorems make explicit
  where it matters: a field list need not satisfy the invariants of a Go struct type
  (`validStruct`), and the value stored in a field need not have the declared type of the
  field (the functions of the package only look at the declared type).
-/

namespace Reflection

/-! ## Errors and outcomes -/

/-- The four sentinel errors declared at the top of reflection.go. -/
inductive Err
  | ErrNilPointer
  | ErrNotAPointer
  | ErrNotAStruct
  | ErrFieldNotFound
deriving DecidableEq, Repr

/-- Outcome of a Go call: a normal return or a run-time panic. -/
inductive Res (α : Type)
  | ok (a : α)
  | panic (msg : String)
deriving DecidableEq, Repr

/-! ## Types -/

/-- Predeclared scalar types. -/
inductive Basic
  | bool | int | int64 | uint64 | float32 | float64 | string
deriving DecidableEq, Repr

/-- The kinds of `reflect.Kind` that the model distinguishes. -/
inductive Kind
  | Bool | Int | Int64 | Uint64 | Float32 | Float64 | String | Ptr | Struct | Interface
deriving DecidableEq, Repr

/-- Declaration of a named (defined) type: import path and name of its package, its own name,
the methods declared with a value receiver and those declared with a pointer receiver. -/
structure TypeName where
  PkgPath : String
  PkgName : String
  Name : String
  methods : List String
  ptrMethods : List String
deriving DecidableEq, Repr

/-- The record `reflect.StructField`, over the representation `τ` of its `Type` component.
`PkgPath` is empty exactly for exported fields and `Anonymous` marks an embedded field. The
components `Offset` and `Index`, which `reflect.StructOf` ignores and the package never reads,
are left out. -/
structure StructField (τ : Type) where
  Name : String
  PkgPath : String
  Typ : τ
  Tag : String
  Anonymous : Bool
deriving Repr

/-- Go types. A method is identified by the string of its name and signature. -/
inductive Ty
  | basic (b : Basic)
  | named (n : TypeName) (underlying : Ty)
  | ptr (elem : Ty)
  | struct (fields : List (StructField Ty))
  | iface (methods : List String)

mutual
/-- Type identity, as computed by `==` on `reflect.Type`. -/
def Ty.beq : Ty → Ty → Bool
  | .basic a, .basic b => a == b
  | .named n a, .named m b => n == m && Ty.beq a b
  | .ptr a, .ptr b => Ty.beq a b
  | .struct a, .struct b => Ty.beqFields a b
  | .iface a, .iface b => a == b
  | _, _ => false
/-- Identity of two field lists. -/
def Ty.beqFields : List (StructField Ty) → List (StructField Ty) → Bool
  | [], [] => true
  | a :: as, b :: bs => Ty.beqField a b && Ty.beqFields as bs
  | _, _ => false
/-- Identity of two fields. -/
def Ty.beqField : StructField Ty → StructField Ty → Bool
  | ⟨n, p, t, g, e⟩, ⟨n2, p2, t2, g2, e2⟩ =>
    n == n2 && p == p2 && Ty.beq t t2 && g == g2 && e == e2
end

mutual
theorem Ty.beq_iff : ∀ a b : Ty, Ty.beq a b = true ↔ a = b
  | .basic a, .basic b => by simp [Ty.beq]
  | .named n a, .named m b => by simp [Ty.beq, Ty.beq_iff a b]
  | .ptr a, .ptr b => by simp [Ty.beq, Ty.beq_iff a b]
  | .struct a, .struct b => by simp [Ty.beq, Ty.beqFields_iff a b]
  | .iface a, .iface b => by simp [Ty.beq]
  | .basic _, .named _ _ | .basic _, .ptr _ | .basic _, .struct _ | .basic _, .iface _ => by
    simp [Ty.beq]
  | .named _ _, .basic _ | .named _ _, .ptr _ | .named _ _, .struct _
  | .named _ _, .iface _ => by simp [Ty.beq]
  | .ptr _, .basic _ | .ptr _, .named _ _ | .ptr _, .struct _ | .ptr _, .iface _ => by
    simp [Ty.beq]
  | .struct _, .basic _ | .struct _, .named _ _ | .struct _, .ptr _ | .struct _, .iface _ => by
    simp [Ty.beq]
  | .iface _, .basic _ | .iface _, .named _ _ | .iface _, .ptr _ | .iface _, .struct _ => by
    simp [Ty.beq]
theorem Ty.beqFields_iff : ∀ a b : List (StructField Ty), Ty.beqFields a b = true ↔ a = b
  | [], [] => by simp [Ty.beqFields]
  | a :: as, b :: bs => by simp [Ty.beqFields, Ty.beqField_iff a b, Ty.beqFields_iff as bs]
  | [], _ :: _ => by simp [Ty.beqFields]
  | _ :: _, [] => by simp [Ty.beqFields]
theorem Ty.beqField_iff : ∀ a b : StructField Ty, Ty.beqField a b = true ↔ a = b
  | ⟨n, p, t, g, e⟩, ⟨n2, p2, t2, g2, e2⟩ => by simp [Ty.beqField, Ty.beq_iff t t2, and_assoc]
end

instance : DecidableEq Ty := fun a b => decidable_of_iff _ (Ty.beq_iff a b)

instance : DecidableEq (StructField Ty) := fun a b => decidable_of_iff _ (Ty.beqField_iff a b)

/-- Kind of a predeclared type. -/
def Basic.Kind : Basic → Kind
  | .bool => .Bool
  | .int => .Int
  | .int64 => .Int64
  | .uint64 => .Uint64
  | .float32 => .Float32
  | .float64 => .Float64
  | .string => .String

/-- Result of `reflect.Type.Kind`. -/
def Ty.Kind : Ty → Kind
  | .basic b => b.Kind
  | .named _ u => u.Kind
  | .ptr _ => .Ptr
  | .struct _ => .Struct
  | .iface _ => .Interface

/-- Underlying type. -/
def Ty.underlying : Ty → Ty
  | .named _ u => u.underlying
  | t => t

/-- Declaration of the type when it is a defined type. -/
def Ty.name? : Ty → Option TypeName
  | .named n _ => some n
  | _ => none

/-- Fields of a struct type, in declaration order (`NumField` and `Field(i)`); empty for the
other kinds. -/
def Ty.fields : Ty → List (StructField Ty)
  | .named _ u => u.fields
  | .struct fs => fs
  | _ => []

/-- Methods of an interface type; empty for the other kinds. -/
def Ty.ifaceMethods : Ty → List String
  | .named _ u => u.ifaceMethods
  | .iface ms => ms
  | _ => []

mutual
/-- Method set of a type: the methods of an interface type; the value-receiver methods of a
defined type; the value- and pointer-receiver methods for a pointer to a defined type; in each
case with the methods that the embedded fields of a struct promote (the rules by which a
field or method of smaller depth hides a promoted method are not modelled). -/
def Ty.methodSet : Ty → List String
  | .iface ms => ms
  | .named n u => if u.Kind = .Interface then u.ifaceMethods else n.methods ++ Ty.promoted u
  | .ptr e => Ty.ptrMethodSet e
  | .struct fs => Ty.promotedOf fs
  | .basic _ => []
/-- Method set of the pointer to a type. -/
def Ty.ptrMethodSet : Ty → List String
  | .named n u =>
    if u.Kind = .Interface then [] else n.methods ++ n.ptrMethods ++ Ty.promotedPtr u
  | .struct fs => Ty.promotedPtrOf fs
  | _ => []
/-- Methods that a struct type with the given underlying type has by promotion. -/
def Ty.promoted : Ty → List String
  | .named _ u => Ty.promoted u
  | .struct fs => Ty.promotedOf fs
  | _ => []
/-- Methods that the pointer to a struct type with the given underlying type has by
promotion. -/
def Ty.promotedPtr : Ty → List String
  | .named _ u => Ty.promotedPtr u
  | .struct fs => Ty.promotedPtrOf fs
  | _ => []
/-- Methods promoted to a struct type by its embedded fields: those of the method set of each
embedded type. -/
def Ty.promotedOf : List (StructField Ty) → List String
  | [] => []
  | f :: fs => Ty.promotedBy f ++ Ty.promotedOf fs
/-- Methods promoted to the pointer to a struct type by its embedded fields: for an embedded
`T` those with receiver `T` or `*T`, for an embedded `*T` its method set. -/
def Ty.promotedPtrOf : List (StructField Ty) → List String
  | [] => []
  | f :: fs => Ty.promotedPtrBy f ++ Ty.promotedPtrOf fs
/-- Methods promoted to a struct type by one field. -/
def Ty.promotedBy : StructField Ty → List String
  | ⟨_, _, t, _, e⟩ => if e then Ty.methodSet t else []
/-- Methods promoted to the pointer to a struct type by one field. -/
def Ty.promotedPtrBy : StructField Ty → List String
  | ⟨_, _, t, _, e⟩ => if e then Ty.methodSet t ++ Ty.ptrMethodSet t else []
end

/-- Result of `reflect.Type.Implements`: `u` is an interface type all of whose methods are in
the method set of `t`. (The library panics when `u` is not an interface; CopyFields tests the
kind first.) -/
def Ty.Implements (t u : Ty) : Bool :=
  u.Kind = .Interface && u.ifaceMethods.all (fun m => t.methodSet.contains m)

/-- Printed name of a predeclared type. -/
def Basic.typeString : Basic → String
  | .bool => "bool"
  | .int => "int"
  | .int64 => "int64"
  | .uint64 => "uint64"
  | .float32 => "float32"
  | .float64 => "float64"
  | .string => "string"

/-- One character of a string as `strconv.Quote` prints it: the double quote, the backslash
and the control characters with a short escape are escaped (the numeric escapes of the other
characters that are not printable are not modelled). -/
def quoteChar (c : Char) : String :=
  if c = Char.ofNat 34 then "\\\""
  else if c = Char.ofNat 92 then "\\\\"
  else if c = Char.ofNat 10 then "\\n"
  else if c = Char.ofNat 13 then "\\r"
  else if c = Char.ofNat 9 then "\\t"
  else String.singleton c

/-- Function `strconv.Quote`. -/
def quote (s : String) : String :=
  "\"" ++ String.join (s.toList.map quoteChar) ++ "\""

mutual
/-- Result of `reflect.Type.String`: a defined type prints as package name, dot, type name
(its import path is not printed); composite types print their structure. -/
def Ty.typeString : Ty → String
  | .basic b => b.typeString
  | .named n _ => if n.PkgName = "" then n.Name else n.PkgName ++ "." ++ n.Name
  | .ptr e => "*" ++ Ty.typeString e
  | .struct fs => "struct \x7b" ++ Ty.fieldsString fs ++ "\x7d"
  | .iface ms => "interface \x7b" ++ String.intercalate ";" (ms.map (fun m => " " ++ m))
      ++ (if ms.isEmpty then "" else " ") ++ "\x7d"
/-- Printed fields of a struct type. -/
def Ty.fieldsString : List (StructField Ty) → String
  | [] => ""
  | [f] => Ty.fieldString f ++ " "
  | f :: g :: fs => Ty.fieldString f ++ ";" ++ Ty.fieldsString (g :: fs)
/-- Printed field: name (left out for an embedded field), type and quoted tag when there is
one. -/
def Ty.fieldString : StructField Ty → String
  | ⟨n, _, t, g, e⟩ =>
    (if e then "" else " " ++ n) ++ " " ++ Ty.typeString t
      ++ (if g = "" then "" else " " ++ quote g)
end

/-! ## Values -/

/-- Run-time values. Every value carries the declaration of its defined type, if it has one.
A pointer carries its element type and the value it points to (`none` for a nil pointer); a
struct value lists its fields with their current values; an interface value carries the
dynamic value it holds (`none` for a nil interface value). -/
inductive Value
  | basic (nm : Option TypeName) (b : Basic) (data : Nat)
  | ptr (nm : Option TypeName) (elem : Ty) (target : Option Value)
  | struct (nm : Option TypeName) (fields : List (StructField Ty × Value))
  | iface (nm : Option TypeName) (methods : List String) (dyn : Option Value)

/-- The empty interface `Any` of reflection.go: nil, or a value with its run-time type. -/
abbrev Any := Option Value

/-- A type literal, or the defined type `n` over it. -/
def Ty.withName (nm : Option TypeName) (t : Ty) : Ty :=
  match nm with
  | none => t
  | some n => .named n t

/-- Result of `reflect.Value.Type`. -/
def Value.Type : Value → Ty
  | .basic nm b _ => Ty.withName nm (.basic b)
  | .ptr nm e _ => Ty.withName nm (.ptr e)
  | .struct nm fs => Ty.withName nm (.struct (fs.map Prod.fst))
  | .iface nm ms _ => Ty.withName nm (.iface ms)

/-- Result of `reflect.Value.Kind`. -/
def Value.Kind : Value → Kind
  | .basic _ b _ => b.Kind
  | .ptr _ _ _ => .Ptr
  | .struct _ _ => .Struct
  | .iface _ _ _ => .Interface

/-- Pointee of a pointer value: `none` when the pointer is nil (`IsNil`), else `Elem()`. -/
def Value.Elem : Value → Option Value
  | .ptr _ _ tgt => tgt
  | _ => none

/-- Fields of a struct value with their current values, in declaration order. -/
def Value.fields : Value → List (StructField Ty × Value)
  | .struct _ fs => fs
  | _ => []

/-- The same value under another defined-type declaration (a conversion between types with
identical underlying types). -/
def Value.withName (nm : Option TypeName) : Value → Value
  | .basic _ b d => .basic nm b d
  | .ptr _ e t => .ptr nm e t
  | .struct _ fs => .struct nm fs
  | .iface _ ms d => .iface nm ms d

/-- Result of `reflect.TypeOf`: nil for the nil interface. -/
def TypeOf (a : Any) : Option Ty := a.map Value.Type

/-! ## The reflect operations used by the package -/

/-- Result of `reflect.Type.FieldByName` among the declared fields of a struct type: the
first field with the given name, which is what the library returns whenever the name is
declared, and whenever it is not and the type has no embedded field. -/
def Ty.FieldByName (t : Ty) (name : String) : Option (StructField Ty) :=
  t.fields.find? (fun f => decide (f.Name = name))

/-- Result of `reflect.Value.FieldByName` among the declared fields of a struct value: the
field with its current value, `none` for the zero `reflect.Value` that the library returns
when there is no such field. -/
def Value.FieldByName (v : Value) (name : String) : Option (StructField Ty × Value) :=
  v.fields.find? (fun p => decide (p.1.Name = name))

/-- The value as an `Any`: an interface value gives the dynamic value it holds (the nil
interface when it holds none), any other value gives itself. -/
def Value.toAny : Value → Any
  | .iface _ _ d => d
  | v => some v

/-- Whether the type has a name (`HasName` of the run-time type: predeclared and defined
types). -/
def Ty.hasName : Ty → Bool
  | .basic _ => true
  | .named _ _ => true
  | _ => false

/-- Function haveIdenticalUnderlyingType of package reflect (tags compared), for two types of
equal kind: two interface types only when both have no methods, otherwise equal underlying
types. -/
def haveIdenticalUnderlyingType (T V : Ty) : Bool :=
  if T.Kind = .Interface then T.ifaceMethods.isEmpty && V.ifaceMethods.isEmpty
  else decide (T.underlying = V.underlying)

/-- Function directlyAssignable of package reflect. -/
def directlyAssignable (T V : Ty) : Bool :=
  if T = V then true
  else if (T.hasName && V.hasName) || decide (T.Kind ≠ V.Kind) then false
  else haveIdenticalUnderlyingType T V

/-- Method assignTo of `reflect.Value`: the value `v` of static type `srcT` converted for
storage in a variable of type `dst`, or a panic when `srcT` is not assignable to `dst`. An
interface destination stores the dynamic value. -/
def assignTo (v : Value) (srcT dst : Ty) : Res Value :=
  if directlyAssignable dst srcT then
    .ok (if dst = srcT then v else v.withName dst.name?)
  else if srcT.Implements dst then
    .ok (.iface dst.name? dst.ifaceMethods v.toAny)
  else .panic "reflect.Set: value is not assignable to type"

/-- Method `reflect.Value.Set` on the addressable field `dst` of a struct reached through a
pointer, with argument `x` obtained by `Field(i)` from a struct: panics when either field is
unexported or when the types are not assignable, else gives the value stored. -/
def Value.Set (dst : StructField Ty) (x : StructField Ty × Value) : Res Value :=
  if dst.PkgPath ≠ "" then
    .panic "reflect: reflect.Value.Set using value obtained using unexported field"
  else if x.1.PkgPath ≠ "" then
    .panic "reflect: reflect.Value.Set using value obtained using unexported field"
  else assignTo x.2 x.1.Typ dst.Typ

/-- Method `reflect.Value.Interface` on a field obtained from a struct: panics for an
unexported field, else gives the field's value as an `Any` (the dynamic value when the
field has interface type). -/
def Value.Interface (fld : StructField Ty × Value) : Res Any :=
  if fld.1.PkgPath ≠ "" then
    .panic "reflect.Value.Interface: cannot return value obtained from unexported field or method"
  else .ok fld.2.toAny

/-- Replaces the value of the first field called `name`: the effect of `Set` on the field
that `FieldByName` selects. -/
def storeField (name : String) (nv : Value) :
    List (StructField Ty × Value) → List (StructField Ty × Value)
  | [] => []
  | (f, v) :: rest =>
    if f.Name = name then (f, nv) :: rest else (f, v) :: storeField name nv rest

/-- The struct value with the first field called `name` set to `nv`. -/
def Value.store (v : Value) (name : String) (nv : Value) : Value :=
  match v with
  | .struct nm fs => .struct nm (storeField name nv fs)
  | other => other

/-- The pointer `p` with its pointee replaced by `e`; a value that is not a pointer is left
unchanged. Used to describe the caller's view of an argument after a call that writes through
it. -/
def Value.setElem (e : Value) : Value → Value
  | .ptr nm t (some _) => .ptr nm t (some e)
  | v => v

/-- Function isLetter of package reflect, on ASCII. -/
def isLetter (c : Char) : Bool := c.isAlpha || c == '_'

/-- Function isValidFieldName of package reflect, on ASCII. -/
def isValidFieldName (fieldName : String) : Bool :=
  match fieldName.toList with
  | [] => false
  | c :: cs => isLetter c && cs.all (fun d => isLetter d || d.isDigit)

/-- The test of runtimeStructField on the first byte of a name: a lower-case letter or an
underscore. -/
def startsLower (name : String) : Bool :=
  match name.toList with
  | [] => false
  | c :: _ => ('a' ≤ c && c ≤ 'z') || c == '_'

/-- Result of `reflect.Type.Elem` on a pointer type (`none` for the other kinds, where the
library panics). -/
def Ty.Elem : Ty → Option Ty
  | .named _ u => u.Elem
  | .ptr e => some e
  | _ => none

/-- Whether a method is exported: its name starts with an upper-case letter, so that it
carries no package path. -/
def methodExported (m : String) : Bool :=
  match m.toList with
  | [] => false
  | c :: _ => c.isUpper

mutual
/-- Whether a value of the type is stored directly in an interface word (the flag
kindDirectIface of the run-time type): a pointer, or a struct whose single field is stored
so. -/
def Ty.directIface : Ty → Bool
  | .named _ u => Ty.directIface u
  | .ptr _ => true
  | .struct fs => Ty.directIfaceFields fs
  | _ => false
/-- The field list of a struct type that is stored directly in an interface word. -/
def Ty.directIfaceFields : List (StructField Ty) → Bool
  | [f] => Ty.directIfaceField f
  | _ => false
/-- The single field of a struct type that is stored directly in an interface word. -/
def Ty.directIfaceField : StructField Ty → Bool
  | ⟨_, _, t, _, _⟩ => Ty.directIface t
end

/-- Whether the run-time type has the part `uncommonType`: the compiler emits it for a type
with a name and for a type with methods. -/
def Ty.hasUncommon (t : Ty) : Bool := t.hasName || !t.methodSet.isEmpty

/-- The checks of `reflect.StructOf` on the embedded field with index `i` and type `ft` among
`n` fields, in the order of the library: the message of the panic, or `none` when the field
passes. A pointer to a pointer or to an interface is illegal; an embedded interface may have
exported methods only; an embedded type with methods must be the first field, a pointer to it
the only field, a type stored directly in an interface word the only field, and none of the
methods may be unexported. -/
def embeddedCheck (i n : Nat) (ft : Ty) : Option String :=
  if ft.Kind = .Ptr ∧ (ft.Elem.map Ty.Kind = some .Ptr ∨ ft.Elem.map Ty.Kind = some .Interface)
  then some "reflect.StructOf: illegal embedded field type"
  else if ft.Kind = .Interface then
    if ft.ifaceMethods.any (fun m => !methodExported m) then
      some "reflect: embedded interface with unexported method(s) not implemented"
    else none
  else if ft.Kind = .Ptr then
    if ft.hasUncommon = true ∧ 0 < i ∧ ft.methodSet ≠ [] then
      some "reflect: embedded type with methods not implemented if type is not first field"
    else if ft.hasUncommon = true ∧ 1 < n then
      some "reflect: embedded type with methods not implemented if there is more than one field"
    else if ft.hasUncommon = true ∧ ft.methodSet.any (fun m => !methodExported m) = true then
      some "reflect: embedded interface with unexported method(s) not implemented"
    else if (ft.Elem.map (fun e => e.hasUncommon
        && e.methodSet.any (fun m => !methodExported m))) = some true then
      some "reflect: embedded interface with unexported method(s) not implemented"
    else none
  else if ft.hasUncommon = true ∧ 0 < i ∧ ft.methodSet ≠ [] then
    some "reflect: embedded type with methods not implemented if type is not first field"
  else if ft.hasUncommon = true ∧ 1 < n ∧ ft.directIface = true then
    some "reflect: embedded type with methods not implemented for non-pointer type"
  else if ft.hasUncommon = true ∧ ft.methodSet.any (fun m => !methodExported m) = true then
    some "reflect: embedded interface with unexported method(s) not implemented"
  else none

/-- The loop of `reflect.StructOf` over the fields from index `i` on, of `n` fields in all,
with the package path and the set of names seen so far. It panics on a field without name,
with an invalid name, without type, on an embedded field that carries a PkgPath, with an
empty PkgPath on a name that is not exported, with a PkgPath different from an earlier one, on
an embedded field that fails `embeddedCheck`, and on a repeated name other than the blank
name. An unexported field that is not embedded and carries its PkgPath is accepted, as in
Go 1.14 and later. -/
def structOfLoop (n : Nat) (pkgpath : String) (fset : List String) :
    Nat → List (StructField (Option Ty)) → Res (List (StructField Ty))
  | _, [] => .ok []
  | i, field :: rest =>
    if field.Name = "" then .panic "reflect.StructOf: field has no name"
    else if !isValidFieldName field.Name then .panic "reflect.StructOf: field has invalid name"
    else
      match field.Typ with
      | none => .panic "reflect.StructOf: field has no type"
      | some ft =>
        if field.Anonymous = true ∧ field.PkgPath ≠ "" then
          .panic "reflect.StructOf: field is anonymous but has PkgPath set"
        else if field.PkgPath = "" ∧ startsLower field.Name = true then
          .panic "reflect.StructOf: field is unexported but missing PkgPath"
        else if field.PkgPath ≠ "" ∧ pkgpath ≠ "" ∧ pkgpath ≠ field.PkgPath then
          .panic "reflect.Struct: fields with different PkgPath"
        else
          match (if field.Anonymous then embeddedCheck i n ft else none) with
          | some msg => .panic msg
          | none =>
            if field.Name ∈ fset ∧ field.Name ≠ "_" then
              .panic "reflect.StructOf: duplicate field"
            else
              match structOfLoop n
                  (if field.PkgPath ≠ "" ∧ pkgpath = "" then field.PkgPath else pkgpath)
                  (field.Name :: fset) (i + 1) rest with
              | .panic msg => .panic msg
              | .ok fs =>
                .ok (⟨field.Name, field.PkgPath, ft, field.Tag, field.Anonymous⟩ :: fs)

/-- Function `reflect.StructOf`. -/
def StructOf (fields : List (StructField (Option Ty))) : Res Ty :=
  match structOfLoop fields.length "" [] 0 fields with
  | .panic msg => .panic msg
  | .ok fs => .ok (.struct fs)

mutual
/-- Zero value of a type. -/
def zero : Ty → Value
  | .basic b => .basic none b 0
  | .named n u => (zero u).withName (some n)
  | .ptr e => .ptr none e none
  | .struct fs => .struct none (zeroFields fs)
  | .iface ms => .iface none ms none
/-- Zero values of the fields of a struct type. -/
def zeroFields : List (StructField Ty) → List (StructField Ty × Value)
  | [] => []
  | f :: fs => (f, zeroField f) :: zeroFields fs
/-- Zero value of a field. -/
def zeroField : StructField Ty → Value
  | ⟨_, _, t, _, _⟩ => zero t
end

/-- Function `reflect.New`: a pointer to a new zero value of the type. -/
def New (t : Ty) : Value := .ptr none t (some (zero t))

/-- A field of a struct type as the `reflect.StructField` that `Type.Field(i)` and
`Type.FieldByName` return. -/
def StructField.toReflect (f : StructField Ty) : StructField (Option Ty) :=
  ⟨f.Name, f.PkgPath, some f.Typ, f.Tag, f.Anonymous⟩

/-! ## Resolve -/

/-- Function valueOfStruct of reflection.go. The error case returns the zero
`reflect.Value` and `false` beside the error, which `Except` leaves out. -/
def valueOfStruct (t : Any) (mustPointer : Bool) : Except Err (Value × Bool) :=
  match t with
  | none => .error .ErrNilPointer
  | some tv =>
    if mustPointer && tv.Kind != .Ptr then .error .ErrNotAPointer
    else if tv.Kind = .Ptr then
      match tv.Elem with
      | none => .error .ErrNilPointer
      | some e => if e.Kind != .Struct then .error .ErrNotAStruct else .ok (e, true)
    else if tv.Kind != .Struct then .error .ErrNotAStruct
    else .ok (tv, false)

/-- Function typeOfStruct of reflection.go. -/
def typeOfStruct (t : Any) (mustPointer : Bool) : Except Err (Ty × Bool) :=
  match valueOfStruct t mustPointer with
  | .error err => .error err
  | .ok (r, p) => .ok (r.Type, p)

/-! ## CopyFields -/

/-- Body of the loop of CopyFields for index `i`. `vs` is the resolved source, `vd` the
current state of the resolved destination, `vst` and `vdt` their types. -/
def copyFieldsBody (vs : Value) (vst vdt : Ty) (vd : Value) (i : Nat) : Res Value :=
  -- get dst field
  match vdt.fields[i]? with
  | none => .panic "reflect: Field index out of bounds"
  | some dfld =>
    -- get src field by name
    match vst.FieldByName dfld.Name with
    | none => .ok vd
    | some sfld =>
      -- not the same type: dst field must be an interface that the src field implements
      if sfld.Typ ≠ dfld.Typ ∧ (dfld.Typ.Kind ≠ .Interface ∨ sfld.Typ.Implements dfld.Typ = false)
      then .ok vd
      else
        -- set value: vd.FieldByName(dfld.Name).Set(vs.Field(i))
        match vd.FieldByName dfld.Name with
        | none => .panic "reflect: call of reflect.Value.Set on zero Value"
        | some target =>
          match vs.fields[i]? with
          | none => .panic "reflect: Field index out of range"
          | some x =>
            match Value.Set target.1 x with
            | .panic msg => .panic msg
            | .ok nv => .ok (vd.store dfld.Name nv)

/-- The loop `for i := 0; i < vdt.NumField(); i++` of CopyFields, with `k` iterations left
starting at index `i`. -/
def copyFieldsLoop (vs : Value) (vst vdt : Ty) : Nat → Nat → Value → Res Value
  | 0, _, vd => .ok vd
  | k + 1, i, vd =>
    match copyFieldsBody vs vst vdt vd i with
    | .panic msg => .panic msg
    | .ok next => copyFieldsLoop vs vst vdt k (i + 1) next

/-- Function CopyFields of reflection.go. The result pairs the returned error with `dst` as
the caller sees it after the call. -/
def CopyFields (src dst : Any) : Res (Option Err × Any) :=
  -- is src or dst nil
  if src.isNone || dst.isNone then .ok (some .ErrNilPointer, dst)
  else
    match valueOfStruct src false with
    | .error err => .ok (some err, dst)
    | .ok (vs, _) =>
      match valueOfStruct dst true with
      | .error err => .ok (some err, dst)
      | .ok (vd, _) =>
        -- copy only fields existing on dst
        let vst := vs.Type
        let vdt := vd.Type
        match copyFieldsLoop vs vst vdt vdt.fields.length 0 vd with
        | .panic msg => .panic msg
        | .ok after => .ok (none, dst.map (Value.setElem after))

/-! ## CopyFields on two pointers into one variable

The arguments of CopyFields may point into the same variable, for instance `CopyFields(s, &s.X)`.
The variable is a record `root`; a pointer into it is the path of field indexes from `root` to
the record it points to (the empty path is `&root`). -/

/-- The record inside `v` that the path of field indexes leads to (`none` when an index is out
of range). -/
def subObject : List Nat → Value → Option Value
  | [], v => some v
  | i :: rest, v =>
    match v.fields[i]? with
    | some (_, c) => subObject rest c
    | none => none

/-- The variable `v` after the record at the path has been overwritten with `nv`. -/
def putAt : List Nat → Value → Value → Value
  | [], _, nv => nv
  | i :: rest, .struct nm fs, nv =>
    match fs[i]? with
    | some (d, c) => .struct nm (fs.set i (d, putAt rest c nv))
    | none => .struct nm fs
  | _ :: _, v, _ => v

/-- The loop of CopyFields when `vs` and `vd` refer to the records at the paths `ps` and `pd`
of the variable `root`: each iteration runs the body of the loop on the current contents of
the two records and stores the destination record back. The last case does not occur, since
the loop never removes a record. -/
def copyFieldsWithinLoop (ps pd : List Nat) (vst vdt : Ty) : Nat → Nat → Value → Res Value
  | 0, _, root => .ok root
  | k + 1, i, root =>
    match subObject ps root, subObject pd root with
    | some vs, some vd =>
      match copyFieldsBody vs vst vdt vd i with
      | .panic msg => .panic msg
      | .ok next => copyFieldsWithinLoop ps pd vst vdt k (i + 1) (putAt pd root next)
    | _, _ => .panic "invalid memory address or nil pointer dereference"

/-- Function CopyFields of reflection.go called with `src` the pointer to the record at the
path `ps` of the variable `root` and `dst` the pointer to the record at the path `pd` of the
same variable. Both arguments are pointers that are not nil, so the test for nil arguments
passes. The result pairs the returned error with the variable after the call; it is `none`
when a path leads to no record of `root`, so that there is no such call. -/
def CopyFieldsWithin (root : Value) (ps pd : List Nat) : Option (Res (Option Err × Value)) :=
  match subObject ps root, subObject pd root with
  | some s, some d =>
    some (
      match valueOfStruct (some (.ptr none s.Type (some s))) false with
      | .error err => .ok (some err, root)
      | .ok (vs, _) =>
        match valueOfStruct (some (.ptr none d.Type (some d))) true with
        | .error err => .ok (some err, root)
        | .ok (vd, _) =>
          -- copy only fields existing on dst
          match copyFieldsWithinLoop ps pd vs.Type vd.Type vd.Type.fields.length 0 root with
          | .panic msg => .panic msg
          | .ok after => .ok (none, after))
  | _, _ => none

/-! ## ReplaceFieldsType and FilterFields -/

/-- The type FieldReplacementMap of reflection.go: `none` for an absent key, `some w` for a
key with witness `w` (which may be the nil interface). -/
abbrev FieldReplacementMap := String → Option Any

/-- Body of the loop of ReplaceFieldsType: the field `fld` of the source type, with its
`Type` set to `reflect.TypeOf(newType)` when its name is a key of the map. -/
def replaceFieldsBody (replMap : FieldReplacementMap) (fld : StructField Ty) :
    StructField (Option Ty) :=
  match replMap fld.Name with
  | some newType => ⟨fld.Name, fld.PkgPath, TypeOf newType, fld.Tag, fld.Anonymous⟩
  | none => fld.toReflect

/-- Function ReplaceFieldsType of reflection.go. The loop appends the result of its body for
each field of `tt` in declaration order. -/
def ReplaceFieldsType (t : Any) (replMap : FieldReplacementMap) : Res (Any × Option Err) :=
  match typeOfStruct t false with
  | .error err => .ok (none, some err)
  | .ok (tt, isPointer) =>
    -- new fields
    let newFields := tt.fields.map (replaceFieldsBody replMap)
    match StructOf newFields with
    | .panic msg => .panic msg
    | .ok st =>
      let tr := New st
      .ok (if isPointer then some tr else tr.Elem, none)

/-- The loop of FilterFields over the requested names: `none` when a name is not a field of
`tt`, else the fields found, appended to `newFields` in the order of the names. -/
def filterFieldsLoop (tt : Ty) :
    List String → List (StructField (Option Ty)) → Option (List (StructField (Option Ty)))
  | [], newFields => some newFields
  | i :: rest, newFields =>
    match tt.FieldByName i with
    | none => none
    | some fld => filterFieldsLoop tt rest (newFields ++ [fld.toReflect])

/-- Function FilterFields of reflection.go. -/
def FilterFields (t : Any) (flds : List String) : Res (Any × Option Err) :=
  match typeOfStruct t false with
  | .error err => .ok (none, some err)
  | .ok (tt, isPointer) =>
    match filterFieldsLoop tt flds [] with
    | none => .ok (none, some .ErrFieldNotFound)
    | some newFields =>
      match StructOf newFields with
      | .panic msg => .panic msg
      | .ok st =>
        let tr := New st
        -- return a pointer only if t is a pointer
        .ok (if isPointer then some tr else tr.Elem, none)

/-! ## Field, HasField, FieldIsType -/

/-- Function Field of reflection.go. -/
def Field (t : Any) (name : String) : Res (Any × Option Err) :=
  match valueOfStruct t false with
  | .error err => .ok (none, some err)
  | .ok (tv, _) =>
    -- get field
    match tv.FieldByName name with
    | none => .ok (none, some .ErrFieldNotFound)
    | some fld =>
      match Value.Interface fld with
      | .panic msg => .panic msg
      | .ok a => .ok (a, none)

/-- Function HasField of reflection.go. -/
def HasField (t : Any) (name : String) : Res (Bool × Option Err) :=
  match Field t name with
  | .panic msg => .panic msg
  | .ok (_, some err) => .ok (false, some err)
  | .ok (_, none) => .ok (true, none)

/-- Function isType of reflection.go. -/
def isType (t : Option Ty) (_type : Any) : Bool :=
  t.isSome && _type.isSome && decide (t.map Ty.typeString = (TypeOf _type).map Ty.typeString)

/-- Function IsType of reflection.go. -/
def IsType (t : Any) (_type : Any) : Bool :=
  isType (TypeOf t) _type

/-- Function FieldIsType of reflection.go. None of its steps can panic. When the field is
not found the function returns the variable `err`, which is nil at that point. -/
def FieldIsType (t : Any) (name : String) (_type : Any) : Bool × Option Err :=
  match typeOfStruct t false with
  | .error err => (false, some err)
  | .ok (tt, _) =>
    match tt.FieldByName name with
    | none => (false, none)
    | some fld => (isType (some fld.Typ) _type, none)

/-! ## The Must variants -/

/-- The message of each sentinel error (the argument of `errors.New`): the value that
`panic(err)` raises. -/
def Err.Error : Err → String
  | .ErrNilPointer => "nil pointer"
  | .ErrNotAPointer => "not a pointer"
  | .ErrNotAStruct => "not a struct"
  | .ErrFieldNotFound => "field not found"

/-- Function MustCopyFields of reflection.go. The result is `dst` as the caller sees it
after the call. -/
def MustCopyFields (src dst : Any) : Res Any :=
  match CopyFields src dst with
  | .panic msg => .panic msg
  | .ok (some err, _) => .panic err.Error
  | .ok (none, after) => .ok after

/-- Function MustReplaceTypeFields of reflection.go. -/
def MustReplaceTypeFields (t : Any) (rm : FieldReplacementMap) : Res Any :=
  match ReplaceFieldsType t rm with
  | .panic msg => .panic msg
  | .ok (_, some err) => .panic err.Error
  | .ok (r, none) => .ok r

/-- Function MustFilterFields of reflection.go. -/
def MustFilterFields (t : Any) (flds : List String) : Res Any :=
  match FilterFields t flds with
  | .panic msg => .panic msg
  | .ok (_, some err) => .panic err.Error
  | .ok (r, none) => .ok r

/-- Function MustHasField of reflection.go. -/
def MustHasField (t : Any) (name : String) : Res Bool :=
  match HasField t name with
  | .panic msg => .panic msg
  | .ok (_, some err) => .panic err.Error
  | .ok (r, none) => .ok r

/-- Function MustField of reflection.go. -/
def MustField (t : Any) (name : String) : Res Any :=
  match Field t name with
  | .panic msg => .panic msg
  | .ok (_, some err) => .panic err.Error
  | .ok (r, none) => .ok r

/-- Function MustFieldIsType of reflection.go: on an error of FieldIsType it executes
`return false, err`, and `return r, nil` otherwise. -/
def MustFieldIsType (t : Any) (name : String) (_type : Any) : Bool × Option Err :=
  match FieldIsType t name _type with
  | (_, some err) => (false, some err)
  | (r, none) => (r, none)

/-! ## The struct builder -/

/-- The struct structBuilderField of struct_builder.go. -/
structure structBuilderField where
  Typ : Any
  Tag : String

/-- The struct structBuilder of struct_builder.go. The Go map `Fields` is a finite function
from names to entries (`none` for an absent key). The builder is the one that
NewStructBuilder allocated: the map is not nil. Methods that return the receiver return the
state of the builder after the call. -/
structure structBuilder where
  Fields : String → Option structBuilderField

/-- Function NewStructBuilder of struct_builder.go. -/
def NewStructBuilder : structBuilder := ⟨fun _ => none⟩

/-- Method WithField of struct_builder.go: `sb.Fields[name] = ...`. -/
def structBuilder.WithField (sb : structBuilder) (name : String) (_type : Any) (tag : String) :
    structBuilder :=
  ⟨fun key => if key = name then some ⟨_type, tag⟩ else sb.Fields key⟩

/-- The struct StructField of struct_builder.go, the descriptor that WithFields takes (by a
pointer that is not nil). -/
structure Builder.StructField where
  Name : String
  Typ : Any
  Tag : String

/-- Method WithFields of struct_builder.go. -/
def structBuilder.WithFields (sb : structBuilder) : List Builder.StructField → structBuilder
  | [] => sb
  | i :: rest => (sb.WithField i.Name i.Typ i.Tag).WithFields rest

/-- An order in which `range sb.Fields` may yield the keys of the map: every key exactly
once. Go leaves the order unspecified. -/
def structBuilder.rangeOrder (sb : structBuilder) (order : List String) : Prop :=
  order.Nodup ∧ ∀ key, key ∈ order ↔ sb.Fields key ≠ none

/-- Body of the loop of buildPointer for the key `name`: the `reflect.StructField` that is
appended (nothing when the key is absent, which no range order allows). -/
def structBuilder.appended (sb : structBuilder) (name : String) :
    Option (StructField (Option Ty)) :=
  (sb.Fields name).map (fun fld => ⟨name, "", TypeOf fld.Typ, fld.Tag, false⟩)

/-- Method buildPointer of struct_builder.go, when `range sb.Fields` yields the keys in the
order `order`. -/
def structBuilder.buildPointer (sb : structBuilder) (order : List String) : Res Value :=
  let f := order.filterMap sb.appended
  match StructOf f with
  | .panic msg => .panic msg
  | .ok st => .ok (New st)

/-- Method Build of struct_builder.go, for the range order `order`. -/
def structBuilder.Build (sb : structBuilder) (order : List String) : Res Any :=
  match sb.buildPointer order with
  | .panic msg => .panic msg
  | .ok p => .ok p.Elem

/-- Method BuildPointer of struct_builder.go, for the range order `order`. -/
def structBuilder.BuildPointer (sb : structBuilder) (order : List String) : Res Any :=
  match sb.buildPointer order with
  | .panic msg => .panic msg
  | .ok p => .ok (some p)

/-! ## Predicates and example data used by the theorems -/

/-- No field of the list is embedded. -/
def noEmbedded (fs : List (StructField Ty)) : Prop := ∀ f ∈ fs, f.Anonymous = false

instance (fs : List (StructField Ty)) : Decidable (noEmbedded fs) := by
  unfold noEmbedded
  infer_instance

/-- Invariants of the field list of a Go struct type: every name is an identifier (of ASCII
letters, digits and underscores, the names that `isValidFieldName` accepts), a field without
package path has an exported name, the unexported fields all carry the same package path, and
no name other than the blank name occurs twice. -/
def validStruct (fs : List (StructField Ty)) : Prop :=
  (∀ f ∈ fs, isValidFieldName f.Name = true ∧ (f.PkgPath = "" → startsLower f.Name = false))
  ∧ (∀ f ∈ fs, ∀ g ∈ fs, f.PkgPath ≠ "" → g.PkgPath ≠ "" → f.PkgPath = g.PkgPath)
  ∧ ((fs.map (fun f => f.Name)).filter (fun n => decide (n ≠ "_"))).Nodup

instance (fs : List (StructField Ty)) : Decidable (validStruct fs) := by
  unfold validStruct
  infer_instance

/-- The names of a field list tell its fields apart, as in every Go struct type: an exported
field does not have the blank name, and no name other than the blank name occurs twice. -/
def distinctNames (fs : List (StructField Ty)) : Prop :=
  (∀ f ∈ fs, f.PkgPath = "" → f.Name ≠ "_")
  ∧ ((fs.map (fun f => f.Name)).filter (fun n => decide (n ≠ "_"))).Nodup

instance (fs : List (StructField Ty)) : Decidable (distinctNames fs) := by
  unfold distinctNames
  infer_instance

/-- Two paths into one variable lead to records that do not overlap: neither path is the
beginning of the other. -/
def disjointPaths (ps pd : List Nat) : Prop := ¬ ps <+: pd ∧ ¬ pd <+: ps

instance (ps pd : List Nat) : Decidable (disjointPaths ps pd) := by
  unfold disjointPaths
  infer_instance

/-- The test of CopyFields that lets the destination field `dfld` receive a value, given the
same-named source field `sfld`: identical types, or `dfld` of interface type implemented by
the type of `sfld`. -/
def copies (sfld dfld : StructField Ty) : Prop :=
  ¬ (sfld.Typ ≠ dfld.Typ ∧ (dfld.Typ.Kind ≠ .Interface ∨ sfld.Typ.Implements dfld.Typ = false))

instance (sfld dfld : StructField Ty) : Decidable (copies sfld dfld) := by
  unfold copies
  infer_instance

/-- Source `vs` and destination `vd` are aligned when every destination field that
CopyFields copies is exported and the only destination field of its name, and the same-named
source field is exported and stands in `vs` at the index the destination field has in
`vd`. -/
def copyAligned (vs vd : Value) : Prop :=
  ∀ i < vd.fields.length, ∀ dfld ∈ vd.Type.fields[i]?, ∀ sfld ∈ vs.Type.FieldByName dfld.Name,
    copies sfld dfld →
      dfld.PkgPath = "" ∧ sfld.PkgPath = "" ∧ vd.Type.FieldByName dfld.Name = some dfld
        ∧ (vs.fields[i]?).map Prod.fst = some sfld

instance (vs vd : Value) : Decidable (copyAligned vs vd) := by
  unfold copyAligned
  infer_instance

/-- The type that ReplaceFieldsType is to give the field `f`: the run-time type of the witness
when the name of `f` is a key of the map with a non-nil witness, the type of `f` otherwise. -/
def replacedType (replMap : FieldReplacementMap) (f : StructField Ty) : Ty :=
  match replMap f.Name with
  | some (some w) => w.Type
  | _ => f.Typ

/-- The replacement map with the single key "A" and a nil witness. -/
def nilWitnessForA : FieldReplacementMap := fun name => if name = "A" then some none else none

/-- A `string` value; `data` stands for its contents. -/
def stringVal (data : Nat) : Value := .basic none .string data

/-- The replacement map with the single key "A" and a witness of type `string`. -/
def replaceAByString : FieldReplacementMap :=
  fun name => if name = "A" then some (some (stringVal 0)) else none

/-- An `int64` value. -/
def int64Val (n : Nat) : Value := .basic none .int64 n

/-- Exported field `A int64`. -/
def fieldA : StructField Ty := ⟨"A", "", .basic .int64, "", false⟩

/-- Exported field `B int64`. -/
def fieldB : StructField Ty := ⟨"B", "", .basic .int64, "", false⟩

/-- Unexported field `a int64` of a struct declared in package `main`. -/
def fieldLowerA : StructField Ty := ⟨"a", "main", .basic .int64, "", false⟩

/-- The value `struct{ A int64; B int64 }{A: 1, B: 2}`. -/
def structAB : Value := .struct none [(fieldA, int64Val 1), (fieldB, int64Val 2)]

/-- A pointer to a zero `struct{ B int64; A int64 }`. -/
def ptrZeroBA : Value :=
  .ptr none (.struct [fieldB, fieldA]) (some (.struct none [(fieldB, int64Val 0), (fieldA, int64Val 0)]))

/-- The value `struct{ B int64 }{B: 7}`. -/
def structB : Value := .struct none [(fieldB, int64Val 7)]

/-- A pointer to a zero `struct{ A int64; B int64 }`. -/
def ptrZeroAB : Value :=
  .ptr none (.struct [fieldA, fieldB]) (some (.struct none [(fieldA, int64Val 0), (fieldB, int64Val 0)]))

/-- The value `struct{ a int64 }{a: 1}`. -/
def structLowerA : Value := .struct none [(fieldLowerA, int64Val 1)]

/-- A pointer to a zero `struct{ a int64 }`. -/
def ptrZeroLowerA : Value :=
  .ptr none (.struct [fieldLowerA]) (some (.struct none [(fieldLowerA, int64Val 0)]))

/-- The defined type `User` (`type User struct{}`) of a package `model` at import path
`a/model`. -/
def userOfA : TypeName := ⟨"a/model", "model", "User", [], []⟩

/-- The defined type `User` (`type User struct{}`) of another package `model`, at import path
`b/model`. -/
def userOfB : TypeName := ⟨"b/model", "model", "User", [], []⟩

/-- The value `struct{ U model.User }{}` whose field has the type `User` of `a/model`. -/
def structWithUserOfA : Value :=
  .struct none [(⟨"U", "", .named userOfA (.struct []), "", false⟩, .struct (some userOfA) [])]

/-- A zero value of the type `User` of `b/model`. -/
def userOfBVal : Value := .struct (some userOfB) []

/-- The field that the struct type built from `sb` declares for the key `name`: the name,
the run-time type of the witness and the tag (`none` for an absent key or a nil witness). -/
def structBuilder.fieldOf (sb : structBuilder) (name : String) : Option (StructField Ty) :=
  (sb.Fields name).bind (fun fld => fld.Typ.map (fun w => ⟨name, "", w.Type, fld.Tag, false⟩))

/-- A zero value of the type `User` of `a/model`. -/
def userOfAVal : Value := .struct (some userOfA) []

/-- A `float32` value; `data` stands for its bits. -/
def float32Val (data : Nat) : Value := .basic none .float32 data

/-- The builder of the test: `NewStructBuilder().WithFields(A int64, B float32)` with the
tags of the test. -/
def testBuilder : structBuilder :=
  NewStructBuilder.WithFields
    [⟨"A", some (int64Val 42), "hello:\"world\""⟩, ⟨"B", some (float32Val 3), "ola:\"mundo\""⟩]

/-- Exported field `C string`. -/
def fieldC : StructField Ty := ⟨"C", "", .basic .string, "", false⟩

/-- The value `struct{ A int64; C string }{A: 42, C: 5}`, a record with exactly the fields
of the filtered source of the test. -/
def structAC : Value := .struct none [(fieldA, int64Val 42), (fieldC, stringVal 5)]

/-- A builder with the single field `A int64`. -/
def builderA : structBuilder := NewStructBuilder.WithField "A" (some (int64Val 42)) ""

/-- A builder with the single field `a int64`, a name that is not exported. -/
def builderLowerA : structBuilder := NewStructBuilder.WithField "a" (some (int64Val 42)) ""

/-- A builder with a single field whose name is empty. -/
def builderEmptyName : structBuilder := NewStructBuilder.WithField "" (some (int64Val 42)) ""

/-- The defined type `base` (`type base int64`) of package `main`. -/
def baseName : TypeName := ⟨"main", "main", "base", [], []⟩

/-- The embedded field of the unexported type `base`: it has the name of its type and, being
unexported, carries the package path. -/
def fieldBase : StructField Ty := ⟨"base", "main", .named baseName (.basic .int64), "", true⟩

/-- The value `struct{ base; A int64 }{}` of package `main`. -/
def structBaseA : Value :=
  .struct none [(fieldBase, .basic (some baseName) .int64 0), (fieldA, int64Val 0)]

/-- The empty replacement map. -/
def noReplacement : FieldReplacementMap := fun _ => none

/-- Exported field `X` of the empty interface type. -/
def fieldXAny : StructField Ty := ⟨"X", "", .iface [], "", false⟩

/-- Exported field `X` of type `struct{ A int64; X interface{} }`. -/
def fieldXInner : StructField Ty := ⟨"X", "", .struct [fieldA, fieldXAny], "", false⟩

/-- The variable `s` of type `struct{ A int64; X struct{ A int64; X interface{} } }` with
`s.A = 5` and the rest zero. -/
def nestedVar : Value :=
  .struct none [(fieldA, int64Val 5),
    (fieldXInner, .struct none [(fieldA, int64Val 0), (fieldXAny, .iface none [] none)])]

/-- The record `s.X` after the first call `CopyFields(&s, &s.X)` on `nestedVar`. -/
def nestedInner1 : Value :=
  .struct none [(fieldA, int64Val 5), (fieldXAny, .iface none []
    (some (.struct none [(fieldA, int64Val 5), (fieldXAny, .iface none [] none)])))]

/-- The record `s.X` after the second call `CopyFields(&s, &s.X)` on `nestedVar`. -/
def nestedInner2 : Value :=
  .struct none [(fieldA, int64Val 5), (fieldXAny, .iface none [] (some nestedInner1))]

/-- Exported field `S` of type `struct{ B int64 }`. -/
def fieldS : StructField Ty := ⟨"S", "", .struct [fieldB], "", false⟩

/-- Exported field `D` of type `struct{ B int64; A int64 }`. -/
def fieldD : StructField Ty := ⟨"D", "", .struct [fieldB, fieldA], "", false⟩

/-- A variable holding two records side by side: `S = struct(B: 7)` and a zero
`D = struct(B, A)`. -/
def twoRecords : Value :=
  .struct none [(fieldS, structB),
    (fieldD, .struct none [(fieldB, int64Val 0), (fieldA, int64Val 0)])]

/-- A field that `reflect.StructOf` refuses whatever the other fields are: it has no name, or
no type, or is embedded and carries a PkgPath, or has an empty PkgPath and a name that starts
with a lower-case letter or an underscore. -/
def refusedField (f : StructField (Option Ty)) : Prop :=
  f.Name = "" ∨ f.Typ = none ∨ (f.Anonymous = true ∧ f.PkgPath ≠ "")
    ∨ (f.PkgPath = "" ∧ startsLower f.Name = true)

/-- The destination field `dfld` of CopyFields has a same-named field in the source `vs` that
passes the test of the loop. -/
def copiedFrom (vs : Value) (dfld : StructField Ty) : Prop :=
  ∃ sfld, vs.Type.FieldByName dfld.Name = some sfld ∧ copies sfld dfld

/-- The effect on the fields of the destination of a sequence of assignments, each given by
the name of the field that `FieldByName` selects and the value that `Set` stores. -/
def storeAll (ws : List (String × Value)) (cur : List (StructField Ty × Value)) :
    List (StructField Ty × Value) :=
  ws.foldl (fun c w => storeField w.1 w.2 c) cur

/-! ## Lemmas -/

/-- A value has kind Struct exactly when it is a struct value. -/
theorem Value.kind_struct_iff (v : Value) : v.Kind = .Struct ↔ ∃ nm fs, v = .struct nm fs := by
  cases v with
  | basic nm b d => cases b <;> simp [Value.Kind, Basic.Kind]
  | ptr nm e tgt => simp [Value.Kind]
  | struct nm fs => simp [Value.Kind]
  | iface nm ms d => simp [Value.Kind]

/-- A pointer value has kind Ptr. -/
theorem Value.kind_ptr (nm : Option TypeName) (e : Ty) (tgt : Option Value) :
    (Value.ptr nm e tgt).Kind = .Ptr := rfl

/-- The pointee of a pointer value. -/
theorem Value.elem_ptr (nm : Option TypeName) (e : Ty) (tgt : Option Value) :
    (Value.ptr nm e tgt).Elem = tgt := rfl

/-- A value that valueOfStruct returns has kind Struct. -/
theorem valueOfStruct_kind {t : Any} {mp : Bool} {v : Value} {p : Bool}
    (h : valueOfStruct t mp = .ok (v, p)) : v.Kind = .Struct := by
  unfold valueOfStruct at h
  split at h
  · cases h
  · split at h
    · cases h
    · split at h
      · split at h
        · cases h
        · split at h
          · cases h
          · rename_i hk
            cases h
            simpa using hk
      · split at h
        · cases h
        · rename_i hk
          cases h
          simpa using hk

/-- A value that valueOfStruct returns is a struct value. -/
theorem valueOfStruct_struct {t : Any} {mp : Bool} {v : Value} {p : Bool}
    (h : valueOfStruct t mp = .ok (v, p)) : ∃ nm fs, v = .struct nm fs :=
  (Value.kind_struct_iff v).1 (valueOfStruct_kind h)

/-- The fields of the type of a struct value are the declared fields of the value. -/
theorem Value.type_fields (nm : Option TypeName) (fs : List (StructField Ty × Value)) :
    (Value.struct nm fs).Type.fields = fs.map Prod.fst := by
  cases nm <;> rfl

/-- Storing a value in a field leaves the declared fields unchanged. -/
theorem storeField_map_fst (name : String) (nv : Value) (fs : List (StructField Ty × Value)) :
    (storeField name nv fs).map Prod.fst = fs.map Prod.fst := by
  induction fs with
  | nil => rfl
  | cons p rest ih =>
    obtain ⟨f, v⟩ := p
    unfold storeField
    split
    · simp
    · simp [ih]

/-- Looking a name up among the fields of a value and among those of its type agree. -/
theorem find_fst (name : String) (fs : List (StructField Ty × Value)) :
    (fs.find? (fun p => decide (p.1.Name = name))).map Prod.fst
      = (fs.map Prod.fst).find? (fun f => decide (f.Name = name)) := by
  induction fs with
  | nil => rfl
  | cons p rest ih =>
    by_cases h : p.1.Name = name <;> simp [List.find?, h, ih]

/-- The test of CopyFields guarantees that the assignment of a same-named field succeeds. -/
theorem assignTo_copies (v : Value) (sfld dfld : StructField Ty) (h : copies sfld dfld) :
    ∃ nv, assignTo v sfld.Typ dfld.Typ = .ok nv := by
  unfold assignTo
  split
  · exact ⟨_, rfl⟩
  · rename_i hd
    split
    · exact ⟨_, rfl⟩
    · rename_i hi
      exfalso
      unfold copies at h
      apply h
      constructor
      · intro heq
        apply hd
        simp [directlyAssignable, heq]
      · right
        simpa using hi

/-- Under alignment one iteration of the CopyFields loop returns, and leaves the declared
fields of the destination as they were. -/
theorem copyFieldsBody_aligned (vs : Value) (nm : Option TypeName)
    (fs cur : List (StructField Ty × Value)) (i : Nat)
    (hal : copyAligned vs (.struct nm fs)) (hi : i < fs.length)
    (hcur : cur.map Prod.fst = fs.map Prod.fst) :
    ∃ next, copyFieldsBody vs vs.Type (Value.struct nm fs).Type (.struct nm cur) i
        = .ok (.struct nm next) ∧ next.map Prod.fst = fs.map Prod.fst := by
  unfold copyFieldsBody
  have hlen : i < (Value.struct nm fs).Type.fields.length := by
    rw [Value.type_fields]; simpa using hi
  rw [List.getElem?_eq_getElem hlen]
  simp only
  generalize hd : (Value.struct nm fs).Type.fields[i] = dfld
  have hd2 : (Value.struct nm fs).Type.fields[i]? = some dfld := by
    rw [List.getElem?_eq_getElem hlen, hd]
  cases hs : vs.Type.FieldByName dfld.Name with
  | none => exact ⟨cur, rfl, hcur⟩
  | some sfld =>
    simp only
    by_cases hc : copies sfld dfld
    · have hnot : ¬ (sfld.Typ ≠ dfld.Typ ∧
          (dfld.Typ.Kind ≠ .Interface ∨ sfld.Typ.Implements dfld.Typ = false)) := hc
      rw [if_neg hnot]
      obtain ⟨hdp, hsp, hfirst, hsrc⟩ :=
        hal i (by simpa [Value.fields] using hi) dfld (by simpa using hd2) sfld (by simpa using hs) hc
      -- the target of the assignment
      have htarget : ((Value.struct nm cur).FieldByName dfld.Name).map Prod.fst = some dfld := by
        unfold Value.FieldByName
        simp only [Value.fields]
        rw [find_fst, hcur, ← Value.type_fields nm fs]
        exact hfirst
      cases ht : (Value.struct nm cur).FieldByName dfld.Name with
      | none => rw [ht] at htarget; cases htarget
      | some target =>
        rw [ht] at htarget
        have ht1 : target.1 = dfld := by simpa using htarget
        simp only
        cases hx : vs.fields[i]? with
        | none => rw [hx] at hsrc; cases hsrc
        | some x =>
          rw [hx] at hsrc
          have hx1 : x.1 = sfld := by simpa using hsrc
          simp only
          obtain ⟨nv, hnv⟩ := assignTo_copies x.2 sfld dfld hc
          have hset : Value.Set target.1 x = .ok nv := by
            unfold Value.Set
            rw [ht1, hx1, if_neg (by simp [hdp]), if_neg (by simp [hsp])]
            exact hnv
          rw [hset]
          refine ⟨storeField dfld.Name nv cur, rfl, ?_⟩
          rw [storeField_map_fst, hcur]
    · have hyes : sfld.Typ ≠ dfld.Typ ∧
          (dfld.Typ.Kind ≠ .Interface ∨ sfld.Typ.Implements dfld.Typ = false) := by
        unfold copies at hc
        exact not_not.1 hc
      rw [if_pos hyes]
      exact ⟨cur, rfl, hcur⟩

/-- Under alignment the CopyFields loop returns. -/
theorem copyFieldsLoop_aligned (vs : Value) (nm : Option TypeName)
    (fs : List (StructField Ty × Value)) (hal : copyAligned vs (.struct nm fs)) :
    ∀ (k i : Nat) (cur : List (StructField Ty × Value)), i + k = fs.length →
      cur.map Prod.fst = fs.map Prod.fst →
      ∃ final, copyFieldsLoop vs vs.Type (Value.struct nm fs).Type k i (.struct nm cur)
        = .ok (.struct nm final) ∧ final.map Prod.fst = fs.map Prod.fst := by
  intro k
  induction k with
  | zero => intro i cur _ hcur; exact ⟨cur, rfl, hcur⟩
  | succ k ih =>
    intro i cur hik hcur
    obtain ⟨next, hnext, hmap⟩ := copyFieldsBody_aligned vs nm fs cur i hal (by omega) hcur
    unfold copyFieldsLoop
    rw [hnext]
    exact ih (i + 1) next (by omega) hmap

/-- A valid field name is not empty. -/
theorem isValidFieldName_ne_empty {s : String} (h : isValidFieldName s = true) : s ≠ "" := by
  rintro rfl
  simp [isValidFieldName] at h

/-- The loop of StructOf accepts a list of fields with valid names, consistent package paths,
no repeated name and no embedded field, whatever (non-nil) types the fields are given. -/
theorem structOfLoop_ok (h : StructField Ty → Ty) (n : Nat) :
    ∀ (fs : List (StructField Ty)) (pkgpath : String) (fset : List String) (i : Nat),
      noEmbedded fs →
      (∀ f ∈ fs, isValidFieldName f.Name = true ∧ (f.PkgPath = "" → startsLower f.Name = false)) →
      (∀ f ∈ fs, f.PkgPath ≠ "" → pkgpath ≠ "" → pkgpath = f.PkgPath) →
      (∀ f ∈ fs, ∀ g ∈ fs, f.PkgPath ≠ "" → g.PkgPath ≠ "" → f.PkgPath = g.PkgPath) →
      (∀ f ∈ fs, f.Name ≠ "_" → f.Name ∉ fset) →
      ((fs.map (fun f => f.Name)).filter (fun n => decide (n ≠ "_"))).Nodup →
      structOfLoop n pkgpath fset i
          (fs.map (fun f => (⟨f.Name, f.PkgPath, some (h f), f.Tag, f.Anonymous⟩ :
            StructField (Option Ty))))
        = .ok (fs.map (fun f => (⟨f.Name, f.PkgPath, h f, f.Tag, f.Anonymous⟩ :
            StructField Ty))) := by
  intro fs
  induction fs with
  | nil => intro _ _ _ _ _ _ _ _ _; rfl
  | cons f rest ih =>
    intro pkgpath fset i hemb hv hp hpp hd hn
    have hvf := hv f (List.mem_cons_self _ _)
    have hne : f.Name ≠ "" := isValidFieldName_ne_empty hvf.1
    have hfa : f.Anonymous = false := hemb f (List.mem_cons_self _ _)
    simp only [List.map_cons, structOfLoop]
    rw [if_neg hne]
    simp only [hvf.1, Bool.not_true, Bool.false_eq_true, if_false]
    rw [if_neg (by rw [hfa]; simp)]
    have h1 : ¬ (f.PkgPath = "" ∧ startsLower f.Name = true) := by
      rintro ⟨ha, hb⟩
      rw [hvf.2 ha] at hb
      cases hb
    rw [if_neg h1]
    have h2 : ¬ (f.PkgPath ≠ "" ∧ pkgpath ≠ "" ∧ pkgpath ≠ f.PkgPath) := by
      rintro ⟨ha, hb, hc⟩
      exact hc (hp f (List.mem_cons_self _ _) ha hb)
    rw [if_neg h2]
    simp only [hfa, Bool.false_eq_true, if_false]
    have h3 : ¬ (f.Name ∈ fset ∧ f.Name ≠ "_") := by
      rintro ⟨ha, hb⟩
      exact hd f (List.mem_cons_self _ _) hb ha
    rw [if_neg h3]
    have hrest := ih (if f.PkgPath ≠ "" ∧ pkgpath = "" then f.PkgPath else pkgpath) (f.Name :: fset)
      (i + 1)
      (fun g hg => hemb g (List.mem_cons_of_mem _ hg))
      (fun g hg => hv g (List.mem_cons_of_mem _ hg))
      (by
        intro g hg hgp hcur
        split at hcur
        · split
          · exact hpp f (List.mem_cons_self _ _) g (List.mem_cons_of_mem _ hg) (by tauto) hgp
          · tauto
        · rename_i hno
          rw [if_neg hno]
          exact hp g (List.mem_cons_of_mem _ hg) hgp hcur)
      (fun a ha b hb => hpp a (List.mem_cons_of_mem _ ha) b (List.mem_cons_of_mem _ hb))
      (by
        intro g hg hgn hmem
        rcases List.mem_cons.1 hmem with heq | hin
        · -- g.Name = f.Name contradicts Nodup
          by_cases hfn : f.Name = "_"
          · exact hgn (heq.trans hfn)
          · simp only [List.map_cons, List.filter_cons] at hn
            rw [if_pos (by simpa using hfn)] at hn
            apply (List.nodup_cons.1 hn).1
            rw [List.mem_filter]
            exact ⟨List.mem_map.2 ⟨g, hg, heq⟩, by simpa using hfn⟩
        · exact hd g (List.mem_cons_of_mem _ hg) hgn hin)
      (by
        simp only [List.map_cons, List.filter_cons] at hn
        split at hn
        · exact (List.nodup_cons.1 hn).2
        · exact hn)
    rw [hrest]

/-- StructOf accepts the fields of a valid struct type without embedded fields under any
replacement of their types. -/
theorem StructOf_ok (h : StructField Ty → Ty) (fs : List (StructField Ty)) (hv : validStruct fs)
    (hemb : noEmbedded fs) :
    StructOf (fs.map (fun f => (⟨f.Name, f.PkgPath, some (h f), f.Tag, f.Anonymous⟩ :
        StructField (Option Ty))))
      = .ok (.struct (fs.map (fun f => (⟨f.Name, f.PkgPath, h f, f.Tag, f.Anonymous⟩ :
        StructField Ty)))) := by
  unfold StructOf
  rw [structOfLoop_ok h _ fs "" [] 0 hemb hv.1 (fun _ _ _ hc => absurd rfl hc) hv.2.1
    (fun _ _ _ hm => by cases hm) hv.2.2]

/-- The loop of StructOf panics on a list that holds a field it refuses. -/
theorem structOfLoop_refused (n : Nat) :
    ∀ (fs : List (StructField (Option Ty))) (pkgpath : String) (fset : List String) (i : Nat),
      (∃ f ∈ fs, refusedField f) → ∃ msg, structOfLoop n pkgpath fset i fs = .panic msg := by
  intro fs
  induction fs with
  | nil => intro _ _ _ h; simp at h
  | cons f rest ih =>
    intro pkgpath fset i h
    unfold structOfLoop
    split
    · exact ⟨_, rfl⟩
    · rename_i hname
      split
      · exact ⟨_, rfl⟩
      · split
        · exact ⟨_, rfl⟩
        · rename_i ft hft
          split
          · exact ⟨_, rfl⟩
          · rename_i hanon
            split
            · exact ⟨_, rfl⟩
            · rename_i hlow
              split
              · exact ⟨_, rfl⟩
              · split
                · exact ⟨_, rfl⟩
                · split
                  · exact ⟨_, rfl⟩
                  · have hrest : ∃ g ∈ rest, refusedField g := by
                      obtain ⟨g, hg, hbad⟩ := h
                      rcases List.mem_cons.1 hg with rfl | hg
                      · exfalso
                        rcases hbad with hb | hb | hb | hb
                        · exact hname hb
                        · rw [hft] at hb; cases hb
                        · exact hanon hb
                        · exact hlow hb
                      · exact ⟨g, hg, hbad⟩
                    obtain ⟨msg, hmsg⟩ := ih
                      (if f.PkgPath ≠ "" ∧ pkgpath = "" then f.PkgPath else pkgpath)
                      (f.Name :: fset) (i + 1) hrest
                    rw [hmsg]
                    exact ⟨_, rfl⟩

/-- StructOf panics on a list that holds a field it refuses. -/
theorem StructOf_refused (fs : List (StructField (Option Ty)))
    (h : ∃ f ∈ fs, refusedField f) : ∃ msg, StructOf fs = .panic msg := by
  obtain ⟨msg, hmsg⟩ := structOfLoop_refused fs.length fs "" [] 0 h
  exact ⟨msg, by rw [StructOf, hmsg]⟩

/-- The zero fields of a struct type are its declared fields. -/
theorem zeroFields_map_fst (fs : List (StructField Ty)) :
    (zeroFields fs).map Prod.fst = fs := by
  induction fs with
  | nil => simp [zeroFields]
  | cons f rest ih => simp [zeroFields, ih]

/-- The zero value of a struct type has that type. -/
theorem zero_struct_type (fs : List (StructField Ty)) : (zero (.struct fs)).Type = .struct fs := by
  simp [zero, Value.Type, Ty.withName, zeroFields_map_fst]

/-- The zero value of a struct type has kind Struct. -/
theorem zero_struct_kind (fs : List (StructField Ty)) : (zero (.struct fs)).Kind = .Struct := by
  simp [zero, Value.Kind]

/-- Function typeOfStruct on a value that resolves. -/
theorem typeOfStruct_ok {t : Any} {mp : Bool} {v : Value} {p : Bool}
    (h : valueOfStruct t mp = .ok (v, p)) : typeOfStruct t mp = .ok (v.Type, p) := by
  simp [typeOfStruct, h]

/-- Function typeOfStruct on a value that does not resolve. -/
theorem typeOfStruct_error {t : Any} {mp : Bool} {err : Err}
    (h : valueOfStruct t mp = .error err) : typeOfStruct t mp = .error err := by
  simp [typeOfStruct, h]

/-- The fields that the loop of ReplaceFieldsType builds when no field is mapped to a nil witness. -/
theorem replaceFieldsBody_eq (m : FieldReplacementMap) (fs : List (StructField Ty))
    (hm : ∀ f ∈ fs, m f.Name ≠ some none) :
    fs.map (replaceFieldsBody m)
      = fs.map (fun f => (⟨f.Name, f.PkgPath, some (replacedType m f), f.Tag, f.Anonymous⟩ :
          StructField (Option Ty))) := by
  apply List.map_congr_left
  intro f hf
  have := hm f hf
  unfold replaceFieldsBody replacedType
  cases hmf : m f.Name with
  | none => simp [StructField.toReflect]
  | some w =>
    cases w with
    | none => exact absurd hmf this
    | some w => simp [TypeOf]

/-- What ReplaceFieldsType returns on a source that resolves, when no field of the source is
mapped to a nil witness. -/
theorem ReplaceFieldsType_eval (src : Any) (m : FieldReplacementMap) (vs : Value) (p : Bool)
    (hres : valueOfStruct src false = .ok (vs, p)) (hvalid : validStruct vs.Type.fields)
    (hemb : noEmbedded vs.Type.fields)
    (hm : ∀ f ∈ vs.Type.fields, m f.Name ≠ some none) :
    ReplaceFieldsType src m
      = .ok (if p then some (New (.struct (vs.Type.fields.map
            (fun f => ⟨f.Name, f.PkgPath, replacedType m f, f.Tag, f.Anonymous⟩))))
          else some (zero (.struct (vs.Type.fields.map
            (fun f => ⟨f.Name, f.PkgPath, replacedType m f, f.Tag, f.Anonymous⟩)))), none) := by
  unfold ReplaceFieldsType
  rw [typeOfStruct_ok hres]
  simp only
  rw [replaceFieldsBody_eq m _ hm, StructOf_ok _ _ hvalid hemb]
  cases p <;> simp [New, Value.Elem]

/-- ReplaceFieldsType panics on a record with a field whose replacement StructOf refuses. -/
theorem ReplaceFieldsType_refused (src : Any) (m : FieldReplacementMap) (vs : Value) (p : Bool)
    (hres : valueOfStruct src false = .ok (vs, p))
    (h : ∃ f ∈ vs.Type.fields, refusedField (replaceFieldsBody m f)) :
    ∃ msg, ReplaceFieldsType src m = .panic msg := by
  obtain ⟨f, hf, hbad⟩ := h
  obtain ⟨msg, hmsg⟩ := StructOf_refused (vs.Type.fields.map (replaceFieldsBody m))
    ⟨_, List.mem_map.2 ⟨f, hf, rfl⟩, hbad⟩
  refine ⟨msg, ?_⟩
  unfold ReplaceFieldsType
  rw [typeOfStruct_ok hres]
  simp only [hmsg]

/-- No field is found exactly when no field has the name. -/
theorem typeFieldByName_eq_none {tt : Ty} {name : String} :
    tt.FieldByName name = none ↔ ∀ f ∈ tt.fields, f.Name ≠ name := by
  simp [Ty.FieldByName, List.find?_eq_none]

/-- A field that is found is a field of the type and has the name. -/
theorem typeFieldByName_some {tt : Ty} {name : String} {f : StructField Ty}
    (h : tt.FieldByName name = some f) : f ∈ tt.fields ∧ f.Name = name := by
  unfold Ty.FieldByName at h
  exact ⟨List.mem_of_find?_eq_some h, by simpa using List.find?_some h⟩

/-- The loop of FilterFields stops with "not found" when a requested name is not a field. -/
theorem filterFieldsLoop_none (tt : Ty) :
    ∀ (names : List String) (acc : List (StructField (Option Ty))),
      (∃ n ∈ names, tt.FieldByName n = none) → filterFieldsLoop tt names acc = none := by
  intro names
  induction names with
  | nil => intro acc h; simp at h
  | cons n rest ih =>
    intro acc h
    unfold filterFieldsLoop
    cases hn : tt.FieldByName n with
    | none => rfl
    | some f =>
      simp only
      apply ih
      obtain ⟨x, hx, hxn⟩ := h
      rcases List.mem_cons.1 hx with rfl | hx
      · rw [hn] at hxn; cases hxn
      · exact ⟨x, hx, hxn⟩

/-- When every requested name is a field, the loop of FilterFields collects the fields found,
one per name and in the order of the names. -/
theorem filterFieldsLoop_some (tt : Ty) :
    ∀ (names : List String) (acc : List (StructField (Option Ty))),
      (∀ n ∈ names, tt.FieldByName n ≠ none) →
      ∃ found : List (StructField Ty),
        filterFieldsLoop tt names acc = some (acc ++ found.map StructField.toReflect)
        ∧ names.map tt.FieldByName = found.map some := by
  intro names
  induction names with
  | nil => intro acc _; exact ⟨[], by simp [filterFieldsLoop], rfl⟩
  | cons n rest ih =>
    intro acc h
    unfold filterFieldsLoop
    cases hn : tt.FieldByName n with
    | none => exact absurd hn (h n (List.mem_cons_self _ _))
    | some f =>
      simp only
      obtain ⟨found, hloop, hmap⟩ :=
        ih (acc ++ [f.toReflect]) (fun x hx => h x (List.mem_cons_of_mem _ hx))
      refine ⟨f :: found, ?_, ?_⟩
      · rw [hloop]; simp
      · simp [hn, hmap]

/-- The fields found for the names are fields of the type and carry the names. -/
theorem found_fields {tt : Ty} :
    ∀ {names : List String} {found : List (StructField Ty)},
      names.map tt.FieldByName = found.map some →
      found.map (fun f => f.Name) = names ∧ ∀ f ∈ found, f ∈ tt.fields := by
  intro names
  induction names with
  | nil =>
    intro found h
    cases found with
    | nil => simp
    | cons a b => simp at h
  | cons n rest ih =>
    intro found h
    cases found with
    | nil => simp at h
    | cons f fs =>
      simp only [List.map_cons, List.cons.injEq] at h
      obtain ⟨h1, h2⟩ := ih h.2
      obtain ⟨hmem, hname⟩ := typeFieldByName_some h.1
      refine ⟨by simp [hname, h1], ?_⟩
      intro g hg
      rcases List.mem_cons.1 hg with rfl | hg
      · exact hmem
      · exact h2 g hg

/-- A selection of the fields of a valid struct, without repeated names, is valid. -/
theorem validStruct_found {fs found : List (StructField Ty)} {names : List String}
    (hv : validStruct fs) (hnames : found.map (fun f => f.Name) = names)
    (hmem : ∀ f ∈ found, f ∈ fs)
    (hnodup : (names.filter (fun n => decide (n ≠ "_"))).Nodup) : validStruct found := by
  refine ⟨fun f hf => hv.1 f (hmem f hf),
    fun f hf g hg => hv.2.1 f (hmem f hf) g (hmem g hg), ?_⟩
  rw [hnames]
  exact hnodup

/-- The `reflect.StructField` records of a field list. -/
theorem toReflect_map (fs : List (StructField Ty)) :
    fs.map StructField.toReflect
      = fs.map (fun f => (⟨f.Name, f.PkgPath, some f.Typ, f.Tag, f.Anonymous⟩ : StructField (Option Ty))) := rfl

/-- Rebuilding every field from its components gives the same list. -/
theorem eta_map (fs : List (StructField Ty)) :
    fs.map (fun f => (⟨f.Name, f.PkgPath, f.Typ, f.Tag, f.Anonymous⟩ : StructField Ty)) = fs := by
  induction fs with
  | nil => rfl
  | cons f rest ih => simp

/-- No field of a value is found exactly when no field has the name. -/
theorem valueFieldByName_eq_none {tv : Value} {name : String} :
    tv.FieldByName name = none ↔ ∀ fld ∈ tv.fields, fld.1.Name ≠ name := by
  simp [Value.FieldByName, List.find?_eq_none]

/-- What Field returns in each of its four cases. -/
theorem Field_eval (t : Any) (name : String) :
    (∀ err, valueOfStruct t false = .error err → Field t name = .ok (none, some err))
    ∧ (∀ tv, valueOfStruct t false = .ok tv → tv.1.FieldByName name = none →
        Field t name = .ok (none, some .ErrFieldNotFound))
    ∧ (∀ tv fld, valueOfStruct t false = .ok tv → tv.1.FieldByName name = some fld →
        fld.1.PkgPath = "" → Field t name = .ok (fld.2.toAny, none))
    ∧ (∀ tv fld, valueOfStruct t false = .ok tv → tv.1.FieldByName name = some fld →
        fld.1.PkgPath ≠ "" → ∃ msg, Field t name = .panic msg) := by
  refine ⟨?_, ?_, ?_, ?_⟩
  · intro err h
    simp [Field, h]
  · intro tv h hn
    obtain ⟨v, p⟩ := tv
    simp only [Field, h]
    simp only at hn
    rw [hn]
  · intro tv fld h hf hp
    obtain ⟨v, p⟩ := tv
    simp only [Field, h]
    simp only at hf
    rw [hf]
    simp [Value.Interface, hp]
  · intro tv fld h hf hp
    obtain ⟨v, p⟩ := tv
    simp only [Field, h]
    simp only at hf
    rw [hf]
    simp [Value.Interface, hp]

/-! ## The claims -/

/-- Claim C1, evaluated at the failing input. With src = struct(A: 1, B: 2) and dst a pointer to
a zero struct that declares B before A, CopyFields returns nil, and field B of dst then holds
1, the value of src.A, while src.B holds 2: the loop reads the source by the index of the
destination field, not by its name. -/
theorem CopyFields_reads_source_by_destination_index :
    CopyFields (some structAB) (some ptrZeroBA)
      = .ok (none, some (.ptr none (.struct [fieldB, fieldA])
          (some (.struct none [(fieldB, int64Val 1), (fieldA, int64Val 2)]))))
    ∧ Field (some (.ptr none (.struct [fieldB, fieldA])
          (some (.struct none [(fieldB, int64Val 1), (fieldA, int64Val 2)])))) "B"
        = .ok (some (int64Val 1), none)
    ∧ Field (some structAB) "B" = .ok (some (int64Val 2), none) :=
  ⟨rfl, rfl, rfl⟩

/-- Counterexample to C2. The source struct(a: 1) and a destination pointer to a zero struct
with the same unexported field `a` both resolve, and CopyFields panics instead of returning
nil. -/
theorem CopyFields_unexported_field_panics :
    valueOfStruct (some structLowerA) false = .ok (structLowerA, false)
    ∧ valueOfStruct (some ptrZeroLowerA) true
        = .ok (.struct none [(fieldLowerA, int64Val 0)], true)
    ∧ CopyFields (some structLowerA) (some ptrZeroLowerA)
        = .panic "reflect: reflect.Value.Set using value obtained using unexported field" :=
  ⟨rfl, rfl, rfl⟩

/-- Claim C2, amended. CopyFields returns ErrNilPointer when src or dst is nil, else the error of
resolving src, else the error of resolving dst as a reference, and it returns no error in any
other case. When both resolve and are aligned (every destination field that is copied is
exported and meets its exported same-named source field at its own index) it returns nil
without panicking, whichever other fields src lacks or declares with another type. -/
theorem CopyFields_errors_and_aligned_success (src dst : Any) :
    ((src = none ∨ dst = none) → CopyFields src dst = .ok (some .ErrNilPointer, dst))
    ∧ (∀ err, src ≠ none → dst ≠ none → valueOfStruct src false = .error err →
        CopyFields src dst = .ok (some err, dst))
    ∧ (∀ vs err, dst ≠ none → valueOfStruct src false = .ok vs →
        valueOfStruct dst true = .error err → CopyFields src dst = .ok (some err, dst))
    ∧ (∀ vs vd, valueOfStruct src false = .ok vs → valueOfStruct dst true = .ok vd →
        ∀ err after, CopyFields src dst ≠ .ok (some err, after))
    ∧ (∀ vs vd, valueOfStruct src false = .ok vs → valueOfStruct dst true = .ok vd →
        copyAligned vs.1 vd.1 → ∃ after, CopyFields src dst = .ok (none, after)) := by
  refine ⟨?_, ?_, ?_, ?_, ?_⟩
  · rintro (h | h) <;> simp [CopyFields, h]
  · intro err hs hd h
    obtain ⟨s, rfl⟩ := Option.ne_none_iff_exists'.1 hs
    obtain ⟨d, rfl⟩ := Option.ne_none_iff_exists'.1 hd
    simp [CopyFields, h]
  · intro vs err hd hs h
    obtain ⟨d, rfl⟩ := Option.ne_none_iff_exists'.1 hd
    have hsrc : src ≠ none := by
      rintro rfl
      simp [valueOfStruct] at hs
    obtain ⟨s, rfl⟩ := Option.ne_none_iff_exists'.1 hsrc
    obtain ⟨v, p⟩ := vs
    simp [CopyFields, hs, h]
  · intro vs vd hs hd err after
    obtain ⟨v, p⟩ := vs
    obtain ⟨w, q⟩ := vd
    have hsrc : src ≠ none := by
      rintro rfl
      simp [valueOfStruct] at hs
    have hdst : dst ≠ none := by
      rintro rfl
      simp [valueOfStruct] at hd
    obtain ⟨s, rfl⟩ := Option.ne_none_iff_exists'.1 hsrc
    obtain ⟨d, rfl⟩ := Option.ne_none_iff_exists'.1 hdst
    simp only [CopyFields, hs, hd, Option.isNone_some, Bool.or_self, Bool.false_eq_true, if_false]
    split <;> simp
  · intro vs vd hs hd hal
    obtain ⟨v, p⟩ := vs
    obtain ⟨w, q⟩ := vd
    have hsrc : src ≠ none := by
      rintro rfl
      simp [valueOfStruct] at hs
    have hdst : dst ≠ none := by
      rintro rfl
      simp [valueOfStruct] at hd
    obtain ⟨s, rfl⟩ := Option.ne_none_iff_exists'.1 hsrc
    obtain ⟨d, rfl⟩ := Option.ne_none_iff_exists'.1 hdst
    obtain ⟨nm, fs, rfl⟩ := valueOfStruct_struct hd
    obtain ⟨final, hfinal, -⟩ :=
      copyFieldsLoop_aligned v nm fs hal fs.length 0 fs (by simp) rfl
    simp only [CopyFields, hs, hd, Option.isNone_some, Bool.or_self, Bool.false_eq_true, if_false]
    rw [Value.type_fields, List.length_map, hfinal]
    exact ⟨_, rfl⟩

/-- Witness for C2: the source struct(B: 7) lacks field A of the destination struct(B, A) and
is aligned with it; CopyFields returns nil. -/
theorem CopyFields_errors_and_aligned_success_witness :
    valueOfStruct (some structB) false = .ok (structB, false)
    ∧ valueOfStruct (some ptrZeroBA) true
        = .ok (.struct none [(fieldB, int64Val 0), (fieldA, int64Val 0)], true)
    ∧ copyAligned structB (.struct none [(fieldB, int64Val 0), (fieldA, int64Val 0)])
    ∧ ∃ after, CopyFields (some structB) (some ptrZeroBA) = .ok (none, after) :=
  ⟨rfl, rfl, by decide,
    (CopyFields_errors_and_aligned_success (some structB) (some ptrZeroBA)).2.2.2.2
      (structB, false) (.struct none [(fieldB, int64Val 0), (fieldA, int64Val 0)], true)
      rfl rfl (by decide)⟩

/-- Claim C3. valueOfStruct decides in this order: the nil interface gives ErrNilPointer; a value
that is not a pointer, when a pointer is required, gives ErrNotAPointer; a nil pointer gives
ErrNilPointer; a pointer is dereferenced exactly once, and a pointee that is not a struct (in
particular a second pointer) gives ErrNotAStruct, as does a value that is neither a pointer
nor a struct; a pointer to a struct succeeds with the struct and the flag true; a struct
passed by value succeeds with the struct and the flag false. No other error is returned. -/
theorem valueOfStruct_decision_order :
    (∀ mustPointer, valueOfStruct none mustPointer = .error .ErrNilPointer)
    ∧ (∀ v : Value, v.Kind ≠ .Ptr → valueOfStruct (some v) true = .error .ErrNotAPointer)
    ∧ (∀ nm e mustPointer, valueOfStruct (some (.ptr nm e none)) mustPointer = .error .ErrNilPointer)
    ∧ (∀ nm e (tgt : Value) mustPointer, tgt.Kind ≠ .Struct →
        valueOfStruct (some (.ptr nm e (some tgt))) mustPointer = .error .ErrNotAStruct)
    ∧ (∀ nm e nm2 e2 tgt2 mustPointer,
        valueOfStruct (some (.ptr nm e (some (.ptr nm2 e2 tgt2)))) mustPointer = .error .ErrNotAStruct)
    ∧ (∀ v : Value, v.Kind ≠ .Ptr → v.Kind ≠ .Struct →
        valueOfStruct (some v) false = .error .ErrNotAStruct)
    ∧ (∀ nm e (tgt : Value) mustPointer, tgt.Kind = .Struct →
        valueOfStruct (some (.ptr nm e (some tgt))) mustPointer = .ok (tgt, true))
    ∧ (∀ v : Value, v.Kind = .Struct → valueOfStruct (some v) false = .ok (v, false))
    ∧ (∀ t mustPointer err, valueOfStruct t mustPointer = .error err →
        err = .ErrNilPointer ∨ err = .ErrNotAPointer ∨ err = .ErrNotAStruct) := by
  refine ⟨fun _ => rfl, ?_, ?_, ?_, ?_, ?_, ?_, ?_, ?_⟩
  · intro v hv
    simp [valueOfStruct, hv]
  · intro nm e mp
    cases mp <;> simp [valueOfStruct, Value.kind_ptr, Value.elem_ptr]
  · intro nm e tgt mp ht
    cases mp <;> simp [valueOfStruct, Value.kind_ptr, Value.elem_ptr, ht]
  · intro nm e nm2 e2 tgt2 mp
    cases mp <;> simp [valueOfStruct, Value.kind_ptr, Value.elem_ptr]
  · intro v hp hs
    simp [valueOfStruct, hp, hs]
  · intro nm e tgt mp ht
    cases mp <;> simp [valueOfStruct, Value.kind_ptr, Value.elem_ptr, ht]
  · intro v hs
    simp [valueOfStruct, hs]
  · intro t mp err h
    unfold valueOfStruct at h
    split at h
    · cases h; simp
    · split at h
      · cases h; simp
      · split at h
        · split at h
          · cases h; simp
          · split at h
            · cases h; simp
            · cases h
        · split at h
          · cases h; simp
          · cases h

/-- Witness for C3: an int64 where a pointer is required gives ErrNotAPointer. -/
theorem valueOfStruct_decision_order_witness :
    (Value.basic none .int64 5).Kind ≠ .Ptr
    ∧ valueOfStruct (some (Value.basic none .int64 5)) true = .error .ErrNotAPointer :=
  ⟨by decide, valueOfStruct_decision_order.2.1 _ (by decide)⟩

/-- Counterexample to C4. The value `struct{ base; A int64 }{}` resolves to a record, a Go
struct (`validStruct`) with the embedded field `base`; the empty replacement map has no nil
witness; and ReplaceFieldsType panics in `reflect.StructOf`, which refuses an embedded field
that carries a package path, instead of returning an instance. -/
theorem ReplaceFieldsType_embedded_field_panics :
    valueOfStruct (some structBaseA) false = .ok (structBaseA, false)
    ∧ validStruct structBaseA.Type.fields
    ∧ (∀ name, noReplacement name ≠ some none)
    ∧ ReplaceFieldsType (some structBaseA) noReplacement
        = .panic "reflect.StructOf: field is anonymous but has PkgPath set" :=
  ⟨rfl, by decide, (fun _ h => by cases h), rfl⟩

/-- Claim C4, amended. For a source that resolves to a record without embedded fields and a
replacement map without nil witnesses, ReplaceFieldsType returns (with a nil error) an
instance whose struct type has as many fields as the source, in the order of the source;
field i keeps the name and tag of the source field i, has the run-time type of the witness
when its name is a key of the map and the type of the source field otherwise. The instance is
a pointer exactly when the source was passed by reference. The record is a Go struct: its
field list satisfies `validStruct`. -/
theorem ReplaceFieldsType_result (src : Any) (m : FieldReplacementMap) (vs : Value) (p : Bool)
    (hres : valueOfStruct src false = .ok (vs, p)) (hvalid : validStruct vs.Type.fields)
    (hemb : noEmbedded vs.Type.fields) (hm : ∀ name, m name ≠ some none) :
    ∃ (r : Value) (newFields : List (StructField Ty)),
      ReplaceFieldsType src m = .ok (some r, none)
      ∧ r.Type = (if p then .ptr (.struct newFields) else .struct newFields)
      ∧ (r.Kind = .Ptr ↔ p = true)
      ∧ newFields.length = vs.Type.fields.length
      ∧ ∀ (i : Nat) (f g : StructField Ty), vs.Type.fields[i]? = some f → newFields[i]? = some g →
          g.Name = f.Name ∧ g.Tag = f.Tag
          ∧ (∀ w : Value, m f.Name = some (some w) → g.Typ = w.Type)
          ∧ (m f.Name = none → g.Typ = f.Typ) := by
  have heval := ReplaceFieldsType_eval src m vs p hres hvalid hemb (fun f _ => hm f.Name)
  refine ⟨if p then New (.struct (vs.Type.fields.map
        (fun f => ⟨f.Name, f.PkgPath, replacedType m f, f.Tag, f.Anonymous⟩)))
      else zero (.struct (vs.Type.fields.map
        (fun f => ⟨f.Name, f.PkgPath, replacedType m f, f.Tag, f.Anonymous⟩))),
    vs.Type.fields.map (fun f => ⟨f.Name, f.PkgPath, replacedType m f, f.Tag, f.Anonymous⟩), ?_, ?_, ?_, ?_, ?_⟩
  · rw [heval]
    cases p <;> simp
  · cases p
    · simp only [Bool.false_eq_true, if_false]
      exact zero_struct_type _
    · simp [New, Value.Type, Ty.withName]
  · cases p
    · simp [zero_struct_kind]
    · simp [New, Value.Kind]
  · simp
  · intro i f g hf hg
    rw [List.getElem?_map, hf] at hg
    simp only [Option.map_some', Option.some.injEq] at hg
    subst hg
    refine ⟨rfl, rfl, ?_, ?_⟩
    · intro w hw
      simp [replacedType, hw]
    · intro hn
      simp [replacedType, hn]

/-- Witness for C4: a pointer to struct(B int64, A int64) and the map from "A" to a string. -/
theorem ReplaceFieldsType_result_witness :
    valueOfStruct (some ptrZeroBA) false
      = .ok (.struct none [(fieldB, int64Val 0), (fieldA, int64Val 0)], true)
    ∧ validStruct (Value.struct none [(fieldB, int64Val 0), (fieldA, int64Val 0)]).Type.fields
    ∧ noEmbedded (Value.struct none [(fieldB, int64Val 0), (fieldA, int64Val 0)]).Type.fields
    ∧ (∀ name, replaceAByString name ≠ some none)
    ∧ ∃ (r : Value) (newFields : List (StructField Ty)),
      ReplaceFieldsType (some ptrZeroBA) replaceAByString = .ok (some r, none)
      ∧ r.Type = (if true then .ptr (.struct newFields) else .struct newFields)
      ∧ (r.Kind = .Ptr ↔ true = true)
      ∧ newFields.length
          = (Value.struct none [(fieldB, int64Val 0), (fieldA, int64Val 0)]).Type.fields.length
      ∧ ∀ (i : Nat) (f g : StructField Ty),
          (Value.struct none [(fieldB, int64Val 0), (fieldA, int64Val 0)]).Type.fields[i]? = some f →
          newFields[i]? = some g →
          g.Name = f.Name ∧ g.Tag = f.Tag
          ∧ (∀ w : Value, replaceAByString f.Name = some (some w) → g.Typ = w.Type)
          ∧ (replaceAByString f.Name = none → g.Typ = f.Typ) :=
  have hm : ∀ name, replaceAByString name ≠ some none := by
    intro name
    unfold replaceAByString
    split <;> simp
  ⟨rfl, by decide, by decide, hm,
    ReplaceFieldsType_result (some ptrZeroBA) replaceAByString _ true rfl (by decide)
      (by decide) hm⟩

/-- Counterexample to C5. The names B, B are both fields of struct(A, B), and FilterFields
panics in `reflect.StructOf` on the repeated field instead of returning an instance. The name
`base` is a field of `struct{ base; A int64 }{}`, the embedded one, and FilterFields panics in
`reflect.StructOf`, which refuses an embedded field that carries a package path. -/
theorem FilterFields_panics_in_StructOf :
    valueOfStruct (some structAB) false = .ok (structAB, false)
    ∧ (∀ n ∈ ["B", "B"], ∃ f ∈ structAB.Type.fields, f.Name = n)
    ∧ FilterFields (some structAB) ["B", "B"] = .panic "reflect.StructOf: duplicate field"
    ∧ valueOfStruct (some structBaseA) false = .ok (structBaseA, false)
    ∧ (∀ n ∈ ["base"], ∃ f ∈ structBaseA.Type.fields, f.Name = n)
    ∧ FilterFields (some structBaseA) ["base"]
        = .panic "reflect.StructOf: field is anonymous but has PkgPath set" :=
  ⟨rfl, by decide, rfl, rfl, by decide, rfl⟩

/-- Claim C5, amended. For a source that resolves to a record without embedded fields (a Go
struct: `validStruct`) and a list of names that are all fields of the source, in which no name
other than the blank name occurs twice, FilterFields returns (with a nil error) an instance whose struct type has
exactly one field per entry of the list, in the order of the list: the field of the source
with that name, hence with its type and tag. The instance is a pointer exactly when the source
was passed by reference. -/
theorem FilterFields_result (src : Any) (names : List String) (vs : Value) (p : Bool)
    (hres : valueOfStruct src false = .ok (vs, p)) (hvalid : validStruct vs.Type.fields)
    (hemb : noEmbedded vs.Type.fields)
    (hall : ∀ n ∈ names, ∃ f ∈ vs.Type.fields, f.Name = n)
    (hnodup : (names.filter (fun n => decide (n ≠ "_"))).Nodup) :
    ∃ (r : Value) (newFields : List (StructField Ty)),
      FilterFields src names = .ok (some r, none)
      ∧ r.Type = (if p then .ptr (.struct newFields) else .struct newFields)
      ∧ (r.Kind = .Ptr ↔ p = true)
      ∧ newFields.map (fun f => f.Name) = names
      ∧ (∀ f ∈ newFields, f ∈ vs.Type.fields)
      ∧ names.map vs.Type.FieldByName = newFields.map some := by
  have hfound : ∀ n ∈ names, vs.Type.FieldByName n ≠ none := by
    intro n hn hnone
    obtain ⟨f, hf, hfn⟩ := hall n hn
    exact typeFieldByName_eq_none.1 hnone f hf hfn
  obtain ⟨found, hloop, hmap⟩ := filterFieldsLoop_some vs.Type names [] hfound
  obtain ⟨hn, hmem⟩ := found_fields hmap
  have hv := validStruct_found hvalid hn hmem hnodup
  have hstruct : StructOf (found.map StructField.toReflect) = .ok (.struct found) := by
    rw [toReflect_map, StructOf_ok (fun f => f.Typ) found hv (fun f hf => hemb f (hmem f hf)),
      eta_map]
  have heval : FilterFields src names
      = .ok (if p then some (New (.struct found)) else some (zero (.struct found)), none) := by
    unfold FilterFields
    rw [typeOfStruct_ok hres]
    simp only
    rw [hloop]
    simp only [List.nil_append]
    rw [hstruct]
    cases p <;> simp [New, Value.Elem]
  refine ⟨if p then New (.struct found) else zero (.struct found), found, ?_, ?_, ?_, hn, hmem, hmap⟩
  · rw [heval]
    cases p <;> simp
  · cases p
    · simp only [Bool.false_eq_true, if_false]
      exact zero_struct_type _
    · simp [New, Value.Type, Ty.withName]
  · cases p
    · simp [zero_struct_kind]
    · simp [New, Value.Kind]

/-- Witness for C5: the names B, A on struct(A: 1, B: 2). -/
theorem FilterFields_result_witness :
    valueOfStruct (some structAB) false = .ok (structAB, false)
    ∧ validStruct structAB.Type.fields
    ∧ noEmbedded structAB.Type.fields
    ∧ ∃ (r : Value) (newFields : List (StructField Ty)),
      FilterFields (some structAB) ["B", "A"] = .ok (some r, none)
      ∧ r.Type = (if false then .ptr (.struct newFields) else .struct newFields)
      ∧ (r.Kind = .Ptr ↔ false = true)
      ∧ newFields.map (fun f => f.Name) = ["B", "A"]
      ∧ (∀ f ∈ newFields, f ∈ structAB.Type.fields)
      ∧ ["B", "A"].map structAB.Type.FieldByName = newFields.map some :=
  ⟨rfl, by decide, by decide,
    FilterFields_result (some structAB) ["B", "A"] structAB false rfl (by decide) (by decide)
      (by decide) (by decide)⟩

/-- Claim C6. For a source that resolves to a record, FilterFields returns a nil result and
ErrFieldNotFound when some requested name is not a field of the source, and does not return
ErrFieldNotFound when every requested name is a field; for a source that does not resolve it
returns a nil result and the error of the resolution. -/
theorem FilterFields_not_found_iff (src : Any) (names : List String) :
    (∀ vs, valueOfStruct src false = .ok vs →
        (∃ n ∈ names, ∀ f ∈ vs.1.Type.fields, f.Name ≠ n) →
        FilterFields src names = .ok (none, some .ErrFieldNotFound))
    ∧ (∀ vs, valueOfStruct src false = .ok vs →
        (∀ n ∈ names, ∃ f ∈ vs.1.Type.fields, f.Name = n) →
        ∀ r, FilterFields src names ≠ .ok (r, some .ErrFieldNotFound))
    ∧ (∀ err, valueOfStruct src false = .error err →
        FilterFields src names = .ok (none, some err)) := by
  refine ⟨?_, ?_, ?_⟩
  · intro vs hres hmiss
    obtain ⟨v, p⟩ := vs
    obtain ⟨n, hn, hnf⟩ := hmiss
    unfold FilterFields
    rw [typeOfStruct_ok hres]
    simp only
    rw [filterFieldsLoop_none v.Type names [] ⟨n, hn, typeFieldByName_eq_none.2 hnf⟩]
  · intro vs hres hall r
    obtain ⟨v, p⟩ := vs
    have hfound : ∀ n ∈ names, v.Type.FieldByName n ≠ none := by
      intro n hn hnone
      obtain ⟨f, hf, hfn⟩ := hall n hn
      exact typeFieldByName_eq_none.1 hnone f hf hfn
    obtain ⟨found, hloop, -⟩ := filterFieldsLoop_some v.Type names [] hfound
    unfold FilterFields
    rw [typeOfStruct_ok hres]
    simp only
    rw [hloop]
    simp only
    split <;> simp
  · intro err h
    simp [FilterFields, typeOfStruct_error h]

/-- Witness for C6: the names A, C on struct(A, B). -/
theorem FilterFields_not_found_iff_witness :
    valueOfStruct (some structAB) false = .ok (structAB, false)
    ∧ (∃ n ∈ ["A", "C"], ∀ f ∈ structAB.Type.fields, f.Name ≠ n)
    ∧ FilterFields (some structAB) ["A", "C"] = .ok (none, some .ErrFieldNotFound) :=
  ⟨rfl, by decide,
    (FilterFields_not_found_iff (some structAB) ["A", "C"]).1 (structAB, false) rfl (by decide)⟩

/-- Counterexample to C7. struct(A: 1, B: 2) resolves, and ReplaceFieldsType with the map from
"A" to the nil interface panics in `reflect.StructOf` (the field has no type).
`struct{ base; A int64 }{}` resolves, and ReplaceFieldsType with the empty map panics in
`reflect.StructOf` (the embedded field carries a package path). -/
theorem ReplaceFieldsType_panics_in_StructOf :
    valueOfStruct (some structAB) false = .ok (structAB, false)
    ∧ ReplaceFieldsType (some structAB) nilWitnessForA
        = .panic "reflect.StructOf: field has no type"
    ∧ valueOfStruct (some structBaseA) false = .ok (structBaseA, false)
    ∧ ReplaceFieldsType (some structBaseA) noReplacement
        = .panic "reflect.StructOf: field is anonymous but has PkgPath set" :=
  ⟨rfl, rfl, rfl, rfl⟩

/-- Claim C7, amended. When the source does not resolve, ReplaceFieldsType returns a nil result
and the error of the resolution; it returns an error in no other case. When the source
resolves to a record without embedded fields (a Go struct: `validStruct`) and no field name of
the source is a key with a nil witness, it returns a result with a nil error and does not
panic, whatever other keys and witnesses the map holds. When the source resolves and the name
of one of its fields is a key with a nil witness, or one of its fields is embedded and
carries a package path (its type is unexported), ReplaceFieldsType panics. -/
theorem ReplaceFieldsType_fails_as_resolve (src : Any) (m : FieldReplacementMap) :
    (∀ err, valueOfStruct src false = .error err →
        ReplaceFieldsType src m = .ok (none, some err))
    ∧ (∀ r err, ReplaceFieldsType src m = .ok (r, some err) →
        valueOfStruct src false = .error err)
    ∧ (∀ vs, valueOfStruct src false = .ok vs → validStruct vs.1.Type.fields →
        noEmbedded vs.1.Type.fields →
        (∀ f ∈ vs.1.Type.fields, m f.Name ≠ some none) →
        ∃ r : Value, ReplaceFieldsType src m = .ok (some r, none))
    ∧ (∀ vs, valueOfStruct src false = .ok vs →
        (∃ f ∈ vs.1.Type.fields, m f.Name = some none) →
        ∃ msg, ReplaceFieldsType src m = .panic msg)
    ∧ (∀ vs, valueOfStruct src false = .ok vs →
        (∃ f ∈ vs.1.Type.fields, f.Anonymous = true ∧ f.PkgPath ≠ "") →
        ∃ msg, ReplaceFieldsType src m = .panic msg) := by
  refine ⟨?_, ?_, ?_, ?_, ?_⟩
  · intro err h
    simp [ReplaceFieldsType, typeOfStruct_error h]
  · intro r err h
    cases hres : valueOfStruct src false with
    | error e =>
      simp [ReplaceFieldsType, typeOfStruct_error hres] at h
      rw [h.2]
    | ok vs =>
      obtain ⟨v, p⟩ := vs
      unfold ReplaceFieldsType at h
      rw [typeOfStruct_ok hres] at h
      simp only at h
      split at h <;> simp at h
  · intro vs hres hvalid hemb hm
    obtain ⟨v, p⟩ := vs
    rw [ReplaceFieldsType_eval src m v p hres hvalid hemb hm]
    cases p <;> simp
  · rintro ⟨v, p⟩ hres ⟨f, hf, hnil⟩
    refine ReplaceFieldsType_refused src m v p hres ⟨f, hf, Or.inr (Or.inl ?_)⟩
    simp [replaceFieldsBody, hnil, TypeOf]
  · rintro ⟨v, p⟩ hres ⟨f, hf, ha, hp⟩
    refine ReplaceFieldsType_refused src m v p hres ⟨f, hf, Or.inr (Or.inr (Or.inl ?_))⟩
    unfold replaceFieldsBody
    cases m f.Name <;> exact ⟨ha, hp⟩

/-- Witness for C7: an int64 is not a struct. -/
theorem ReplaceFieldsType_fails_as_resolve_witness :
    valueOfStruct (some (int64Val 3)) false = .error .ErrNotAStruct
    ∧ ReplaceFieldsType (some (int64Val 3)) nilWitnessForA = .ok (none, some .ErrNotAStruct) :=
  ⟨rfl, (ReplaceFieldsType_fails_as_resolve (some (int64Val 3)) nilWitnessForA).1 _ rfl⟩

/-- Counterexample to C8. struct(a: 1) resolves and has the field `a`, and Field panics in
`reflect.Value.Interface` because the field is unexported. -/
theorem Field_unexported_panics :
    valueOfStruct (some structLowerA) false = .ok (structLowerA, false)
    ∧ structLowerA.FieldByName "a" = some (fieldLowerA, int64Val 1)
    ∧ Field (some structLowerA) "a"
      = .panic "reflect.Value.Interface: cannot return value obtained from unexported field or method" :=
  ⟨rfl, rfl, rfl⟩

/-- Claim C8, amended. When the value does not resolve, Field returns the error of the
resolution; when the record has no embedded field and declares no field with the name, it
returns ErrFieldNotFound; when the record declares a field with the name and that field is
exported, it returns its current value (for a field of interface type, the dynamic value) and
a nil error; when the record declares a field with the name and that field is unexported, it
panics. (For a name that a record with embedded fields does not declare, the library goes on
to search the fields that the embedded structs promote; the statement leaves that case
out.) -/
theorem Field_result (t : Any) (name : String) :
    (∀ err, valueOfStruct t false = .error err → Field t name = .ok (none, some err))
    ∧ (∀ tv, valueOfStruct t false = .ok tv → noEmbedded tv.1.Type.fields →
        (∀ fld ∈ tv.1.fields, fld.1.Name ≠ name) →
        Field t name = .ok (none, some .ErrFieldNotFound))
    ∧ (∀ tv f x, valueOfStruct t false = .ok tv → tv.1.FieldByName name = some (f, x) →
        f.PkgPath = "" →
        Field t name = .ok (x.toAny, none) ∧ (x.Kind ≠ .Interface → x.toAny = some x))
    ∧ (∀ tv f x, valueOfStruct t false = .ok tv → tv.1.FieldByName name = some (f, x) →
        f.PkgPath ≠ "" → ∃ msg, Field t name = .panic msg) := by
  obtain ⟨h1, h2, h3, h4⟩ := Field_eval t name
  refine ⟨h1, ?_, ?_, ?_⟩
  · intro tv h _ hn
    exact h2 tv h (valueFieldByName_eq_none.2 hn)
  · intro tv f x h hf hp
    refine ⟨h3 tv (f, x) h hf hp, ?_⟩
    intro hk
    cases x <;> simp [Value.toAny, Value.Kind] at hk ⊢
  · intro tv f x h hf hp
    exact h4 tv (f, x) h hf hp

/-- Witness for C8: field B of struct(A: 1, B: 2). -/
theorem Field_result_witness :
    valueOfStruct (some structAB) false = .ok (structAB, false)
    ∧ structAB.FieldByName "B" = some (fieldB, int64Val 2)
    ∧ Field (some structAB) "B" = .ok ((int64Val 2).toAny, none)
    ∧ ((int64Val 2).Kind ≠ .Interface → (int64Val 2).toAny = some (int64Val 2)) :=
  ⟨rfl, rfl, (Field_result (some structAB) "B").2.2.1 (structAB, false) fieldB (int64Val 2) rfl rfl rfl⟩

/-- Counterexample to C9. struct(a: 1) resolves and has a field named `a`, and HasField
panics instead of returning (true, nil). -/
theorem HasField_unexported_panics :
    valueOfStruct (some structLowerA) false = .ok (structLowerA, false)
    ∧ (∃ fld ∈ structLowerA.fields, fld.1.Name = "a")
    ∧ HasField (some structLowerA) "a"
      = .panic "reflect.Value.Interface: cannot return value obtained from unexported field or method" :=
  ⟨rfl, by decide, rfl⟩

/-- Claim C9, amended. For a value that does not resolve to a record with embedded fields,
HasField returns (true, nil) exactly when the value resolves to a record that declares an
exported field with the name. On every record that declares a field with the name, HasField
returns (true, nil) when that field is exported and panics when it is unexported. When the
record has no embedded field and declares no field with the name, HasField returns
(false, ErrFieldNotFound), not (false, nil); when the value does not resolve it returns false
with the error of the resolution. (For a name that a record with embedded fields does not
declare, the library goes on to search the fields that the embedded structs promote; the
statement leaves that case out.) -/
theorem HasField_result (t : Any) (name : String) :
    ((∀ tv, valueOfStruct t false = .ok tv → noEmbedded tv.1.Type.fields) →
      (HasField t name = .ok (true, none) ↔
        ∃ tv f x, valueOfStruct t false = .ok tv ∧ tv.1.FieldByName name = some (f, x)
          ∧ f.PkgPath = ""))
    ∧ (∀ tv f x, valueOfStruct t false = .ok tv → tv.1.FieldByName name = some (f, x) →
        f.PkgPath = "" → HasField t name = .ok (true, none))
    ∧ (∀ tv, valueOfStruct t false = .ok tv → noEmbedded tv.1.Type.fields →
        (∀ fld ∈ tv.1.fields, fld.1.Name ≠ name) →
        HasField t name = .ok (false, some .ErrFieldNotFound))
    ∧ (∀ err, valueOfStruct t false = .error err → HasField t name = .ok (false, some err))
    ∧ (∀ tv f x, valueOfStruct t false = .ok tv → tv.1.FieldByName name = some (f, x) →
        f.PkgPath ≠ "" → ∃ msg, HasField t name = .panic msg) := by
  obtain ⟨h1, h2, h3, h4⟩ := Field_eval t name
  refine ⟨fun _ => ⟨?_, ?_⟩, ?_, ?_, ?_, ?_⟩
  · intro h
    cases hres : valueOfStruct t false with
    | error err =>
      rw [HasField, h1 err hres] at h
      simp at h
    | ok tv =>
      cases hf : tv.1.FieldByName name with
      | none =>
        rw [HasField, h2 tv hres hf] at h
        simp at h
      | some fld =>
        by_cases hp : fld.1.PkgPath = ""
        · exact ⟨tv, fld.1, fld.2, rfl, hf, hp⟩
        · obtain ⟨msg, hmsg⟩ := h4 tv fld hres hf hp
          rw [HasField, hmsg] at h
          simp at h
  · rintro ⟨tv, f, x, hres, hf, hp⟩
    rw [HasField, h3 tv (f, x) hres hf hp]
  · intro tv f x hres hf hp
    rw [HasField, h3 tv (f, x) hres hf hp]
  · intro tv hres _ hn
    rw [HasField, h2 tv hres (valueFieldByName_eq_none.2 hn)]
  · intro err hres
    rw [HasField, h1 err hres]
  · intro tv f x hres hf hp
    obtain ⟨msg, hmsg⟩ := h4 tv (f, x) hres hf hp
    exact ⟨msg, by rw [HasField, hmsg]⟩

/-- Witness for C9: struct(A, B) has no embedded field and no field C. -/
theorem HasField_result_witness :
    valueOfStruct (some structAB) false = .ok (structAB, false)
    ∧ noEmbedded structAB.Type.fields
    ∧ (∀ fld ∈ structAB.fields, fld.1.Name ≠ "C")
    ∧ HasField (some structAB) "C" = .ok (false, some .ErrFieldNotFound) :=
  ⟨rfl, by decide, by decide,
    (HasField_result (some structAB) "C").2.2.1 (structAB, false) rfl (by decide) (by decide)⟩

/-- Counterexample to C10. The field U has the declared type `User` of package `a/model`, the
witness has the type `User` of package `b/model`; the two types are different, both print as
`model.User`, and FieldIsType returns (true, nil). -/
theorem FieldIsType_same_printed_name :
    structWithUserOfA.Type.FieldByName "U" = some ⟨"U", "", .named userOfA (.struct []), "", false⟩
    ∧ userOfBVal.Type = .named userOfB (.struct [])
    ∧ Ty.named userOfA (.struct []) ≠ Ty.named userOfB (.struct [])
    ∧ FieldIsType (some structWithUserOfA) "U" (some userOfBVal) = (true, none) :=
  ⟨by decide, rfl, by decide, by decide⟩

/-- Claim C10, amended. When the value does not resolve, FieldIsType returns false with the
error of the resolution; when the record has no field with the name, it returns (false, nil);
otherwise it returns (b, nil) where b is true exactly when the witness is not nil and the
printed name of the declared type of the field equals the printed name of the run-time type
of the witness. -/
theorem FieldIsType_result (t : Any) (name : String) (w : Any) :
    (∀ err, valueOfStruct t false = .error err → FieldIsType t name w = (false, some err))
    ∧ (∀ tv, valueOfStruct t false = .ok tv → (∀ f ∈ tv.1.Type.fields, f.Name ≠ name) →
        FieldIsType t name w = (false, none))
    ∧ (∀ tv f, valueOfStruct t false = .ok tv → tv.1.Type.FieldByName name = some f →
        ∃ b, FieldIsType t name w = (b, none)
          ∧ (b = true ↔ ∃ wv : Value, w = some wv ∧ f.Typ.typeString = wv.Type.typeString)) := by
  refine ⟨?_, ?_, ?_⟩
  · intro err h
    simp [FieldIsType, typeOfStruct_error h]
  · intro tv h hn
    obtain ⟨v, p⟩ := tv
    simp only [FieldIsType, typeOfStruct_ok h]
    rw [typeFieldByName_eq_none.2 hn]
  · intro tv f h hf
    obtain ⟨v, p⟩ := tv
    simp only at hf
    refine ⟨isType (some f.Typ) w, ?_, ?_⟩
    · simp only [FieldIsType, typeOfStruct_ok h]
      rw [hf]
    · cases w with
      | none => simp [isType]
      | some wv => simp [isType, TypeOf]

/-- Witness for C10: field A of struct(A int64, B int64) and the witness int64(42). -/
theorem FieldIsType_result_witness :
    valueOfStruct (some structAB) false = .ok (structAB, false)
    ∧ structAB.Type.FieldByName "A" = some fieldA
    ∧ ∃ b, FieldIsType (some structAB) "A" (some (int64Val 42)) = (b, none)
          ∧ (b = true ↔ ∃ wv : Value, some (int64Val 42) = some wv
              ∧ fieldA.Typ.typeString = wv.Type.typeString) :=
  ⟨rfl, by decide,
    (FieldIsType_result (some structAB) "A" (some (int64Val 42))).2.2 (structAB, false) fieldA rfl
      (by decide)⟩

/-! ## Lemmas for the claims C11 to C20 -/

/-- The printed names of the predeclared types are pairwise different. -/
theorem Basic.typeString_injective : ∀ a b : Basic, a.typeString = b.typeString → a = b := by
  intro a b
  cases a <;> cases b <;> decide

/-- Function isType on two types that are present. -/
theorem IsType_some (a b : Value) :
    IsType (some a) (some b) = decide (a.Type.typeString = b.Type.typeString) := by
  simp [IsType, isType, TypeOf]

/-- What FilterFields returns when every requested name is a field of a valid struct and no
name is repeated. -/
theorem FilterFields_eval (src : Any) (names : List String) (vs : Value) (p : Bool)
    (hres : valueOfStruct src false = .ok (vs, p)) (hvalid : validStruct vs.Type.fields)
    (hemb : noEmbedded vs.Type.fields)
    (hall : ∀ n ∈ names, ∃ f ∈ vs.Type.fields, f.Name = n)
    (hnodup : (names.filter (fun n => decide (n ≠ "_"))).Nodup) :
    ∃ found : List (StructField Ty),
      FilterFields src names
        = .ok (if p then some (New (.struct found)) else some (zero (.struct found)), none)
      ∧ names.map vs.Type.FieldByName = found.map some := by
  have hfound : ∀ n ∈ names, vs.Type.FieldByName n ≠ none := by
    intro n hn hnone
    obtain ⟨f, hf, hfn⟩ := hall n hn
    exact typeFieldByName_eq_none.1 hnone f hf hfn
  obtain ⟨found, hloop, hmap⟩ := filterFieldsLoop_some vs.Type names [] hfound
  obtain ⟨hn, hmem⟩ := found_fields hmap
  have hv := validStruct_found hvalid hn hmem hnodup
  have hstruct : StructOf (found.map StructField.toReflect) = .ok (.struct found) := by
    rw [toReflect_map, StructOf_ok (fun f => f.Typ) found hv (fun f hf => hemb f (hmem f hf)),
      eta_map]
  refine ⟨found, ?_, hmap⟩
  unfold FilterFields
  rw [typeOfStruct_ok hres]
  simp only
  rw [hloop]
  simp only [List.nil_append]
  rw [hstruct]
  cases p <;> simp [New, Value.Elem]

/-- Every field found for a list of names is the field that the lookup gives for its own
name. -/
theorem found_lookup {tt : Ty} :
    ∀ {names : List String} {found : List (StructField Ty)},
      names.map tt.FieldByName = found.map some →
      ∀ f ∈ found, tt.FieldByName f.Name = some f := by
  intro names
  induction names with
  | nil =>
    intro found h f hf
    cases found with
    | nil => cases hf
    | cons a b => simp at h
  | cons n rest ih =>
    intro found h f hf
    cases found with
    | nil => cases hf
    | cons g gs =>
      simp only [List.map_cons, List.cons.injEq] at h
      rcases List.mem_cons.1 hf with rfl | hf
      · have := (typeFieldByName_some h.1).2
        rw [this]
        exact h.1
      · exact ih h.2 f hf

/-- Looking a name up among the zero fields of a struct type. -/
theorem zeroFields_find (name : String) (fs : List (StructField Ty)) :
    (zeroFields fs).find? (fun q => decide (q.1.Name = name))
      = (fs.find? (fun f => decide (f.Name = name))).map (fun f => (f, zeroField f)) := by
  induction fs with
  | nil => simp [zeroFields]
  | cons f rest ih =>
    by_cases h : f.Name = name <;> simp [zeroFields, List.find?, h, ih]

/-- Resolving the instance that FilterFields and ReplaceFieldsType return. -/
theorem valueOfStruct_instance (fs : List (StructField Ty)) (p : Bool) :
    valueOfStruct (if p then some (New (.struct fs)) else some (zero (.struct fs))) false
      = .ok (zero (.struct fs), p) := by
  cases p
  · simp [valueOfStruct, zero_struct_kind]
  · simp [valueOfStruct, New, Value.kind_ptr, Value.elem_ptr, zero_struct_kind]

/-- Looking a name up in the zero value of a struct type. -/
theorem zero_struct_FieldByName (name : String) (fs : List (StructField Ty)) :
    (zero (.struct fs)).FieldByName name
      = (fs.find? (fun f => decide (f.Name = name))).map (fun f => (f, zeroField f)) := by
  simp [zero, Value.FieldByName, Value.fields, zeroFields_find]

/-- A second assignment to the same field overwrites the first. -/
theorem storeField_overwrite (n : String) (v u : Value) (fs : List (StructField Ty × Value)) :
    storeField n v (storeField n u fs) = storeField n v fs := by
  induction fs with
  | nil => rfl
  | cons q rest ih =>
    obtain ⟨f, w⟩ := q
    by_cases h : f.Name = n
    · simp [storeField, h]
    · simp [storeField, h, ih]

/-- Assignments to fields of different names commute. -/
theorem storeField_comm (n m : String) (hnm : n ≠ m) (v u : Value)
    (fs : List (StructField Ty × Value)) :
    storeField n v (storeField m u fs) = storeField m u (storeField n v fs) := by
  induction fs with
  | nil => rfl
  | cons q rest ih =>
    obtain ⟨f, w⟩ := q
    by_cases h1 : f.Name = n
    · subst h1
      simp [storeField, hnm]
    · by_cases h2 : f.Name = m
      · subst h2
        simp [storeField, h1]
      · simp [storeField, h1, h2, ih]

/-- No assignment leaves the state unchanged. -/
theorem storeAll_nil (cur : List (StructField Ty × Value)) : storeAll [] cur = cur := rfl

/-- A sequence of assignments starts with its first assignment. -/
theorem storeAll_cons (w : String × Value) (ws : List (String × Value))
    (cur : List (StructField Ty × Value)) :
    storeAll (w :: ws) cur = storeAll ws (storeField w.1 w.2 cur) := rfl

/-- The assignments of two sequences in a row. -/
theorem storeAll_append (ws us : List (String × Value)) (cur : List (StructField Ty × Value)) :
    storeAll (ws ++ us) cur = storeAll us (storeAll ws cur) := by
  simp [storeAll, List.foldl_append]

/-- A sequence of assignments leaves the declared fields unchanged. -/
theorem storeAll_map_fst (ws : List (String × Value)) :
    ∀ cur : List (StructField Ty × Value), (storeAll ws cur).map Prod.fst = cur.map Prod.fst := by
  induction ws with
  | nil => intro cur; rfl
  | cons w ws ih =>
    intro cur
    rw [storeAll_cons, ih, storeField_map_fst]

/-- An assignment to a field makes an earlier assignment to the same field irrelevant. -/
theorem storeAll_absorb (n : String) (v u : Value) (ws : List (String × Value)) :
    ∀ cur : List (StructField Ty × Value),
      storeField n v (storeAll ws (storeField n u cur)) = storeField n v (storeAll ws cur) := by
  induction ws with
  | nil => intro cur; simp [storeAll_nil, storeField_overwrite]
  | cons w ws ih =>
    intro cur
    rw [storeAll_cons, storeAll_cons]
    by_cases h : w.1 = n
    · rw [h, storeField_overwrite]
    · rw [storeField_comm w.1 n h, ih]

/-- Running a sequence of assignments twice gives the state that running it once gives. -/
theorem storeAll_idem (ws : List (String × Value)) :
    ∀ cur : List (StructField Ty × Value), storeAll ws (storeAll ws cur) = storeAll ws cur := by
  induction ws using List.reverseRecOn with
  | nil => intro cur; rfl
  | append_singleton ws w ih =>
    intro cur
    rw [storeAll_append, storeAll_append]
    simp only [storeAll_cons, storeAll_nil]
    rw [storeAll_absorb, ih]

/-- One iteration of the CopyFields loop acts on every state of the destination with the
same declared fields in the same way: it panics, or it performs the same assignments. -/
theorem copyFieldsBody_uniform (vs : Value) (nm : Option TypeName)
    (fs : List (StructField Ty × Value)) (i : Nat) :
    (∃ msg, ∀ cur : List (StructField Ty × Value), cur.map Prod.fst = fs.map Prod.fst →
        copyFieldsBody vs vs.Type (Value.struct nm fs).Type (.struct nm cur) i = .panic msg)
    ∨ (∃ ws, ∀ cur : List (StructField Ty × Value), cur.map Prod.fst = fs.map Prod.fst →
        copyFieldsBody vs vs.Type (Value.struct nm fs).Type (.struct nm cur) i
          = .ok (.struct nm (storeAll ws cur))) := by
  unfold copyFieldsBody
  cases hd : (Value.struct nm fs).Type.fields[i]? with
  | none => exact Or.inl ⟨_, fun _ _ => rfl⟩
  | some dfld =>
    simp only
    cases hs : vs.Type.FieldByName dfld.Name with
    | none => exact Or.inr ⟨[], fun _ _ => rfl⟩
    | some sfld =>
      simp only
      split
      · exact Or.inr ⟨[], fun _ _ => rfl⟩
      · -- the declared field that FieldByName selects does not depend on the state
        cases hdecl : (fs.map Prod.fst).find? (fun f => decide (f.Name = dfld.Name)) with
        | none =>
          refine Or.inl ⟨"reflect: call of reflect.Value.Set on zero Value", fun cur hcur => ?_⟩
          have : (Value.struct nm cur).FieldByName dfld.Name = none := by
            have h := find_fst dfld.Name cur
            rw [hcur, hdecl] at h
            simpa [Value.FieldByName, Value.fields] using h
          rw [this]
        | some d =>
          have htarget : ∀ cur : List (StructField Ty × Value), cur.map Prod.fst = fs.map Prod.fst →
              ∃ v, (Value.struct nm cur).FieldByName dfld.Name = some (d, v) := by
            intro cur hcur
            have h := find_fst dfld.Name cur
            rw [hcur, hdecl] at h
            cases ht : (Value.struct nm cur).FieldByName dfld.Name with
            | none =>
              simp only [Value.FieldByName, Value.fields] at ht
              rw [ht] at h
              cases h
            | some t =>
              simp only [Value.FieldByName, Value.fields] at ht
              rw [ht] at h
              simp only [Option.map_some', Option.some.injEq] at h
              exact ⟨t.2, by rw [← h]⟩
          cases hx : vs.fields[i]? with
          | none =>
            refine Or.inl ⟨"reflect: Field index out of range", fun cur hcur => ?_⟩
            obtain ⟨v, hv⟩ := htarget cur hcur
            rw [hv]
          | some x =>
            cases hset : Value.Set d x with
            | panic msg =>
              refine Or.inl ⟨msg, fun cur hcur => ?_⟩
              obtain ⟨v, hv⟩ := htarget cur hcur
              rw [hv]
              simp only [hset]
            | ok nv =>
              refine Or.inr ⟨[(dfld.Name, nv)], fun cur hcur => ?_⟩
              obtain ⟨v, hv⟩ := htarget cur hcur
              rw [hv]
              simp only [hset]
              rfl

/-- The CopyFields loop acts on every state of the destination with the same declared
fields in the same way. -/
theorem copyFieldsLoop_uniform (vs : Value) (nm : Option TypeName)
    (fs : List (StructField Ty × Value)) :
    ∀ (k i : Nat),
    (∃ msg, ∀ cur : List (StructField Ty × Value), cur.map Prod.fst = fs.map Prod.fst →
        copyFieldsLoop vs vs.Type (Value.struct nm fs).Type k i (.struct nm cur) = .panic msg)
    ∨ (∃ ws, ∀ cur : List (StructField Ty × Value), cur.map Prod.fst = fs.map Prod.fst →
        copyFieldsLoop vs vs.Type (Value.struct nm fs).Type k i (.struct nm cur)
          = .ok (.struct nm (storeAll ws cur))) := by
  intro k
  induction k with
  | zero => intro i; exact Or.inr ⟨[], fun _ _ => rfl⟩
  | succ k ih =>
    intro i
    rcases copyFieldsBody_uniform vs nm fs i with ⟨msg, hb⟩ | ⟨ws, hb⟩
    · refine Or.inl ⟨msg, fun cur hcur => ?_⟩
      unfold copyFieldsLoop
      rw [hb cur hcur]
    · rcases ih (i + 1) with ⟨msg, hl⟩ | ⟨us, hl⟩
      · refine Or.inl ⟨msg, fun cur hcur => ?_⟩
        unfold copyFieldsLoop
        rw [hb cur hcur]
        exact hl _ (by rw [storeAll_map_fst, hcur])
      · refine Or.inr ⟨ws ++ us, fun cur hcur => ?_⟩
        unfold copyFieldsLoop
        rw [hb cur hcur]
        simp only
        rw [hl _ (by rw [storeAll_map_fst, hcur]), storeAll_append]

/-- A value that resolves as a reference is a pointer to the struct that the resolution
returns. -/
theorem valueOfStruct_reference {dst : Any} {vd : Value} {q : Bool}
    (h : valueOfStruct dst true = .ok (vd, q)) :
    ∃ nm e, dst = some (.ptr nm e (some vd)) ∧ q = true := by
  cases dst with
  | none => simp [valueOfStruct] at h
  | some d =>
    cases d with
    | basic nm b data => simp [valueOfStruct, Value.Kind] at h; cases b <;> simp [Basic.Kind] at h
    | struct nm fs => simp [valueOfStruct, Value.Kind] at h
    | iface nm ms dyn => simp [valueOfStruct, Value.Kind] at h
    | ptr nm e tgt =>
      cases tgt with
      | none => simp [valueOfStruct, Value.kind_ptr, Value.elem_ptr] at h
      | some t =>
        simp only [valueOfStruct, Value.kind_ptr, Value.elem_ptr] at h
        split at h
        · simp at h
        · split at h
          · split at h
            · cases h
            · cases h
              exact ⟨nm, e, rfl, rfl⟩
          · rename_i hne
            exact absurd trivial hne

/-- Resolving a pointer to a struct value. -/
theorem valueOfStruct_ptr_struct (nm : Option TypeName) (e : Ty) (snm : Option TypeName)
    (fs : List (StructField Ty × Value)) (mp : Bool) :
    valueOfStruct (some (.ptr nm e (some (.struct snm fs)))) mp = .ok (.struct snm fs, true) := by
  cases mp <;> simp [valueOfStruct, Value.Kind, Value.Elem]

/-- The type of a struct value depends only on its name and declared fields. -/
theorem Value.type_struct_congr (nm : Option TypeName) {cur fs : List (StructField Ty × Value)}
    (h : cur.map Prod.fst = fs.map Prod.fst) :
    (Value.struct nm cur).Type = (Value.struct nm fs).Type := by
  cases nm <;> simp [Value.Type, Ty.withName, h]

/-- The shape of a successful call of CopyFields: both arguments resolve, the destination is
a pointer to a struct, and the result is that pointer to the struct the loop returns. -/
theorem CopyFields_ok_inv {src dst after : Any} (h : CopyFields src dst = .ok (none, after)) :
    ∃ vs ps nm e snm fs fin,
      valueOfStruct src false = .ok (vs, ps)
      ∧ dst = some (.ptr nm e (some (.struct snm fs)))
      ∧ copyFieldsLoop vs vs.Type (Value.struct snm fs).Type (Value.struct snm fs).Type.fields.length
          0 (.struct snm fs) = .ok fin
      ∧ after = some (.ptr nm e (some fin)) := by
  unfold CopyFields at h
  split at h
  · simp at h
  · cases hs : valueOfStruct src false with
    | error err => rw [hs] at h; simp at h
    | ok r =>
      obtain ⟨vs, ps⟩ := r
      rw [hs] at h
      simp only at h
      cases hd : valueOfStruct dst true with
      | error err => rw [hd] at h; simp at h
      | ok r2 =>
        obtain ⟨vd, pd⟩ := r2
        rw [hd] at h
        simp only at h
        obtain ⟨nm, e, rfl, -⟩ := valueOfStruct_reference hd
        obtain ⟨snm, fs, rfl⟩ := valueOfStruct_struct hd
        cases hl : copyFieldsLoop vs vs.Type (Value.struct snm fs).Type
            (Value.struct snm fs).Type.fields.length 0 (.struct snm fs) with
        | panic msg => rw [hl] at h; simp at h
        | ok fin =>
          rw [hl] at h
          simp only [Res.ok.injEq, Prod.mk.injEq, true_and] at h
          refine ⟨vs, ps, nm, e, snm, fs, fin, rfl, rfl, hl, ?_⟩
          rw [← h]
          rfl

/-- What CopyFields returns when both arguments resolve and the loop returns. -/
theorem CopyFields_of_loop {src : Any} {vs : Value} {ps : Bool} (nm : Option TypeName) (e : Ty)
    (snm : Option TypeName) (fs : List (StructField Ty × Value)) {fin : Value}
    (hs : valueOfStruct src false = .ok (vs, ps))
    (hl : copyFieldsLoop vs vs.Type (Value.struct snm fs).Type
      (Value.struct snm fs).Type.fields.length 0 (.struct snm fs) = .ok fin) :
    CopyFields src (some (.ptr nm e (some (.struct snm fs))))
      = .ok (none, some (.ptr nm e (some fin))) := by
  have hsrc : src ≠ none := by
    rintro rfl
    simp [valueOfStruct] at hs
  obtain ⟨s, rfl⟩ := Option.ne_none_iff_exists'.1 hsrc
  simp only [CopyFields, hs, valueOfStruct_ptr_struct, Option.isNone_some, Bool.or_self,
    Bool.false_eq_true, if_false, hl]
  rfl

/-- In a valid struct a name other than the blank name belongs to one field only. -/
theorem names_unique :
    ∀ (D : List (StructField Ty)),
      ((D.map (fun f => f.Name)).filter (fun n => decide (n ≠ "_"))).Nodup →
      ∀ (i j : Nat) (d e : StructField Ty), D[i]? = some d → D[j]? = some e →
        d.Name ≠ "_" → e.Name = d.Name → j = i := by
  intro D
  induction D with
  | nil => intro _ i j d e hi; simp at hi
  | cons a rest ih =>
    intro hn i j d e hi hj hd he
    have htail : ((rest.map (fun f => f.Name)).filter (fun n => decide (n ≠ "_"))).Nodup := by
      simp only [List.map_cons, List.filter_cons] at hn
      split at hn
      · exact (List.nodup_cons.1 hn).2
      · exact hn
    have hhead : ∀ (k : Nat) (x : StructField Ty), rest[k]? = some x → x.Name ≠ "_" →
        x.Name ≠ a.Name := by
      intro k x hk hx hxa
      simp only [List.map_cons, List.filter_cons] at hn
      rw [if_pos (by simpa using (hxa ▸ hx))] at hn
      apply (List.nodup_cons.1 hn).1
      rw [List.mem_filter]
      refine ⟨List.mem_map.2 ⟨x, List.getElem?_mem hk, hxa⟩, ?_⟩
      simpa using (hxa ▸ hx)
    cases i with
    | zero =>
      cases j with
      | zero => rfl
      | succ j =>
        simp only [List.getElem?_cons_zero, Option.some.injEq] at hi
        simp only [List.getElem?_cons_succ] at hj
        subst hi
        exact absurd he (hhead j e hj (he ▸ hd))
    | succ i =>
      cases j with
      | zero =>
        simp only [List.getElem?_cons_zero, Option.some.injEq] at hj
        simp only [List.getElem?_cons_succ] at hi
        subst hj
        exact absurd he.symm (hhead i d hi hd)
      | succ j =>
        simp only [List.getElem?_cons_succ] at hi hj
        rw [ih htail i j d e hi hj hd he]

/-- The first element with a key is the element at index `i` when no other index carries the
key. -/
theorem find_of_unique {α : Type} (key : α → String) :
    ∀ (l : List α) (i : Nat) (a : α), l[i]? = some a →
      (∀ (j : Nat) (b : α), l[j]? = some b → key b = key a → j = i) →
      l.find? (fun b => decide (key b = key a)) = some a := by
  intro l
  induction l with
  | nil => intro i a hi; simp at hi
  | cons x rest ih =>
    intro i a hi hu
    cases i with
    | zero =>
      simp only [List.getElem?_cons_zero, Option.some.injEq] at hi
      subst hi
      simp
    | succ i =>
      simp only [List.getElem?_cons_succ] at hi
      have hx : key x ≠ key a := by
        intro h
        have := hu 0 x (by simp) h
        omega
      rw [List.find?_cons_of_neg _ (by simpa using hx)]
      apply ih i a hi
      intro j b hj hb
      have := hu (j + 1) b (by simpa using hj) hb
      omega

/-- An assignment by name is an update at index `i` when no other index carries the name. -/
theorem storeField_at (nv : Value) :
    ∀ (cur : List (StructField Ty × Value)) (i : Nat) (d : StructField Ty) (v : Value),
      cur[i]? = some (d, v) →
      (∀ (j : Nat) (q : StructField Ty × Value), cur[j]? = some q → q.1.Name = d.Name → j = i) →
      storeField d.Name nv cur = cur.set i (d, nv) := by
  intro cur
  induction cur with
  | nil => intro i d v hi; simp at hi
  | cons x rest ih =>
    intro i d v hi hu
    obtain ⟨f, w⟩ := x
    cases i with
    | zero =>
      simp only [List.getElem?_cons_zero, Option.some.injEq, Prod.mk.injEq] at hi
      obtain ⟨rfl, rfl⟩ := hi
      simp [storeField]
    | succ i =>
      simp only [List.getElem?_cons_succ] at hi
      have hx : f.Name ≠ d.Name := by
        intro h
        have := hu 0 (f, w) (by simp) h
        omega
      simp only [storeField, hx, if_false, List.set_cons_succ, List.cons.injEq, true_and]
      apply ih i d v hi
      intro j q hj hq
      have := hu (j + 1) q (by simpa using hj) hq
      omega

/-- Two lists of fields with the same declarations have, at every index, the same
declaration. -/
theorem getElem?_of_map_fst {cur nxt : List (StructField Ty × Value)}
    (h : cur.map Prod.fst = nxt.map Prod.fst) {j : Nat} {d : StructField Ty} {v : Value}
    (hj : cur[j]? = some (d, v)) : ∃ w, nxt[j]? = some (d, w) := by
  have h1 : (cur.map Prod.fst)[j]? = some d := by simp [hj]
  rw [h] at h1
  simp only [List.getElem?_map] at h1
  cases hn : nxt[j]? with
  | none => rw [hn] at h1; cases h1
  | some q =>
    rw [hn] at h1
    simp only [Option.map_some', Option.some.injEq] at h1
    exact ⟨q.2, by rw [← h1]⟩

/-- A successful `Set` involves exported fields only and stores what assignTo returns. -/
theorem Value.Set_ok {d : StructField Ty} {x : StructField Ty × Value} {nv : Value}
    (h : Value.Set d x = .ok nv) :
    d.PkgPath = "" ∧ x.1.PkgPath = "" ∧ assignTo x.2 x.1.Typ d.Typ = .ok nv := by
  unfold Value.Set at h
  split at h
  · cases h
  · split at h
    · cases h
    · rename_i h1 h2
      exact ⟨not_not.1 h1, not_not.1 h2, h⟩

/-- Assigning the value of an exported field to an exported field of the same type stores
the value itself. -/
theorem Value.Set_same_type (d s : StructField Ty) (v : Value) (hd : d.PkgPath = "")
    (hs : s.PkgPath = "") (ht : s.Typ = d.Typ) : Value.Set d (s, v) = .ok v := by
  simp [Value.Set, hd, hs, assignTo, directlyAssignable, ht]

/-- A field of a valid struct that `Set` accepts does not have the blank name. -/
theorem exported_not_blank {D : List (StructField Ty)} (hv : validStruct D) {d : StructField Ty}
    (hd : d ∈ D) (hp : d.PkgPath = "") : d.Name ≠ "_" := by
  intro h
  have := (hv.1 d hd).2 hp
  rw [h] at this
  revert this
  decide

/-- The names of a valid struct tell its fields apart. -/
theorem validStruct_distinct {D : List (StructField Ty)} (hv : validStruct D) :
    distinctNames D :=
  ⟨fun _ hd hp => exported_not_blank hv hd hp, hv.2.2⟩

/-- One successful iteration of the CopyFields loop on a destination whose names tell its
fields apart: a field that is not copied leaves the state unchanged, a field that is copied
gets, at its own index, the value that `Set` stores for the source value read at that
index. -/
theorem copyFieldsBody_frame (vs : Value) (nm : Option TypeName)
    (fs cur : List (StructField Ty × Value)) (i : Nat) (d : StructField Ty) (old next : Value)
    (hvalid : distinctNames (fs.map Prod.fst))
    (hcur : cur.map Prod.fst = fs.map Prod.fst) (hi : cur[i]? = some (d, old))
    (hb : copyFieldsBody vs vs.Type (Value.struct nm fs).Type (.struct nm cur) i = .ok next) :
    (¬ copiedFrom vs d → next = .struct nm cur)
    ∧ (copiedFrom vs d → ∃ x nv, vs.fields[i]? = some x ∧ Value.Set d x = .ok nv
        ∧ next = .struct nm (cur.set i (d, nv))) := by
  have hdi : (Value.struct nm fs).Type.fields[i]? = some d := by
    rw [Value.type_fields, ← hcur]
    simp [hi]
  unfold copyFieldsBody at hb
  rw [hdi] at hb
  simp only at hb
  cases hs : vs.Type.FieldByName d.Name with
  | none =>
    rw [hs] at hb
    simp only [Res.ok.injEq] at hb
    refine ⟨fun _ => hb.symm, ?_⟩
    rintro ⟨sfld, hsf, -⟩
    rw [hs] at hsf
    cases hsf
  | some sfld =>
    rw [hs] at hb
    simp only at hb
    by_cases hc : copies sfld d
    · have hnot : ¬ (sfld.Typ ≠ d.Typ ∧
          (d.Typ.Kind ≠ .Interface ∨ sfld.Typ.Implements d.Typ = false)) := hc
      rw [if_neg hnot] at hb
      refine ⟨fun hn => absurd ⟨sfld, hs, hc⟩ hn, fun _ => ?_⟩
      cases ht : (Value.struct nm cur).FieldByName d.Name with
      | none => rw [ht] at hb; cases hb
      | some target =>
        rw [ht] at hb
        simp only at hb
        cases hx : vs.fields[i]? with
        | none => rw [hx] at hb; cases hb
        | some x =>
          rw [hx] at hb
          simp only at hb
          cases hset : Value.Set target.1 x with
          | panic msg => rw [hset] at hb; cases hb
          | ok nv =>
            rw [hset] at hb
            simp only [Res.ok.injEq] at hb
            -- the target is an exported field named as d, hence the field at index i
            have htm : target ∈ cur := by
              unfold Value.FieldByName at ht
              exact List.mem_of_find?_eq_some ht
            have htn : target.1.Name = d.Name := by
              unfold Value.FieldByName at ht
              simpa using List.find?_some ht
            have htD : target.1 ∈ fs.map Prod.fst := by
              rw [← hcur]
              exact List.mem_map.2 ⟨target, htm, rfl⟩
            have hblank : d.Name ≠ "_" := by
              rw [← htn]
              exact hvalid.1 _ htD (Value.Set_ok hset).1
            have huniq : ∀ (j : Nat) (q : StructField Ty × Value), cur[j]? = some q →
                q.1.Name = d.Name → j = i := by
              intro j q hj hq
              have h1 : (fs.map Prod.fst)[j]? = some q.1 := by
                rw [← hcur]; simp [hj]
              have h2 : (fs.map Prod.fst)[i]? = some d := by
                rw [← hcur]; simp [hi]
              exact names_unique _ hvalid.2 i j d q.1 h2 h1 hblank hq
            have hfind : (Value.struct nm cur).FieldByName d.Name = some (d, old) :=
              find_of_unique (fun q : StructField Ty × Value => q.1.Name) cur i (d, old) hi huniq
            rw [hfind] at ht
            cases ht
            refine ⟨x, nv, rfl, hset, ?_⟩
            rw [← hb]
            simp only [Value.store]
            rw [storeField_at nv cur i d old hi huniq]
    · have hyes : sfld.Typ ≠ d.Typ ∧
          (d.Typ.Kind ≠ .Interface ∨ sfld.Typ.Implements d.Typ = false) := by
        unfold copies at hc
        exact not_not.1 hc
      rw [if_pos hyes] at hb
      simp only [Res.ok.injEq] at hb
      refine ⟨fun _ => hb.symm, ?_⟩
      rintro ⟨s2, hs2, hc2⟩
      rw [hs] at hs2
      cases hs2
      exact absurd hc2 hc

/-- The frame of a successful run of the CopyFields loop from index `i` on a destination
whose names tell its fields apart. -/
theorem copyFieldsLoop_frame (vs : Value) (nm : Option TypeName)
    (fs : List (StructField Ty × Value)) (hvalid : distinctNames (fs.map Prod.fst)) :
    ∀ (k i : Nat) (cur : List (StructField Ty × Value)) (fin : Value), i + k = fs.length →
      cur.map Prod.fst = fs.map Prod.fst →
      copyFieldsLoop vs vs.Type (Value.struct nm fs).Type k i (.struct nm cur) = .ok fin →
      ∃ final, fin = .struct nm final ∧ final.map Prod.fst = fs.map Prod.fst
        ∧ ∀ (j : Nat) (d : StructField Ty) (old new : Value),
            cur[j]? = some (d, old) → final[j]? = some (d, new) →
            ((i ≤ j ∧ copiedFrom vs d) →
              ∃ x, vs.fields[j]? = some x ∧ Value.Set d x = .ok new)
            ∧ (¬ (i ≤ j ∧ copiedFrom vs d) → new = old) := by
  intro k
  induction k with
  | zero =>
    intro i cur fin hik hcur hl
    simp only [copyFieldsLoop, Res.ok.injEq] at hl
    refine ⟨cur, hl.symm, hcur, ?_⟩
    intro j d old new hj hnew
    have hjl : j < cur.length := by
      by_contra hge
      rw [List.getElem?_eq_none (by omega)] at hj
      cases hj
    have hlen : cur.length = fs.length := by
      have := congrArg List.length hcur
      simpa using this
    rw [hj] at hnew
    simp only [Option.some.injEq, Prod.mk.injEq, true_and] at hnew
    exact ⟨fun h => by omega, fun _ => hnew.symm⟩
  | succ k ih =>
    intro i cur fin hik hcur hl
    have hlen : cur.length = fs.length := by
      have := congrArg List.length hcur
      simpa using this
    have hilt : i < cur.length := by omega
    have hi : cur[i]? = some (cur[i]) := List.getElem?_eq_getElem hilt
    generalize hci : cur[i] = ci at hi
    obtain ⟨d0, old0⟩ := ci
    unfold copyFieldsLoop at hl
    cases hb : copyFieldsBody vs vs.Type (Value.struct nm fs).Type (.struct nm cur) i with
    | panic msg => rw [hb] at hl; cases hl
    | ok next =>
      rw [hb] at hl
      simp only at hl
      obtain ⟨hno, hyes⟩ := copyFieldsBody_frame vs nm fs cur i d0 old0 next hvalid hcur hi hb
      by_cases hc : copiedFrom vs d0
      · obtain ⟨x, nv, hx, hset, hnext⟩ := hyes hc
        subst hnext
        have hmap : (cur.set i (d0, nv)).map Prod.fst = fs.map Prod.fst := by
          rw [← hcur]
          apply List.ext_getElem?
          intro n
          simp only [List.getElem?_map, List.getElem?_set]
          by_cases hn : i = n
          · subst hn
            simp [hi, hilt]
          · simp [hn]
        obtain ⟨final, hfin, hfmap, hframe⟩ := ih (i + 1) (cur.set i (d0, nv)) fin (by omega) hmap hl
        refine ⟨final, hfin, hfmap, ?_⟩
        intro j d old new hj hnew
        by_cases hji : j = i
        · subst hji
          rw [hi] at hj
          simp only [Option.some.injEq, Prod.mk.injEq] at hj
          obtain ⟨rfl, rfl⟩ := hj
          have hmid : (cur.set j (d0, nv))[j]? = some (d0, nv) := by
            simp [List.getElem?_set, hilt]
          have := (hframe j d0 nv new hmid hnew).2 (by omega)
          subst this
          exact ⟨fun _ => ⟨x, hx, hset⟩, fun h => absurd ⟨le_refl _, hc⟩ h⟩
        · have hmid : (cur.set i (d0, nv))[j]? = some (d, old) := by
            rw [List.getElem?_set]
            simp [Ne.symm hji, hj]
          obtain ⟨h1, h2⟩ := hframe j d old new hmid hnew
          refine ⟨fun h => h1 ⟨by omega, h.2⟩, fun h => h2 ?_⟩
          rintro ⟨hle, hcd⟩
          exact h ⟨by omega, hcd⟩
      · have hnext := hno hc
        subst hnext
        obtain ⟨final, hfin, hfmap, hframe⟩ := ih (i + 1) cur fin (by omega) hcur hl
        refine ⟨final, hfin, hfmap, ?_⟩
        intro j d old new hj hnew
        obtain ⟨h1, h2⟩ := hframe j d old new hj hnew
        by_cases hji : j = i
        · subst hji
          rw [hi] at hj
          simp only [Option.some.injEq, Prod.mk.injEq] at hj
          obtain ⟨rfl, rfl⟩ := hj
          exact ⟨fun h => absurd h.2 hc, fun _ => h2 (by omega)⟩
        · refine ⟨fun h => h1 ⟨by omega, h.2⟩, fun h => h2 ?_⟩
          rintro ⟨hle, hcd⟩
          exact h ⟨by omega, hcd⟩

/-- Two field lists with the same names and types have, at every index, fields of the same
name and type. -/
theorem shape_getElem? {S D : List (StructField Ty)}
    (h : S.map (fun f => (f.Name, f.Typ)) = D.map (fun f => (f.Name, f.Typ))) {i : Nat}
    {d : StructField Ty} (hd : D[i]? = some d) :
    ∃ s, S[i]? = some s ∧ s.Name = d.Name ∧ s.Typ = d.Typ := by
  have h1 : (D.map (fun f => (f.Name, f.Typ)))[i]? = some (d.Name, d.Typ) := by simp [hd]
  rw [← h] at h1
  simp only [List.getElem?_map] at h1
  cases hs : S[i]? with
  | none => rw [hs] at h1; cases h1
  | some s =>
    rw [hs] at h1
    simp only [Option.map_some', Option.some.injEq, Prod.mk.injEq] at h1
    exact ⟨s, rfl, h1.1, h1.2⟩

/-- Two field lists with the same names and types have the same names. -/
theorem shape_names {S D : List (StructField Ty)}
    (h : S.map (fun f => (f.Name, f.Typ)) = D.map (fun f => (f.Name, f.Typ))) :
    S.map (fun f => f.Name) = D.map (fun f => f.Name) := by
  have := congrArg (List.map Prod.fst) h
  simpa [List.map_map, Function.comp] using this

/-- The zero value of a field is the zero value of its type. -/
theorem zeroField_eq (f : StructField Ty) : zeroField f = zero f.Typ := by
  cases f
  simp [zeroField]

/-- The fields of the zero value of a struct type. -/
theorem zero_struct_fields (fs : List (StructField Ty)) :
    (zero (.struct fs)).fields = fs.map (fun f => (f, zero f.Typ)) := by
  simp only [zero, Value.fields]
  induction fs with
  | nil => simp [zeroFields]
  | cons f rest ih => simp [zeroFields, ih, zeroField_eq]

/-- The fields that the loop of buildPointer appends, when every key of the range order has
a non-nil witness. -/
theorem builder_appended (sb : structBuilder) :
    ∀ order : List String,
      (∀ name ∈ order, ∃ fld w, sb.Fields name = some fld ∧ fld.Typ = some w) →
      order.filterMap sb.appended
          = (order.filterMap sb.fieldOf).map
              (fun f => (⟨f.Name, f.PkgPath, some f.Typ, f.Tag, f.Anonymous⟩ : StructField (Option Ty)))
        ∧ (order.filterMap sb.fieldOf).map (fun f => f.Name) = order
        ∧ ∀ f ∈ order.filterMap sb.fieldOf, f.PkgPath = "" ∧ ∃ (fld : structBuilderField) (w : Value),
            sb.Fields f.Name = some fld ∧ fld.Typ = some w ∧ f.Typ = w.Type ∧ f.Tag = fld.Tag := by
  intro order
  induction order with
  | nil => intro _; simp
  | cons name rest ih =>
    intro h
    obtain ⟨fld, w, hf, hw⟩ := h name (List.mem_cons_self _ _)
    obtain ⟨h1, h2, h3⟩ := ih (fun n hn => h n (List.mem_cons_of_mem _ hn))
    have ha : sb.appended name = some ⟨name, "", some w.Type, fld.Tag, false⟩ := by
      simp [structBuilder.appended, hf, hw, TypeOf]
    have hg : sb.fieldOf name = some ⟨name, "", w.Type, fld.Tag, false⟩ := by
      simp [structBuilder.fieldOf, hf, hw]
    refine ⟨?_, ?_, ?_⟩
    · rw [List.filterMap_cons_some ha, List.filterMap_cons_some hg, h1]
      simp
    · rw [List.filterMap_cons_some hg]
      simp [h2]
    · intro f hfm
      rw [List.filterMap_cons_some hg] at hfm
      rcases List.mem_cons.1 hfm with rfl | hfm
      · exact ⟨rfl, fld, w, hf, hw, rfl, rfl⟩
      · exact h3 f hfm

/-- What buildPointer builds for a range order of a builder whose witnesses are not nil and
whose names are exported identifiers. -/
theorem buildPointer_eval (sb : structBuilder) (order : List String)
    (horder : sb.rangeOrder order)
    (hw : ∀ name fld, sb.Fields name = some fld → fld.Typ ≠ none)
    (hnames : ∀ name, sb.Fields name ≠ none →
      isValidFieldName name = true ∧ startsLower name = false) :
    sb.buildPointer order = .ok (New (.struct (order.filterMap sb.fieldOf)))
    ∧ (order.filterMap sb.fieldOf).map (fun f => f.Name) = order
    ∧ ∀ f ∈ order.filterMap sb.fieldOf, f.PkgPath = "" ∧ ∃ (fld : structBuilderField) (w : Value),
        sb.Fields f.Name = some fld ∧ fld.Typ = some w ∧ f.Typ = w.Type ∧ f.Tag = fld.Tag := by
  have hall : ∀ name ∈ order, ∃ fld w, sb.Fields name = some fld ∧ fld.Typ = some w := by
    intro name hn
    have hk := (horder.2 name).1 hn
    obtain ⟨fld, hfld⟩ := Option.ne_none_iff_exists'.1 hk
    obtain ⟨w, hwv⟩ := Option.ne_none_iff_exists'.1 (hw name fld hfld)
    exact ⟨fld, w, hfld, hwv⟩
  obtain ⟨h1, h2, h3⟩ := builder_appended sb order hall
  refine ⟨?_, h2, h3⟩
  have hv : validStruct (order.filterMap sb.fieldOf) := by
    refine ⟨?_, ?_, ?_⟩
    · intro f hf
      have hmem : f.Name ∈ order := by
        rw [← h2]; exact List.mem_map.2 ⟨f, hf, rfl⟩
      have := hnames f.Name ((horder.2 f.Name).1 hmem)
      exact ⟨this.1, fun _ => this.2⟩
    · intro f hf g hg hfp
      exact absurd (h3 f hf).1 hfp
    · rw [h2]
      exact horder.1.filter _
  have hemb : noEmbedded (order.filterMap sb.fieldOf) := by
    intro f hf
    obtain ⟨name, -, hname⟩ := List.mem_filterMap.1 hf
    unfold structBuilder.fieldOf at hname
    cases hfld : sb.Fields name with
    | none => simp [hfld] at hname
    | some fld =>
      cases hwv : fld.Typ with
      | none => simp [hfld, hwv] at hname
      | some w =>
        simp [hfld, hwv] at hname
        rw [← hname]
  unfold structBuilder.buildPointer
  simp only
  rw [h1, StructOf_ok (fun f => f.Typ) _ hv hemb, eta_map]

/-- The method buildPointer panics when a key of the builder is empty or starts with a
lower-case letter or an underscore. -/
theorem buildPointer_refused (sb : structBuilder) (order : List String)
    (horder : sb.rangeOrder order) (name : String) (hkey : sb.Fields name ≠ none)
    (hname : name = "" ∨ startsLower name = true) :
    ∃ msg, sb.buildPointer order = .panic msg := by
  obtain ⟨fld, hfld⟩ := Option.ne_none_iff_exists'.1 hkey
  have hmem : (⟨name, "", TypeOf fld.Typ, fld.Tag, false⟩ : StructField (Option Ty))
      ∈ order.filterMap sb.appended := by
    apply List.mem_filterMap.2
    exact ⟨name, (horder.2 name).2 hkey, by simp [structBuilder.appended, hfld]⟩
  have hbad : refusedField (⟨name, "", TypeOf fld.Typ, fld.Tag, false⟩ :
      StructField (Option Ty)) := by
    rcases hname with h | h
    · exact Or.inl h
    · exact Or.inr (Or.inr (Or.inr ⟨rfl, h⟩))
  obtain ⟨msg, hmsg⟩ := StructOf_refused _ ⟨_, hmem, hbad⟩
  exact ⟨msg, by simp only [structBuilder.buildPointer, hmsg]⟩

/-- The keys of the builder with the single field A. -/
theorem builderA_keys (key : String) : builderA.Fields key ≠ none ↔ key = "A" := by
  simp only [builderA, structBuilder.WithField, NewStructBuilder]
  by_cases h : key = "A" <;> simp [h]

/-- The builder with the single field A has a single range order. -/
theorem builderA_order (order : List String) : builderA.rangeOrder order ↔ order = ["A"] := by
  constructor
  · rintro ⟨hnd, hk⟩
    have hmem : ∀ key, key ∈ order ↔ key = "A" := fun key => (hk key).trans (builderA_keys key)
    cases order with
    | nil => exact absurd ((hmem "A").2 rfl) (by simp)
    | cons a t =>
      have ha : a = "A" := (hmem a).1 (List.mem_cons_self _ _)
      subst ha
      cases t with
      | nil => rfl
      | cons b u =>
        have hb : b = "A" := (hmem b).1 (by simp)
        subst hb
        simp at hnd
  · rintro rfl
    exact ⟨by decide, fun key => by rw [builderA_keys]; simp⟩

/-! ### Two pointers into one variable -/

/-- After a record of a variable has been overwritten, its path leads to the new record. -/
theorem subObject_putAt_same :
    ∀ (p : List Nat) (root d nv : Value), subObject p root = some d →
      subObject p (putAt p root nv) = some nv := by
  intro p
  induction p with
  | nil => intro root d nv _; rfl
  | cons i rest ih =>
    intro root d nv h
    cases root with
    | struct nm fs =>
      simp only [subObject, Value.fields] at h
      cases hi : fs[i]? with
      | none => rw [hi] at h; cases h
      | some q =>
        obtain ⟨dd, c⟩ := q
        rw [hi] at h
        simp only at h
        have hlt : i < fs.length := by
          by_contra hge
          rw [List.getElem?_eq_none (by omega)] at hi
          cases hi
        simp only [putAt, hi, subObject, Value.fields, List.getElem?_set, hlt, if_true]
        exact ih c d nv h
    | basic nm b dt => simp [subObject, Value.fields] at h
    | ptr nm e t => simp [subObject, Value.fields] at h
    | iface nm ms dy => simp [subObject, Value.fields] at h

/-- Overwriting a record of a variable leaves every record that does not overlap it as it
was. -/
theorem subObject_putAt_disjoint :
    ∀ (pd ps : List Nat) (root nv : Value), ¬ ps <+: pd → ¬ pd <+: ps →
      subObject ps (putAt pd root nv) = subObject ps root := by
  intro pd
  induction pd with
  | nil => intro ps root nv _ h; exact absurd (List.nil_prefix) h
  | cons i pr ih =>
    intro ps root nv h1 h2
    cases ps with
    | nil => exact absurd (List.nil_prefix) h1
    | cons j sr =>
      cases root with
      | struct nm fs =>
        cases hi : fs[i]? with
        | none => simp [putAt, hi]
        | some q =>
          obtain ⟨dd, c⟩ := q
          have hlt : i < fs.length := by
            by_contra hge
            rw [List.getElem?_eq_none (by omega)] at hi
            cases hi
          simp only [putAt, hi, subObject, Value.fields]
          by_cases hij : i = j
          · subst hij
            have h1' : ¬ sr <+: pr := fun h => h1 ((List.cons_prefix_cons).2 ⟨rfl, h⟩)
            have h2' : ¬ pr <+: sr := fun h => h2 ((List.cons_prefix_cons).2 ⟨rfl, h⟩)
            simp only [List.getElem?_set, hlt, if_true, hi]
            exact ih sr c nv h1' h2'
          · rw [List.getElem?_set_ne hij]
      | basic nm b dt => rfl
      | ptr nm e t => rfl
      | iface nm ms dy => rfl

/-- Overwriting a record twice is overwriting it with the second value. -/
theorem putAt_putAt :
    ∀ (p : List Nat) (root a b : Value), putAt p (putAt p root a) b = putAt p root b := by
  intro p
  induction p with
  | nil => intro _ _ _; rfl
  | cons i rest ih =>
    intro root a b
    cases root with
    | struct nm fs =>
      cases hi : fs[i]? with
      | none => simp [putAt, hi]
      | some q =>
        obtain ⟨dd, c⟩ := q
        have hlt : i < fs.length := by
          by_contra hge
          rw [List.getElem?_eq_none (by omega)] at hi
          cases hi
        simp only [putAt, hi, List.getElem?_set, hlt, if_true]
        simp [ih]
    | basic nm b dt => rfl
    | ptr nm e t => rfl
    | iface nm ms dy => rfl

/-- Overwriting a record with its own contents leaves the variable as it was. -/
theorem putAt_self :
    ∀ (p : List Nat) (root d : Value), subObject p root = some d → putAt p root d = root := by
  intro p
  induction p with
  | nil => intro root d h; simp [subObject] at h; simp [putAt, h]
  | cons i rest ih =>
    intro root d h
    cases root with
    | struct nm fs =>
      simp only [subObject, Value.fields] at h
      cases hi : fs[i]? with
      | none => rw [hi] at h; cases h
      | some q =>
        obtain ⟨dd, c⟩ := q
        rw [hi] at h
        simp only at h
        simp only [putAt, hi, ih c d h]
        congr 1
        apply List.ext_getElem?
        intro n
        rw [List.getElem?_set]
        split
        · rename_i hn
          subst hn
          have hlt : i < fs.length := by
            by_contra hge
            rw [List.getElem?_eq_none (by omega)] at hi
            cases hi
          simp [hlt, hi]
        · rfl
    | basic nm b dt => rfl
    | ptr nm e t => rfl
    | iface nm ms dy => rfl

/-- On two records of one variable that do not overlap, the loop of CopyFields runs as on two
variables: it panics when that run panics, and otherwise overwrites the destination record
with the result of that run. -/
theorem copyFieldsWithinLoop_disjoint (ps pd : List Nat) (hdis : disjointPaths ps pd)
    (vst vdt : Ty) (vs : Value) :
    ∀ (k i : Nat) (root vd : Value), subObject ps root = some vs → subObject pd root = some vd →
      (∀ fin, copyFieldsLoop vs vst vdt k i vd = .ok fin →
        copyFieldsWithinLoop ps pd vst vdt k i root = .ok (putAt pd root fin))
      ∧ (∀ msg, copyFieldsLoop vs vst vdt k i vd = .panic msg →
        copyFieldsWithinLoop ps pd vst vdt k i root = .panic msg) := by
  intro k
  induction k with
  | zero =>
    intro i root vd hs hd
    refine ⟨?_, ?_⟩
    · intro fin h
      simp only [copyFieldsLoop, Res.ok.injEq] at h
      subst h
      simp [copyFieldsWithinLoop, putAt_self pd root vd hd]
    · intro msg h
      simp [copyFieldsLoop] at h
  | succ k ih =>
    intro i root vd hs hd
    unfold copyFieldsLoop copyFieldsWithinLoop
    rw [hs, hd]
    simp only
    cases hb : copyFieldsBody vs vst vdt vd i with
    | panic m => simp
    | ok next =>
      simp only
      have hs' : subObject ps (putAt pd root next) = some vs := by
        rw [subObject_putAt_disjoint pd ps root next hdis.1 hdis.2, hs]
      have hd' := subObject_putAt_same pd root vd next hd
      obtain ⟨h1, h2⟩ := ih (i + 1) (putAt pd root next) next hs' hd'
      refine ⟨?_, h2⟩
      intro fin hf
      rw [h1 fin hf, putAt_putAt]

/-- Resolving a pointer to a value succeeds only when the value is a struct, and gives it. -/
theorem valueOfStruct_ptr_inv {nm : Option TypeName} {e : Ty} {s v : Value} {mp q : Bool}
    (h : valueOfStruct (some (.ptr nm e (some s))) mp = .ok (v, q)) :
    v = s ∧ ∃ snm fs, s = .struct snm fs := by
  cases s with
  | struct snm fs =>
    rw [valueOfStruct_ptr_struct] at h
    cases h
    exact ⟨rfl, snm, fs, rfl⟩
  | basic snm b dt =>
    cases mp <;> cases b <;>
      simp [valueOfStruct, Value.kind_ptr, Value.elem_ptr, Value.Kind, Basic.Kind] at h
  | ptr snm e2 t =>
    cases mp <;> simp [valueOfStruct, Value.kind_ptr, Value.elem_ptr] at h
  | iface snm ms dy =>
    cases mp <;> simp [valueOfStruct, Value.kind_ptr, Value.elem_ptr, Value.Kind] at h

/-- The shape of a successful call of CopyFields on two pointers into one variable. -/
theorem CopyFieldsWithin_ok_inv {root after : Value} {ps pd : List Nat}
    (h : CopyFieldsWithin root ps pd = some (.ok (none, after))) :
    ∃ s snm fs, subObject ps root = some s ∧ s.Kind = .Struct
      ∧ subObject pd root = some (.struct snm fs)
      ∧ copyFieldsWithinLoop ps pd s.Type (Value.struct snm fs).Type
          (Value.struct snm fs).Type.fields.length 0 root = .ok after := by
  unfold CopyFieldsWithin at h
  cases hs : subObject ps root with
  | none => rw [hs] at h; simp at h
  | some s =>
    cases hd : subObject pd root with
    | none => rw [hs, hd] at h; simp at h
    | some d =>
      rw [hs, hd] at h
      simp only [Option.some.injEq] at h
      cases h1 : valueOfStruct (some (.ptr none s.Type (some s))) false with
      | error err => rw [h1] at h; simp at h
      | ok r =>
        obtain ⟨vs, q⟩ := r
        rw [h1] at h
        simp only at h
        obtain ⟨rfl, ssnm, sfs, hss⟩ := valueOfStruct_ptr_inv h1
        cases h2 : valueOfStruct (some (.ptr none d.Type (some d))) true with
        | error err => rw [h2] at h; simp at h
        | ok r2 =>
          obtain ⟨vd, q2⟩ := r2
          rw [h2] at h
          simp only at h
          obtain ⟨rfl, snm, fs, rfl⟩ := valueOfStruct_ptr_inv h2
          refine ⟨vs, snm, fs, rfl, by rw [hss]; rfl, rfl, ?_⟩
          split at h
          · cases h
          · rename_i a hl
            simp only [Res.ok.injEq, Prod.mk.injEq, true_and] at h
            rw [hl, h]

/-- What CopyFields returns on two pointers into one variable when the loop returns. -/
theorem CopyFieldsWithin_of_loop {root after s : Value} {ps pd : List Nat}
    (snm : Option TypeName) (fs : List (StructField Ty × Value))
    (hs : subObject ps root = some s) (hk : s.Kind = .Struct)
    (hd : subObject pd root = some (.struct snm fs))
    (hl : copyFieldsWithinLoop ps pd s.Type (Value.struct snm fs).Type
          (Value.struct snm fs).Type.fields.length 0 root = .ok after) :
    CopyFieldsWithin root ps pd = some (.ok (none, after)) := by
  obtain ⟨ssnm, sfs, rfl⟩ := (Value.kind_struct_iff s).1 hk
  unfold CopyFieldsWithin
  rw [hs, hd]
  simp only [valueOfStruct_ptr_struct, hl]

/-- A successful run of the loop of CopyFields, run again on its result, returns that
result. -/
theorem copyFieldsLoop_idem (vs : Value) (snm : Option TypeName)
    (fs : List (StructField Ty × Value)) (fin : Value)
    (hl : copyFieldsLoop vs vs.Type (Value.struct snm fs).Type
      (Value.struct snm fs).Type.fields.length 0 (.struct snm fs) = .ok fin) :
    ∃ final, fin = .struct snm final ∧ final.map Prod.fst = fs.map Prod.fst
      ∧ copyFieldsLoop vs vs.Type (Value.struct snm final).Type
        (Value.struct snm final).Type.fields.length 0 (.struct snm final)
          = .ok (.struct snm final) := by
  rcases copyFieldsLoop_uniform vs snm fs (Value.struct snm fs).Type.fields.length 0 with
    ⟨msg, hu⟩ | ⟨ws, hu⟩
  · rw [hu fs rfl] at hl
    cases hl
  · rw [hu fs rfl] at hl
    cases hl
    have hdecl := storeAll_map_fst ws fs
    have hty := Value.type_struct_congr snm hdecl
    refine ⟨storeAll ws fs, rfl, hdecl, ?_⟩
    rw [hty, hu (storeAll ws fs) hdecl, storeAll_idem]

/-! ## The claims C11 to C20 -/

/-- Counterexample to C11. The types `User` of the packages `a/model` and `b/model` are
different types, both print as `model.User`, and IsType on a value of each returns true. -/
theorem IsType_same_printed_name :
    userOfAVal.Type = .named userOfA (.struct [])
    ∧ userOfBVal.Type = .named userOfB (.struct [])
    ∧ userOfAVal.Type ≠ userOfBVal.Type
    ∧ IsType (some userOfAVal) (some userOfBVal) = true :=
  ⟨rfl, rfl, by decide, by decide⟩

/-- Claim C11, amended. IsType(v, w) is true exactly when v and w are both non-nil and the
printed names (`Type.String()`) of their run-time types are equal; IsType(nil, w) and
IsType(v, nil) are false. For a record R with an exported field F holding a value x that is
not of interface type, Field(R, F) returns x, and IsType(Field(R, F), w) is true for every
witness w of the type of x and false for every witness whose type prints differently, in
particular for two different predeclared scalar types. -/
theorem IsType_result :
    (∀ v w : Any, IsType v w = true ↔
      ∃ a b : Value, v = some a ∧ w = some b ∧ a.Type.typeString = b.Type.typeString)
    ∧ (∀ w : Any, IsType none w = false)
    ∧ (∀ v : Any, IsType v none = false)
    ∧ (∀ (R : Any) (F : String) (tv : Value × Bool) (f : StructField Ty) (x : Value),
        valueOfStruct R false = .ok tv → tv.1.FieldByName F = some (f, x) → f.PkgPath = "" →
        x.Kind ≠ .Interface →
        Field R F = .ok (some x, none)
        ∧ (∀ w : Value, w.Type = x.Type → IsType (some x) (some w) = true)
        ∧ (∀ w : Value, w.Type.typeString ≠ x.Type.typeString → IsType (some x) (some w) = false))
    ∧ (∀ (b c : Basic) (d e : Nat), b ≠ c →
        IsType (some (.basic none b d)) (some (.basic none c e)) = false) := by
  refine ⟨?_, ?_, ?_, ?_, ?_⟩
  · intro v w
    cases v with
    | none => simp [IsType, isType, TypeOf]
    | some a =>
      cases w with
      | none => simp [IsType, isType, TypeOf]
      | some b => simp [IsType_some]
  · intro w
    simp [IsType, isType, TypeOf]
  · intro v
    simp [IsType, isType, TypeOf]
  · intro R F tv f x hres hf hp hk
    obtain ⟨v, p⟩ := tv
    simp only at hf
    refine ⟨?_, ?_, ?_⟩
    · have hx : x.toAny = some x := by
        cases x <;> simp [Value.toAny, Value.Kind] at hk ⊢
      simp only [Field, hres]
      rw [hf]
      simp [Value.Interface, hp, hx]
    · intro w hw
      simp [IsType_some, hw]
    · intro w hw
      simp only [IsType_some, decide_eq_false_iff_not]
      exact fun h => hw h.symm
  · intro b c d e hbc
    simp only [IsType_some, decide_eq_false_iff_not, Value.Type, Ty.withName, Ty.typeString]
    exact fun h => hbc (Basic.typeString_injective b c h)

/-- Witness for C11: field A of struct(A: 1, B: 2) against an int64 and a string witness. -/
theorem IsType_result_witness :
    valueOfStruct (some structAB) false = .ok (structAB, false)
    ∧ structAB.FieldByName "A" = some (fieldA, int64Val 1)
    ∧ Field (some structAB) "A" = .ok (some (int64Val 1), none)
    ∧ IsType (some (int64Val 1)) (some (int64Val 42)) = true
    ∧ IsType (some (int64Val 1)) (some (stringVal 0)) = false :=
  have h := IsType_result.2.2.2.1 (some structAB) "A" (structAB, false) fieldA (int64Val 1) rfl rfl
    rfl (by decide)
  ⟨rfl, rfl, h.1, h.2.1 (int64Val 42) rfl, IsType_result.2.2.2.2 .int64 .string 1 0 (by decide)⟩

/-- Claim C12, evaluated at the failing input. On a nil record FieldIsType returns
(false, ErrNilPointer), and MustFieldIsType returns the same pair instead of panicking, while
MustField on the same record panics with that error. -/
theorem MustFieldIsType_returns_the_error :
    FieldIsType none "A" (some (int64Val 0)) = (false, some .ErrNilPointer)
    ∧ MustFieldIsType none "A" (some (int64Val 0)) = (false, some .ErrNilPointer)
    ∧ MustField none "A" = .panic Err.ErrNilPointer.Error :=
  ⟨rfl, rfl, rfl⟩

/-- Counterexample to C13. The name `a` is a field of struct(a: 1), FilterFields returns the
instance c = struct(a: 0), and HasField(c, "a") panics instead of returning (true, nil). The
name `base` is a field of `struct{ base; A int64 }{}`, the embedded one, and FilterFields
itself panics, so that there is no instance c. -/
theorem FilterFields_then_HasField_panics :
    valueOfStruct (some structLowerA) false = .ok (structLowerA, false)
    ∧ (∀ n ∈ ["a"], ∃ f ∈ structLowerA.Type.fields, f.Name = n)
    ∧ FilterFields (some structLowerA) ["a"]
        = .ok (some (.struct none [(fieldLowerA, int64Val 0)]), none)
    ∧ HasField (some (.struct none [(fieldLowerA, int64Val 0)])) "a"
      = .panic "reflect.Value.Interface: cannot return value obtained from unexported field or method"
    ∧ valueOfStruct (some structBaseA) false = .ok (structBaseA, false)
    ∧ (∀ n ∈ ["base"], ∃ f ∈ structBaseA.Type.fields, f.Name = n)
    ∧ FilterFields (some structBaseA) ["base"]
        = .panic "reflect.StructOf: field is anonymous but has PkgPath set" :=
  ⟨rfl, by decide, rfl, rfl, rfl, by decide, rfl⟩

/-- Claim C13, amended. For a record R that resolves to a record without embedded fields (a Go
struct: `validStruct`) and a list of names that are all fields of R, none but the blank name
repeated, FilterFields returns an
instance c such that HasField(c, n) returns (true, nil) for every n of the list whose field in
R is exported, panics for every n of the list whose field in R is unexported, and returns
(false, ErrFieldNotFound) for every name that is not in the list. -/
theorem FilterFields_then_HasField (R : Any) (names : List String) (vs : Value) (p : Bool)
    (hres : valueOfStruct R false = .ok (vs, p)) (hvalid : validStruct vs.Type.fields)
    (hemb : noEmbedded vs.Type.fields)
    (hall : ∀ n ∈ names, ∃ f ∈ vs.Type.fields, f.Name = n)
    (hnodup : (names.filter (fun n => decide (n ≠ "_"))).Nodup) :
    ∃ c : Value, FilterFields R names = .ok (some c, none)
      ∧ (∀ n ∈ names, (∀ f, vs.Type.FieldByName n = some f → f.PkgPath = "") →
          HasField (some c) n = .ok (true, none))
      ∧ (∀ n ∈ names, (∀ f, vs.Type.FieldByName n = some f → f.PkgPath ≠ "") →
          ∃ msg, HasField (some c) n = .panic msg)
      ∧ (∀ n, n ∉ names → HasField (some c) n = .ok (false, some .ErrFieldNotFound)) := by
  obtain ⟨found, heval, hmap⟩ := FilterFields_eval R names vs p hres hvalid hemb hall hnodup
  obtain ⟨hn, -⟩ := found_fields hmap
  have hlook := found_lookup hmap
  have hc : valueOfStruct (some (if p then New (.struct found) else zero (.struct found))) false
      = .ok (zero (.struct found), p) := by
    have := valueOfStruct_instance found p
    cases p <;> simpa using this
  -- the field of the instance with a requested name
  have hin : ∀ n ∈ names, ∃ f, vs.Type.FieldByName n = some f
      ∧ (zero (.struct found)).FieldByName n = some (f, zeroField f) := by
    intro n hnm
    rw [← hn] at hnm
    obtain ⟨g, hg, hgn⟩ := List.mem_map.1 hnm
    cases hfind : found.find? (fun f => decide (f.Name = n)) with
    | none =>
      have := List.find?_eq_none.1 hfind g hg
      simp [hgn] at this
    | some f =>
      have hfm := List.mem_of_find?_eq_some hfind
      have hfn : f.Name = n := by simpa using List.find?_some hfind
      refine ⟨f, ?_, ?_⟩
      · rw [← hfn]; exact hlook f hfm
      · rw [zero_struct_FieldByName, hfind]; rfl
  refine ⟨if p then New (.struct found) else zero (.struct found), ?_, ?_, ?_, ?_⟩
  · rw [heval]
    cases p <;> simp
  · intro n hnm hexp
    obtain ⟨f, hf, hz⟩ := hin n hnm
    have h3 := (Field_eval (some (if p then New (.struct found) else zero (.struct found))) n).2.2.1
      (zero (.struct found), p) (f, zeroField f) hc hz (hexp f hf)
    rw [HasField, h3]
  · intro n hnm hunexp
    obtain ⟨f, hf, hz⟩ := hin n hnm
    obtain ⟨msg, h4⟩ :=
      (Field_eval (some (if p then New (.struct found) else zero (.struct found))) n).2.2.2
        (zero (.struct found), p) (f, zeroField f) hc hz (hunexp f hf)
    exact ⟨msg, by rw [HasField, h4]⟩
  · intro n hnm
    have hnone : (zero (.struct found)).FieldByName n = none := by
      rw [zero_struct_FieldByName]
      have : found.find? (fun f => decide (f.Name = n)) = none := by
        apply List.find?_eq_none.2
        intro g hg
        simp only [decide_eq_true_eq]
        intro hgn
        apply hnm
        rw [← hn, ← hgn]
        exact List.mem_map.2 ⟨g, hg, rfl⟩
      rw [this]; rfl
    have h2 := (Field_eval (some (if p then New (.struct found) else zero (.struct found))) n).2.1
      (zero (.struct found), p) hc hnone
    rw [HasField, h2]

/-- Witness for C13: the name A on struct(A: 1, B: 2). -/
theorem FilterFields_then_HasField_witness :
    valueOfStruct (some structAB) false = .ok (structAB, false)
    ∧ validStruct structAB.Type.fields
    ∧ noEmbedded structAB.Type.fields
    ∧ ∃ c : Value, FilterFields (some structAB) ["A"] = .ok (some c, none)
      ∧ (∀ n ∈ ["A"], (∀ f, structAB.Type.FieldByName n = some f → f.PkgPath = "") →
          HasField (some c) n = .ok (true, none))
      ∧ (∀ n ∈ ["A"], (∀ f, structAB.Type.FieldByName n = some f → f.PkgPath ≠ "") →
          ∃ msg, HasField (some c) n = .panic msg)
      ∧ (∀ n, n ∉ ["A"] → HasField (some c) n = .ok (false, some .ErrFieldNotFound)) :=
  ⟨rfl, by decide, by decide,
    FilterFields_then_HasField (some structAB) ["A"] structAB false rfl (by decide)
      (by decide) (by decide) (by decide)⟩

/-- Claim C14, evaluated at the failing input. The builder of the test holds the keys A and B.
When `range sb.Fields` yields B before A, BuildPointer returns a pointer to a zero
struct(B float32, A int64), and CopyFields from a record struct(A: 42, C: 5) panics: for the
field A at index 1 of the destination the loop reads `vs.Field(1)`, the string field C. When
the range yields A before B the call returns nil and field A of the result holds 42. -/
theorem builder_scenario_panics_for_order_B_A :
    testBuilder.rangeOrder ["B", "A"]
    ∧ testBuilder.BuildPointer ["B", "A"] = .ok (some (.ptr none
        (.struct [⟨"B", "", .basic .float32, "ola:\"mundo\"", false⟩,
          ⟨"A", "", .basic .int64, "hello:\"world\"", false⟩])
        (some (.struct none [(⟨"B", "", .basic .float32, "ola:\"mundo\"", false⟩, float32Val 0),
          (⟨"A", "", .basic .int64, "hello:\"world\"", false⟩, int64Val 0)]))))
    ∧ CopyFields (some structAC) (some (.ptr none
        (.struct [⟨"B", "", .basic .float32, "ola:\"mundo\"", false⟩,
          ⟨"A", "", .basic .int64, "hello:\"world\"", false⟩])
        (some (.struct none [(⟨"B", "", .basic .float32, "ola:\"mundo\"", false⟩, float32Val 0),
          (⟨"A", "", .basic .int64, "hello:\"world\"", false⟩, int64Val 0)]))))
      = .panic "reflect.Set: value is not assignable to type"
    ∧ testBuilder.rangeOrder ["A", "B"]
    ∧ testBuilder.BuildPointer ["A", "B"] = .ok (some (.ptr none
        (.struct [⟨"A", "", .basic .int64, "hello:\"world\"", false⟩,
          ⟨"B", "", .basic .float32, "ola:\"mundo\"", false⟩])
        (some (.struct none [(⟨"A", "", .basic .int64, "hello:\"world\"", false⟩, int64Val 0),
          (⟨"B", "", .basic .float32, "ola:\"mundo\"", false⟩, float32Val 0)]))))
    ∧ CopyFields (some structAC) (some (.ptr none
        (.struct [⟨"A", "", .basic .int64, "hello:\"world\"", false⟩,
          ⟨"B", "", .basic .float32, "ola:\"mundo\"", false⟩])
        (some (.struct none [(⟨"A", "", .basic .int64, "hello:\"world\"", false⟩, int64Val 0),
          (⟨"B", "", .basic .float32, "ola:\"mundo\"", false⟩, float32Val 0)]))))
      = .ok (none, some (.ptr none
        (.struct [⟨"A", "", .basic .int64, "hello:\"world\"", false⟩,
          ⟨"B", "", .basic .float32, "ola:\"mundo\"", false⟩])
        (some (.struct none [(⟨"A", "", .basic .int64, "hello:\"world\"", false⟩, int64Val 42),
          (⟨"B", "", .basic .float32, "ola:\"mundo\"", false⟩, float32Val 0)])))) := by
  have hkeys : ∀ key, testBuilder.Fields key ≠ none ↔ (key = "A" ∨ key = "B") := by
    intro key
    simp only [testBuilder, structBuilder.WithFields, structBuilder.WithField, NewStructBuilder]
    by_cases hb : key = "B"
    · simp [hb]
    · by_cases ha : key = "A"
      · simp [ha]
      · simp [ha, hb]
  refine ⟨⟨by decide, fun key => ?_⟩, rfl, rfl, ⟨by decide, fun key => ?_⟩, rfl, rfl⟩
  · rw [hkeys]; simp; tauto
  · rw [hkeys]; simp

/-- Counterexample to C15. The variable `s` holds `s.A = 5` and a zero record `s.X`. The call
`CopyFields(&s, &s.X)` returns nil, and afterwards the record that src points to, `s`, is no
longer what it was: `s.X.A` is 5 and `s.X.X` holds a copy of the former `s.X`. -/
theorem CopyFieldsWithin_changes_source :
    subObject [] nestedVar = some nestedVar
    ∧ CopyFieldsWithin nestedVar [] [1]
      = some (.ok (none, .struct none [(fieldA, int64Val 5), (fieldXInner, nestedInner1)]))
    ∧ subObject [] (.struct none [(fieldA, int64Val 5), (fieldXInner, nestedInner1)])
        ≠ some nestedVar := by
  refine ⟨rfl, rfl, ?_⟩
  intro h
  simp [subObject, nestedVar, nestedInner1, int64Val] at h

/-- Claim C15, amended. After a successful CopyFields(src, dst) in which the record of dst does
not overlap the record of src, with the names of dst telling its fields apart as in every Go
struct (`distinctNames`):

* src and dst in different variables (`CopyFields`, where the call has no access to src other
  than reading it): dst is still a pointer to a struct of the same type with the same declared
  fields in the same order; a field of dst whose same-named source field has the identical
  type, or a type that implements the interface type of the dst field, has been assigned (it
  holds what `Set` stores for the source value that the loop read); every other field of dst
  holds the value it had before the call;
* src and dst pointers into one variable, at paths that do not overlap (`CopyFieldsWithin`):
  the record of src is unchanged, as is every record of the variable that does not overlap the
  record of dst, and the record of dst satisfies the same three statements. -/
theorem CopyFields_frame :
    (∀ (src dst after : Any) (vs : Value) (ps : Bool) (vd : Value) (pd : Bool),
      valueOfStruct src false = .ok (vs, ps) → valueOfStruct dst true = .ok (vd, pd) →
      distinctNames vd.Type.fields → CopyFields src dst = .ok (none, after) →
      ∃ vd' : Value, valueOfStruct after true = .ok (vd', true)
        ∧ vd'.Type = vd.Type
        ∧ vd'.fields.map Prod.fst = vd.fields.map Prod.fst
        ∧ ∀ (j : Nat) (d : StructField Ty) (old new : Value),
            vd.fields[j]? = some (d, old) → vd'.fields[j]? = some (d, new) →
            (copiedFrom vs d → ∃ x, vs.fields[j]? = some x ∧ Value.Set d x = .ok new)
            ∧ (¬ copiedFrom vs d → new = old))
    ∧ (∀ (root : Value) (ps pd : List Nat) (s d after : Value),
      subObject ps root = some s → subObject pd root = some d → disjointPaths ps pd →
      distinctNames d.Type.fields →
      CopyFieldsWithin root ps pd = some (.ok (none, after)) →
      subObject ps after = some s
      ∧ (∀ q, disjointPaths q pd → subObject q after = subObject q root)
      ∧ ∃ d' : Value, subObject pd after = some d'
        ∧ d'.Type = d.Type
        ∧ d'.fields.map Prod.fst = d.fields.map Prod.fst
        ∧ ∀ (j : Nat) (f : StructField Ty) (old new : Value),
            d.fields[j]? = some (f, old) → d'.fields[j]? = some (f, new) →
            (copiedFrom s f → ∃ x, s.fields[j]? = some x ∧ Value.Set f x = .ok new)
            ∧ (¬ copiedFrom s f → new = old)) := by
  refine ⟨?_, ?_⟩
  · intro src dst after vs ps vd pd hs hd hnames h
    obtain ⟨vs2, ps2, nm, e, snm, fs, fin, hs2, rfl, hl, rfl⟩ := CopyFields_ok_inv h
    rw [hs] at hs2
    cases hs2
    rw [valueOfStruct_ptr_struct] at hd
    cases hd
    rw [Value.type_fields] at hnames
    obtain ⟨final, rfl, hmap, hframe⟩ :=
      copyFieldsLoop_frame vs snm fs hnames (Value.struct snm fs).Type.fields.length 0 fs fin
        (by rw [Value.type_fields]; simp) rfl hl
    refine ⟨.struct snm final, valueOfStruct_ptr_struct _ _ _ _ _,
      Value.type_struct_congr snm hmap, hmap, ?_⟩
    intro j d old new hj hnew
    obtain ⟨h1, h2⟩ := hframe j d old new hj hnew
    exact ⟨fun hc => h1 ⟨Nat.zero_le _, hc⟩, fun hc => h2 (fun h => hc h.2)⟩
  · intro root ps pd s d after hs hd hdis hnames h
    obtain ⟨s2, snm, fs, hs2, hk, hd2, hl⟩ := CopyFieldsWithin_ok_inv h
    rw [hs] at hs2
    cases hs2
    rw [hd] at hd2
    cases hd2
    obtain ⟨hok, hpanic⟩ := copyFieldsWithinLoop_disjoint ps pd hdis s.Type
      (Value.struct snm fs).Type s (Value.struct snm fs).Type.fields.length 0 root
      (.struct snm fs) hs hd
    cases hc : copyFieldsLoop s s.Type (Value.struct snm fs).Type
        (Value.struct snm fs).Type.fields.length 0 (.struct snm fs) with
    | panic msg => rw [hpanic msg hc] at hl; cases hl
    | ok fin =>
      rw [hok fin hc] at hl
      cases hl
      rw [Value.type_fields] at hnames
      obtain ⟨final, rfl, hmap, hframe⟩ :=
        copyFieldsLoop_frame s snm fs hnames (Value.struct snm fs).Type.fields.length 0 fs fin
          (by rw [Value.type_fields]; simp) rfl hc
      refine ⟨?_, ?_, .struct snm final, subObject_putAt_same pd root _ _ hd,
        Value.type_struct_congr snm hmap, hmap, ?_⟩
      · rw [subObject_putAt_disjoint pd ps root _ hdis.1 hdis.2, hs]
      · intro q hq
        exact subObject_putAt_disjoint pd q root _ hq.1 hq.2
      · intro j f old new hj hnew
        obtain ⟨h1, h2⟩ := hframe j f old new hj hnew
        exact ⟨fun hc => h1 ⟨Nat.zero_le _, hc⟩, fun hc => h2 (fun h => hc h.2)⟩

/-- Witness for C15: in the variable `twoRecords` the source is the record `S = struct(B: 7)`
at path 0 and the destination the zero record `D = struct(B, A)` at path 1. After the call
`S` is unchanged and `D.B` holds 7. -/
theorem CopyFields_frame_witness :
    subObject [0] twoRecords = some structB
    ∧ subObject [1] twoRecords = some (.struct none [(fieldB, int64Val 0), (fieldA, int64Val 0)])
    ∧ disjointPaths [0] [1]
    ∧ distinctNames (Value.struct none [(fieldB, int64Val 0), (fieldA, int64Val 0)]).Type.fields
    ∧ CopyFieldsWithin twoRecords [0] [1]
      = some (.ok (none, .struct none [(fieldS, structB),
          (fieldD, .struct none [(fieldB, int64Val 7), (fieldA, int64Val 0)])]))
    ∧ subObject [0] (.struct none [(fieldS, structB),
          (fieldD, .struct none [(fieldB, int64Val 7), (fieldA, int64Val 0)])]) = some structB :=
  ⟨rfl, rfl, by decide, by decide, rfl,
    (CopyFields_frame.2 twoRecords [0] [1] structB
      (.struct none [(fieldB, int64Val 0), (fieldA, int64Val 0)]) _ rfl rfl (by decide)
      (by decide) rfl).1⟩

/-- Counterexample to C16. The variable `s` holds `s.A = 5` and a zero record `s.X`. The call
`CopyFields(&s, &s.X)` returns nil and leaves `s.X` in the state `nestedInner1`; the second
call returns nil and leaves `s.X` in the state `nestedInner2`, which is another state: each
call stores a copy of the current `s.X` in `s.X.X`. -/
theorem CopyFieldsWithin_not_idempotent :
    CopyFieldsWithin nestedVar [] [1]
      = some (.ok (none, .struct none [(fieldA, int64Val 5), (fieldXInner, nestedInner1)]))
    ∧ CopyFieldsWithin (.struct none [(fieldA, int64Val 5), (fieldXInner, nestedInner1)]) [] [1]
      = some (.ok (none, .struct none [(fieldA, int64Val 5), (fieldXInner, nestedInner2)]))
    ∧ subObject [1] (.struct none [(fieldA, int64Val 5), (fieldXInner, nestedInner1)])
        = some nestedInner1
    ∧ subObject [1] (.struct none [(fieldA, int64Val 5), (fieldXInner, nestedInner2)])
        = some nestedInner2
    ∧ nestedInner1 ≠ nestedInner2 := by
  refine ⟨rfl, rfl, rfl, rfl, ?_⟩
  intro h
  simp [nestedInner1, nestedInner2] at h

/-- Claim C16, amended. When the record of dst does not overlap the record of src and
CopyFields(src, dst) returns nil, a second call returns nil and leaves everything in the
state the first call produced: for src and dst in different variables (`CopyFields`, with
`after` the state of dst), and for src and dst pointers into one variable at paths that do not
overlap (`CopyFieldsWithin`, with `after` the state of the variable). -/
theorem CopyFields_idempotent :
    (∀ (src dst after : Any), CopyFields src dst = .ok (none, after) →
      CopyFields src after = .ok (none, after))
    ∧ (∀ (root : Value) (ps pd : List Nat) (after : Value), disjointPaths ps pd →
      CopyFieldsWithin root ps pd = some (.ok (none, after)) →
      CopyFieldsWithin after ps pd = some (.ok (none, after))) := by
  refine ⟨?_, ?_⟩
  · intro src dst after h
    obtain ⟨vs, ps, nm, e, snm, fs, fin, hs, rfl, hl, rfl⟩ := CopyFields_ok_inv h
    obtain ⟨final, rfl, -, hagain⟩ := copyFieldsLoop_idem vs snm fs fin hl
    exact CopyFields_of_loop nm e snm final hs hagain
  · intro root ps pd after hdis h
    obtain ⟨s, snm, fs, hs, hk, hd, hl⟩ := CopyFieldsWithin_ok_inv h
    obtain ⟨hok, hpanic⟩ := copyFieldsWithinLoop_disjoint ps pd hdis s.Type
      (Value.struct snm fs).Type s (Value.struct snm fs).Type.fields.length 0 root
      (.struct snm fs) hs hd
    cases hc : copyFieldsLoop s s.Type (Value.struct snm fs).Type
        (Value.struct snm fs).Type.fields.length 0 (.struct snm fs) with
    | panic msg => rw [hpanic msg hc] at hl; cases hl
    | ok fin =>
      rw [hok fin hc] at hl
      cases hl
      obtain ⟨final, rfl, hmap, hagain⟩ := copyFieldsLoop_idem s snm fs fin hc
      have hs' : subObject ps (putAt pd root (.struct snm final)) = some s := by
        rw [subObject_putAt_disjoint pd ps root _ hdis.1 hdis.2, hs]
      have hd' := subObject_putAt_same pd root _ (.struct snm final) hd
      apply CopyFieldsWithin_of_loop snm final hs' hk hd'
      rw [(copyFieldsWithinLoop_disjoint ps pd hdis s.Type (Value.struct snm final).Type s
        (Value.struct snm final).Type.fields.length 0 _ (.struct snm final) hs' hd').1 _ hagain,
        putAt_putAt]

/-- Witness for C16: the source struct(A: 1, B: 2) and a pointer to a zero struct(B, A) in
another variable; and the records `S` and `D` of the variable `twoRecords`. -/
theorem CopyFields_idempotent_witness :
    CopyFields (some structAB) (some ptrZeroBA)
      = .ok (none, some (.ptr none (.struct [fieldB, fieldA])
          (some (.struct none [(fieldB, int64Val 1), (fieldA, int64Val 2)]))))
    ∧ CopyFields (some structAB) (some (.ptr none (.struct [fieldB, fieldA])
          (some (.struct none [(fieldB, int64Val 1), (fieldA, int64Val 2)]))))
      = .ok (none, some (.ptr none (.struct [fieldB, fieldA])
          (some (.struct none [(fieldB, int64Val 1), (fieldA, int64Val 2)]))))
    ∧ disjointPaths [0] [1]
    ∧ CopyFieldsWithin twoRecords [0] [1]
      = some (.ok (none, .struct none [(fieldS, structB),
          (fieldD, .struct none [(fieldB, int64Val 7), (fieldA, int64Val 0)])]))
    ∧ CopyFieldsWithin (.struct none [(fieldS, structB),
          (fieldD, .struct none [(fieldB, int64Val 7), (fieldA, int64Val 0)])]) [0] [1]
      = some (.ok (none, .struct none [(fieldS, structB),
          (fieldD, .struct none [(fieldB, int64Val 7), (fieldA, int64Val 0)])])) :=
  ⟨rfl, CopyFields_idempotent.1 (some structAB) (some ptrZeroBA) _ rfl, by decide, rfl,
    CopyFields_idempotent.2 twoRecords [0] [1] _ (by decide) rfl⟩

/-- Counterexample to C17. A builder whose single descriptor has the name `a` and a non-nil
witness: Build and BuildPointer panic in `reflect.StructOf`, which refuses a name that is not
exported. The same holds for a descriptor with an empty name. -/
theorem Build_unexported_name_panics :
    builderLowerA.Fields "a" = some ⟨some (int64Val 42), ""⟩
    ∧ builderLowerA.Build ["a"]
        = .panic "reflect.StructOf: field is unexported but missing PkgPath"
    ∧ builderLowerA.BuildPointer ["a"]
        = .panic "reflect.StructOf: field is unexported but missing PkgPath"
    ∧ builderEmptyName.Fields "" = some ⟨some (int64Val 42), ""⟩
    ∧ builderEmptyName.Build [""] = .panic "reflect.StructOf: field has no name" :=
  ⟨rfl, rfl, rfl, rfl, rfl⟩

/-- Claim C17, amended. For every order in which the map of a builder is ranged over: when
the witnesses are all non-nil and the names are all identifiers that start with an upper-case
letter, Build returns a value (of kind Struct, not a pointer) of a struct type with exactly
one field per accumulated name, each exported, with the run-time type of its witness and its
tag, every field holding the zero value of its type, and BuildPointer returns a non-nil
pointer to that zero value; when one of the names is empty or starts with a lower-case letter
of ASCII or an underscore, Build and BuildPointer panic. -/
theorem Build_result (sb : structBuilder) (order : List String)
    (horder : sb.rangeOrder order) :
    ((∀ name fld, sb.Fields name = some fld → fld.Typ ≠ none) →
      (∀ name, sb.Fields name ≠ none →
        isValidFieldName name = true ∧ startsLower name = false) →
      ∃ fs : List (StructField Ty),
        sb.Build order = .ok (some (zero (.struct fs)))
        ∧ sb.BuildPointer order = .ok (some (.ptr none (.struct fs) (some (zero (.struct fs)))))
        ∧ (zero (.struct fs)).Kind = .Struct
        ∧ (zero (.struct fs)).Type = .struct fs
        ∧ (zero (.struct fs)).fields = fs.map (fun f => (f, zero f.Typ))
        ∧ fs.map (fun f => f.Name) = order
        ∧ ∀ f ∈ fs, f.PkgPath = "" ∧ ∃ (fld : structBuilderField) (w : Value),
            sb.Fields f.Name = some fld ∧ fld.Typ = some w ∧ f.Typ = w.Type ∧ f.Tag = fld.Tag)
    ∧ (∀ name, sb.Fields name ≠ none → (name = "" ∨ startsLower name = true) →
        ∃ msg, sb.Build order = .panic msg ∧ sb.BuildPointer order = .panic msg) := by
  refine ⟨?_, ?_⟩
  · intro hw hnames
    obtain ⟨h1, h2, h3⟩ := buildPointer_eval sb order horder hw hnames
    refine ⟨order.filterMap sb.fieldOf, ?_, ?_, zero_struct_kind _, zero_struct_type _,
      zero_struct_fields _, h2, h3⟩
    · simp [structBuilder.Build, h1, New, Value.Elem]
    · simp [structBuilder.BuildPointer, h1, New]
  · intro name hkey hname
    obtain ⟨msg, hmsg⟩ := buildPointer_refused sb order horder name hkey hname
    exact ⟨msg, by simp [structBuilder.Build, hmsg], by simp [structBuilder.BuildPointer, hmsg]⟩

/-- Witness for C17: the builder with the single field A int64. -/
theorem Build_result_witness :
    builderA.rangeOrder ["A"]
    ∧ ∃ fs : List (StructField Ty),
      builderA.Build ["A"] = .ok (some (zero (.struct fs)))
      ∧ builderA.BuildPointer ["A"]
          = .ok (some (.ptr none (.struct fs) (some (zero (.struct fs)))))
      ∧ (zero (.struct fs)).Kind = .Struct
      ∧ (zero (.struct fs)).Type = .struct fs
      ∧ (zero (.struct fs)).fields = fs.map (fun f => (f, zero f.Typ))
      ∧ fs.map (fun f => f.Name) = ["A"]
      ∧ ∀ f ∈ fs, f.PkgPath = "" ∧ ∃ (fld : structBuilderField) (w : Value),
          builderA.Fields f.Name = some fld ∧ fld.Typ = some w ∧ f.Typ = w.Type
            ∧ f.Tag = fld.Tag :=
  have hfld : ∀ name fld, builderA.Fields name = some fld → fld.Typ ≠ none := by
    intro name fld h
    simp only [builderA, structBuilder.WithField, NewStructBuilder] at h
    split at h
    · cases h; simp
    · cases h
  have hnm : ∀ name, builderA.Fields name ≠ none →
      isValidFieldName name = true ∧ startsLower name = false := by
    intro name h
    rw [(builderA_keys name).1 h]
    decide
  ⟨(builderA_order _).2 rfl,
    (Build_result builderA ["A"] ((builderA_order _).2 rfl)).1 hfld hnm⟩

/-- Claim C18. WithFields(d1, ..., dn) leaves the accumulator equal to applying WithField for
d1, ..., dn in order: a name that occurs in the sequence maps to the type and tag of the last
descriptor that carries it, and a name that does not occur keeps its earlier entry. The
descriptors are passed by pointers that are not nil. -/
theorem WithFields_last_wins (sb : structBuilder) (flds : List Builder.StructField) :
    sb.WithFields flds = flds.foldl (fun b d => b.WithField d.Name d.Typ d.Tag) sb
    ∧ (∀ (name : String) (d : Builder.StructField),
        flds.reverse.find? (fun x => decide (x.Name = name)) = some d →
        (sb.WithFields flds).Fields name = some ⟨d.Typ, d.Tag⟩)
    ∧ (∀ name : String, (∀ d ∈ flds, d.Name ≠ name) →
        (sb.WithFields flds).Fields name = sb.Fields name) := by
  induction flds generalizing sb with
  | nil =>
    refine ⟨rfl, ?_, fun _ _ => rfl⟩
    intro name d h
    simp at h
  | cons d0 rest ih =>
    obtain ⟨ih1, ih2, ih3⟩ := ih (sb.WithField d0.Name d0.Typ d0.Tag)
    refine ⟨?_, ?_, ?_⟩
    · simp only [structBuilder.WithFields, List.foldl_cons]
      exact ih1
    · intro name d h
      simp only [List.reverse_cons, List.find?_append] at h
      simp only [structBuilder.WithFields]
      cases hr : rest.reverse.find? (fun x => decide (x.Name = name)) with
      | some d1 =>
        rw [hr] at h
        simp only [Option.or_some, Option.some.injEq] at h
        subst h
        exact ih2 name d1 hr
      | none =>
        rw [hr] at h
        simp only [Option.none_or] at h
        have hd0 : d0.Name = name ∧ d0 = d := by
          by_cases hn : d0.Name = name
          · simp [List.find?, hn] at h
            exact ⟨hn, h⟩
          · simp [List.find?, hn] at h
        have hnone : ∀ x ∈ rest, x.Name ≠ name := by
          intro x hx
          have := List.find?_eq_none.1 hr x (List.mem_reverse.2 hx)
          simpa using this
        rw [ih3 name hnone]
        obtain ⟨hn, rfl⟩ := hd0
        simp [structBuilder.WithField, hn]
    · intro name hno
      simp only [structBuilder.WithFields]
      rw [ih3 name (fun x hx => hno x (List.mem_cons_of_mem _ hx))]
      have : name ≠ d0.Name := fun h => hno d0 (List.mem_cons_self _ _) h.symm
      simp [structBuilder.WithField, this]

/-- Witness for C18: the descriptors A, B, A on a new builder; the second A wins. -/
theorem WithFields_last_wins_witness :
    [(⟨"A", some (int64Val 1), "x"⟩ : Builder.StructField), ⟨"B", some (stringVal 0), "y"⟩,
        ⟨"A", some (float32Val 0), "z"⟩].reverse.find? (fun x => decide (x.Name = "A"))
      = some ⟨"A", some (float32Val 0), "z"⟩
    ∧ (NewStructBuilder.WithFields
        [⟨"A", some (int64Val 1), "x"⟩, ⟨"B", some (stringVal 0), "y"⟩,
          ⟨"A", some (float32Val 0), "z"⟩]).Fields "A" = some ⟨some (float32Val 0), "z"⟩ :=
  ⟨rfl, (WithFields_last_wins NewStructBuilder
    [⟨"A", some (int64Val 1), "x"⟩, ⟨"B", some (stringVal 0), "y"⟩,
      ⟨"A", some (float32Val 0), "z"⟩]).2.1 "A" ⟨"A", some (float32Val 0), "z"⟩ rfl⟩

/-- Counterexample to C19. The builder with the single field A has a single range order, and
any two calls of Build return values of the identical type struct(A int64). -/
theorem Build_twice_same_type :
    builderA.rangeOrder ["A"]
    ∧ (∀ o1 o2 : List String, builderA.rangeOrder o1 → builderA.rangeOrder o2 →
        ∃ r1 r2 : Value, builderA.Build o1 = .ok (some r1) ∧ builderA.Build o2 = .ok (some r2)
          ∧ r1.Type = r2.Type ∧ r1.Type = .struct [fieldA]) := by
  refine ⟨(builderA_order _).2 rfl, ?_⟩
  intro o1 o2 h1 h2
  rw [(builderA_order o1).1 h1, (builderA_order o2).1 h2]
  exact ⟨.struct none [(fieldA, int64Val 0)], .struct none [(fieldA, int64Val 0)], rfl, rfl, rfl,
    rfl⟩

/-- Claim C19, amended. Two calls of Build on the same accumulator (witnesses non-nil, names
exported identifiers) return two zero values whose field lists are permutations of each other,
so that the fields are pairwise equal in name, type, tag and zero value; the two types are
identical exactly when the two calls ranged over the map in the same order. -/
theorem Build_twice (sb : structBuilder) (o1 o2 : List String)
    (h1 : sb.rangeOrder o1) (h2 : sb.rangeOrder o2)
    (hw : ∀ name fld, sb.Fields name = some fld → fld.Typ ≠ none)
    (hnames : ∀ name, sb.Fields name ≠ none →
      isValidFieldName name = true ∧ startsLower name = false) :
    ∃ fs1 fs2 : List (StructField Ty),
      sb.Build o1 = .ok (some (zero (.struct fs1)))
      ∧ sb.Build o2 = .ok (some (zero (.struct fs2)))
      ∧ (zero (.struct fs1)).Type = .struct fs1
      ∧ (zero (.struct fs2)).Type = .struct fs2
      ∧ fs1.Perm fs2
      ∧ (zero (.struct fs1)).fields = fs1.map (fun f => (f, zero f.Typ))
      ∧ (zero (.struct fs2)).fields = fs2.map (fun f => (f, zero f.Typ))
      ∧ (Ty.struct fs1 = Ty.struct fs2 ↔ o1 = o2) := by
  obtain ⟨hb1, hn1, -⟩ := buildPointer_eval sb o1 h1 hw hnames
  obtain ⟨hb2, hn2, -⟩ := buildPointer_eval sb o2 h2 hw hnames
  have hperm : o1.Perm o2 :=
    (List.perm_ext_iff_of_nodup h1.1 h2.1).2 (fun a => (h1.2 a).trans (h2.2 a).symm)
  refine ⟨o1.filterMap sb.fieldOf, o2.filterMap sb.fieldOf, ?_, ?_, zero_struct_type _,
    zero_struct_type _, hperm.filterMap _, zero_struct_fields _, zero_struct_fields _, ?_⟩
  · simp [structBuilder.Build, hb1, New, Value.Elem]
  · simp [structBuilder.Build, hb2, New, Value.Elem]
  · constructor
    · intro h
      have hfs : o1.filterMap sb.fieldOf = o2.filterMap sb.fieldOf := by
        simpa using h
      rw [← hn1, ← hn2, hfs]
    · rintro rfl
      rfl

/-- Witness for C19: the builder of the test, ranged over as A, B and as B, A. -/
theorem Build_twice_witness :
    testBuilder.rangeOrder ["A", "B"] ∧ testBuilder.rangeOrder ["B", "A"]
    ∧ ∃ fs1 fs2 : List (StructField Ty),
      testBuilder.Build ["A", "B"] = .ok (some (zero (.struct fs1)))
      ∧ testBuilder.Build ["B", "A"] = .ok (some (zero (.struct fs2)))
      ∧ (zero (.struct fs1)).Type = .struct fs1
      ∧ (zero (.struct fs2)).Type = .struct fs2
      ∧ fs1.Perm fs2
      ∧ (zero (.struct fs1)).fields = fs1.map (fun f => (f, zero f.Typ))
      ∧ (zero (.struct fs2)).fields = fs2.map (fun f => (f, zero f.Typ))
      ∧ (Ty.struct fs1 = Ty.struct fs2 ↔ ["A", "B"] = ["B", "A"]) := by
  have hkeys : ∀ key, testBuilder.Fields key ≠ none ↔ (key = "A" ∨ key = "B") := by
    intro key
    simp only [testBuilder, structBuilder.WithFields, structBuilder.WithField, NewStructBuilder]
    by_cases hb : key = "B"
    · simp [hb]
    · by_cases ha : key = "A"
      · simp [ha]
      · simp [ha, hb]
  have ho1 : testBuilder.rangeOrder ["A", "B"] :=
    ⟨by decide, fun key => by rw [hkeys]; simp⟩
  have ho2 : testBuilder.rangeOrder ["B", "A"] :=
    ⟨by decide, fun key => by rw [hkeys]; simp; tauto⟩
  have hfld : ∀ name fld, testBuilder.Fields name = some fld → fld.Typ ≠ none := by
    intro name fld h
    simp only [testBuilder, structBuilder.WithFields, structBuilder.WithField,
      NewStructBuilder] at h
    split at h
    · cases h; simp
    · split at h
      · cases h; simp
      · cases h
  have hnm : ∀ name, testBuilder.Fields name ≠ none →
      isValidFieldName name = true ∧ startsLower name = false := by
    intro name h
    rcases (hkeys name).1 h with rfl | rfl <;> decide
  exact ⟨ho1, ho2, Build_twice testBuilder _ _ ho1 ho2 hfld hnm⟩

/-- Counterexample to C20. The source struct(a: 1) and the destination pointer to a zero
struct(a) have the same shape, both resolve, and CopyFields does not return nil: it panics on
the unexported field. -/
theorem CopyFields_same_shape_unexported_panics :
    valueOfStruct (some structLowerA) false = .ok (structLowerA, false)
    ∧ valueOfStruct (some ptrZeroLowerA) true
        = .ok (.struct none [(fieldLowerA, int64Val 0)], true)
    ∧ structLowerA.Type.fields = (Value.struct none [(fieldLowerA, int64Val 0)]).Type.fields
    ∧ (∀ after, CopyFields (some structLowerA) (some ptrZeroLowerA) ≠ .ok (none, after)) :=
  ⟨rfl, rfl, rfl, fun after h => by
    have : CopyFields (some structLowerA) (some ptrZeroLowerA)
        = .panic "reflect: reflect.Value.Set using value obtained using unexported field" := rfl
    rw [this] at h
    cases h⟩

/-- Claim C20, amended. When src and dst resolve to structs with the same field names and
types in the same order, all fields exported, and dst is a pointer to a Go struct
(`validStruct`), CopyFields returns nil, dst keeps its type and declared fields, and every
field of dst holds the value of the field of src at the same index, which is its same-named
field. -/
theorem CopyFields_same_shape (src dst : Any) (vs : Value) (ps : Bool) (vd : Value) (pd : Bool)
    (hs : valueOfStruct src false = .ok (vs, ps)) (hd : valueOfStruct dst true = .ok (vd, pd))
    (hshape : vs.Type.fields.map (fun f => (f.Name, f.Typ))
      = vd.Type.fields.map (fun f => (f.Name, f.Typ)))
    (hvalid : validStruct vd.Type.fields)
    (hexpd : ∀ f ∈ vd.Type.fields, f.PkgPath = "")
    (hexps : ∀ f ∈ vs.Type.fields, f.PkgPath = "") :
    ∃ (after : Any) (vd' : Value), CopyFields src dst = .ok (none, after)
      ∧ valueOfStruct after true = .ok (vd', true)
      ∧ vd'.Type = vd.Type
      ∧ vd'.fields.map Prod.fst = vd.fields.map Prod.fst
      ∧ vd'.fields.map Prod.snd = vs.fields.map Prod.snd := by
  obtain ⟨nm, e, rfl, -⟩ := valueOfStruct_reference hd
  obtain ⟨snm, fs, rfl⟩ := valueOfStruct_struct hd
  obtain ⟨vnm, vfs, rfl⟩ := valueOfStruct_struct hs
  rw [Value.type_fields] at hvalid hexpd
  rw [Value.type_fields, Value.type_fields] at hshape
  rw [Value.type_fields] at hexps
  have hnames := shape_names hshape
  -- names are unique in both lists
  have hnd : ((vfs.map Prod.fst).map (fun f => f.Name)).filter (fun n => decide (n ≠ "_"))
      |>.Nodup := by
    rw [hnames]; exact hvalid.2.2
  -- the source field that the loop finds for the destination field at index i
  have hlook : ∀ (i : Nat) (d : StructField Ty), (fs.map Prod.fst)[i]? = some d →
      ∃ s v, vfs[i]? = some (s, v) ∧ s.Name = d.Name ∧ s.Typ = d.Typ ∧ s.PkgPath = ""
        ∧ d.PkgPath = "" ∧ d.Name ≠ "_"
        ∧ (Value.struct vnm vfs).Type.FieldByName d.Name = some s
        ∧ (Value.struct snm fs).Type.FieldByName d.Name = some d := by
    intro i d hdi
    obtain ⟨s, hsi, hsn, hst⟩ := shape_getElem? hshape hdi
    have hdm : d ∈ fs.map Prod.fst := List.getElem?_mem hdi
    have hsm : s ∈ vfs.map Prod.fst := List.getElem?_mem hsi
    have hdp := hexpd d hdm
    have hblank := exported_not_blank hvalid hdm hdp
    have hv : ∃ v, vfs[i]? = some (s, v) := by
      simp only [List.getElem?_map] at hsi
      cases hq : vfs[i]? with
      | none => rw [hq] at hsi; cases hsi
      | some q =>
        rw [hq] at hsi
        simp only [Option.map_some', Option.some.injEq] at hsi
        exact ⟨q.2, by rw [← hsi]⟩
    obtain ⟨v, hv⟩ := hv
    refine ⟨s, v, hv, hsn, hst, hexps s hsm, hdp, hblank, ?_, ?_⟩
    · unfold Ty.FieldByName
      rw [Value.type_fields, ← hsn]
      apply find_of_unique (fun f : StructField Ty => f.Name) _ i s hsi
      intro j b hj hb
      exact names_unique _ hnd i j s b hsi hj (hsn ▸ hblank) hb
    · unfold Ty.FieldByName
      rw [Value.type_fields]
      apply find_of_unique (fun f : StructField Ty => f.Name) _ i d hdi
      intro j b hj hb
      exact names_unique _ hvalid.2.2 i j d b hdi hj hblank hb
  -- the loop returns
  have hal : copyAligned (Value.struct vnm vfs) (.struct snm fs) := by
    intro i hi dfld hdf sfld hsf _
    have hdi : (fs.map Prod.fst)[i]? = some dfld := by
      rw [← Value.type_fields snm fs]; simpa using hdf
    obtain ⟨s, v, hv, -, -, hsp, hdp, -, hfs, hfd⟩ := hlook i dfld hdi
    have hss : sfld = s := by
      have : (Value.struct vnm vfs).Type.FieldByName dfld.Name = some sfld := by simpa using hsf
      rw [hfs] at this
      exact (Option.some.inj this).symm
    subst hss
    refine ⟨hdp, hsp, hfd, ?_⟩
    simp [Value.fields, hv]
  obtain ⟨final, hfinal, hfmap⟩ :=
    copyFieldsLoop_aligned (.struct vnm vfs) snm fs hal fs.length 0 fs (by simp) rfl
  have hlen : (Value.struct snm fs).Type.fields.length = fs.length := by
    rw [Value.type_fields]; simp
  have hl : copyFieldsLoop (.struct vnm vfs) (Value.struct vnm vfs).Type (Value.struct snm fs).Type
      (Value.struct snm fs).Type.fields.length 0 (.struct snm fs) = .ok (.struct snm final) := by
    rw [hlen]; exact hfinal
  obtain ⟨final2, heq, -, hframe⟩ :=
    copyFieldsLoop_frame (.struct vnm vfs) snm fs (validStruct_distinct hvalid) _ 0 fs _
      (by rw [hlen]; simp) rfl hl
  cases heq
  refine ⟨_, .struct snm final, CopyFields_of_loop nm e snm fs hs hl,
    valueOfStruct_ptr_struct _ _ _ _ _, Value.type_struct_congr snm hfmap, hfmap, ?_⟩
  -- every field holds the value of the source field at its index
  have hlf : final.length = fs.length := by simpa using congrArg List.length hfmap
  have hlv : vfs.length = fs.length := by
    have := congrArg List.length hshape
    simpa using this
  apply List.ext_getElem?
  intro j
  simp only [Value.fields, List.getElem?_map]
  by_cases hj : j < fs.length
  · have hfj : fs[j]? = some fs[j] := List.getElem?_eq_getElem hj
    generalize hq : fs[j] = q at hfj
    obtain ⟨d, old⟩ := q
    obtain ⟨new, hnew⟩ := getElem?_of_map_fst hfmap.symm hfj
    have hdj : (fs.map Prod.fst)[j]? = some d := by simp [hfj]
    obtain ⟨s, v, hv, hsn, hst, hsp, hdp, -, hfs, -⟩ := hlook j d hdj
    have hcop : copiedFrom (.struct vnm vfs) d := by
      refine ⟨s, hfs, ?_⟩
      unfold copies
      simp [hst]
    obtain ⟨x, hx, hset⟩ := (hframe j d old new hfj hnew).1 ⟨Nat.zero_le _, hcop⟩
    simp only [Value.fields] at hx
    rw [hv] at hx
    cases hx
    rw [Value.Set_same_type d s v hdp hsp hst] at hset
    cases hset
    simp [hnew, hv]
  · rw [List.getElem?_eq_none (by omega), List.getElem?_eq_none (by omega)]

/-- Witness for C20: the source struct(A: 1, B: 2) and a pointer to a zero struct(A, B). -/
theorem CopyFields_same_shape_witness :
    valueOfStruct (some structAB) false = .ok (structAB, false)
    ∧ valueOfStruct (some ptrZeroAB) true
        = .ok (.struct none [(fieldA, int64Val 0), (fieldB, int64Val 0)], true)
    ∧ ∃ (after : Any) (vd' : Value), CopyFields (some structAB) (some ptrZeroAB) = .ok (none, after)
      ∧ valueOfStruct after true = .ok (vd', true)
      ∧ vd'.Type = (Value.struct none [(fieldA, int64Val 0), (fieldB, int64Val 0)]).Type
      ∧ vd'.fields.map Prod.fst
          = (Value.struct none [(fieldA, int64Val 0), (fieldB, int64Val 0)]).fields.map Prod.fst
      ∧ vd'.fields.map Prod.snd = structAB.fields.map Prod.snd :=
  ⟨rfl, rfl, CopyFields_same_shape (some structAB) (some ptrZeroAB) structAB false _ true rfl rfl
    (by decide) (by decide) (by decide) (by decide)⟩

/-! ## Further properties -/

/-- CopyFields with a source that has fewer fields than the destination: the source
struct(B: 7) and a destination pointer to a zero struct(A, B) both resolve, field B of the
destination has a same-named source field of the same type, and the loop panics in
`vs.Field(1)` because the source has a single field. -/
theorem CopyFields_short_source_panics :
    valueOfStruct (some structB) false = .ok (structB, false)
    ∧ valueOfStruct (some ptrZeroAB) true
        = .ok (.struct none [(fieldA, int64Val 0), (fieldB, int64Val 0)], true)
    ∧ CopyFields (some structB) (some ptrZeroAB) = .panic "reflect: Field index out of range" :=
  ⟨rfl, rfl, rfl⟩

/-- MustFieldIsType returns exactly what FieldIsType returns: it never panics. -/
theorem MustFieldIsType_eq (t : Any) (name : String) (w : Any) :
    MustFieldIsType t name w = FieldIsType t name w := by
  unfold MustFieldIsType
  split
  · rename_i r err h
    rw [h]
    unfold FieldIsType at h
    split at h
    · simp_all
    · split at h <;> simp at h
  · rename_i r h
    rw [h]

/-- The five Must variants other than MustFieldIsType panic with the error of the strict
form and return its result when the error is nil. -/
theorem Must_variants_follow_strict_form :
    (∀ src dst err after, CopyFields src dst = .ok (some err, after) →
        MustCopyFields src dst = .panic err.Error)
    ∧ (∀ src dst after, CopyFields src dst = .ok (none, after) →
        MustCopyFields src dst = .ok after)
    ∧ (∀ t rm r err, ReplaceFieldsType t rm = .ok (r, some err) →
        MustReplaceTypeFields t rm = .panic err.Error)
    ∧ (∀ t rm r, ReplaceFieldsType t rm = .ok (r, none) → MustReplaceTypeFields t rm = .ok r)
    ∧ (∀ t flds r err, FilterFields t flds = .ok (r, some err) →
        MustFilterFields t flds = .panic err.Error)
    ∧ (∀ t flds r, FilterFields t flds = .ok (r, none) → MustFilterFields t flds = .ok r)
    ∧ (∀ t name r err, HasField t name = .ok (r, some err) →
        MustHasField t name = .panic err.Error)
    ∧ (∀ t name r, HasField t name = .ok (r, none) → MustHasField t name = .ok r)
    ∧ (∀ t name r err, Field t name = .ok (r, some err) → MustField t name = .panic err.Error)
    ∧ (∀ t name r, Field t name = .ok (r, none) → MustField t name = .ok r) := by
  refine ⟨?_, ?_, ?_, ?_, ?_, ?_, ?_, ?_, ?_, ?_⟩ <;> intros <;>
    simp_all [MustCopyFields, MustReplaceTypeFields, MustFilterFields, MustHasField, MustField]

/-- On two records of one variable that do not overlap, CopyFields on the two pointers into
the variable behaves as CopyFields on pointers to two separate variables with the same
contents: it panics when that call panics, and when that call returns nil and leaves its
destination in the state `fin`, it returns nil and leaves the variable with the destination
record in the state `fin` and everything else as it was. -/
theorem CopyFieldsWithin_agrees_with_CopyFields (root : Value) (ps pd : List Nat) (s : Value)
    (snm : Option TypeName) (fs : List (StructField Ty × Value))
    (hs : subObject ps root = some s) (hk : s.Kind = .Struct)
    (hd : subObject pd root = some (.struct snm fs)) (hdis : disjointPaths ps pd) :
    (∀ fin, CopyFields (some (.ptr none s.Type (some s)))
          (some (.ptr none (Value.struct snm fs).Type (some (.struct snm fs))))
        = .ok (none, some (.ptr none (Value.struct snm fs).Type (some fin))) →
      CopyFieldsWithin root ps pd = some (.ok (none, putAt pd root fin)))
    ∧ (∀ msg, CopyFields (some (.ptr none s.Type (some s)))
          (some (.ptr none (Value.struct snm fs).Type (some (.struct snm fs)))) = .panic msg →
      CopyFieldsWithin root ps pd = some (.panic msg)) := by
  obtain ⟨ssnm, sfs, rfl⟩ := (Value.kind_struct_iff s).1 hk
  obtain ⟨hok, hpanic⟩ := copyFieldsWithinLoop_disjoint ps pd hdis (Value.struct ssnm sfs).Type
    (Value.struct snm fs).Type (.struct ssnm sfs) (Value.struct snm fs).Type.fields.length 0 root
    (.struct snm fs) hs hd
  cases hl : copyFieldsLoop (.struct ssnm sfs) (Value.struct ssnm sfs).Type
      (Value.struct snm fs).Type (Value.struct snm fs).Type.fields.length 0 (.struct snm fs) with
  | panic m =>
    have hcf : CopyFields (some (.ptr none (Value.struct ssnm sfs).Type (some (.struct ssnm sfs))))
        (some (.ptr none (Value.struct snm fs).Type (some (.struct snm fs)))) = .panic m := by
      simp only [CopyFields, valueOfStruct_ptr_struct, Option.isNone_some, Bool.or_self,
        Bool.false_eq_true, if_false, hl]
    have hw : CopyFieldsWithin root ps pd = some (.panic m) := by
      unfold CopyFieldsWithin
      rw [hs, hd]
      simp only [valueOfStruct_ptr_struct, hpanic m hl]
    rw [hcf, hw]
    refine ⟨fun fin h => ?_, fun msg h => ?_⟩
    · cases h
    · simp only [Res.panic.injEq] at h
      rw [h]
  | ok fin =>
    rw [CopyFields_of_loop none _ snm fs (valueOfStruct_ptr_struct none _ ssnm sfs false) hl,
      CopyFieldsWithin_of_loop snm fs hs hk hd (hok fin hl)]
    refine ⟨fun f h => ?_, fun msg h => ?_⟩
    · simp only [Res.ok.injEq, Prod.mk.injEq, true_and, Option.some.injEq, Value.ptr.injEq] at h
      rw [h]
    · cases h

/-- Instance of the agreement on the variable `twoRecords`. -/
theorem CopyFieldsWithin_agrees_with_CopyFields_witness :
    subObject [0] twoRecords = some structB
    ∧ disjointPaths [0] [1]
    ∧ CopyFields (some (.ptr none structB.Type (some structB))) (some ptrZeroBA)
        = .ok (none, some (.ptr none (.struct [fieldB, fieldA])
            (some (.struct none [(fieldB, int64Val 7), (fieldA, int64Val 0)]))))
    ∧ CopyFieldsWithin twoRecords [0] [1]
      = some (.ok (none, putAt [1] twoRecords
          (.struct none [(fieldB, int64Val 7), (fieldA, int64Val 0)]))) :=
  ⟨rfl, by decide, rfl,
    (CopyFieldsWithin_agrees_with_CopyFields twoRecords [0] [1] structB none
      [(fieldB, int64Val 0), (fieldA, int64Val 0)] rfl rfl rfl (by decide)).1 _ rfl⟩

end Reflection
